import Mathlib

/-!
# A verification development for `dynamic_arrays.c`

The C file implements a growable array whose storage is one allocation block:
a 16-byte header (`item_size`, `length`, both `uint64_t`) followed by the
payload.  All memory comes from caller-supplied allocator functions.

The embedding is a block-structured memory: a pointer is a block identifier
plus a byte offset, a handle (`void* darray`) is the identifier of its block
(the payload starts at offset 16 of that block), and every load or store is
checked against the block it goes through.  An access outside a live block is
undefined behaviour in C and a `Fault` here.
-/

namespace DynArray

/-! ## Machine model -/

/-- The modulus of `uint64_t` arithmetic, `2^64`. -/
def U64 : Nat := 18446744073709551616

/-- The value of `sizeof(dynamic_array_header)`: two `uint64_t` fields. -/
def HEADER_SIZE : Nat := 16

/-- The ways a call can end without returning. -/
inductive Fault where
  /-- An `assert` failed: the process is aborted. -/
  | assertion
  /-- A null pointer was dereferenced, offset or called. -/
  | null_pointer
  /-- A load or store went outside a live block (freed block, or out of bounds). -/
  | invalid_access
  deriving DecidableEq

/-- One allocation block: its size in bytes and its contents.  Only
`bytes i` for `i < size` is memory; `bytes` at other offsets is never read. -/
structure Block where
  size : Nat
  bytes : Nat → Nat

/-- The heap: the live blocks, by identifier.  `none` is a block that was
never allocated or has been released. -/
abbrev Mem := Nat → Option Block

/-- The C type `void*(*allocator_allocate)(uint64_t)`: `none` is a `NULL` result. -/
abbrev allocator_allocate := Mem → Nat → Option (Mem × Nat)

/-- The C type `void*(*allocator_reallocate)(void*, uint64_t)`: `none` is a `NULL` result. -/
abbrev allocator_reallocate := Mem → Nat → Nat → Option (Mem × Nat)

/-- The C type `void (*allocator_deallocate)(void*, uint64_t)`. -/
abbrev allocator_deallocate := Mem → Nat → Nat → Mem

/-- Read of one `char` at offset `off` of block `b`. -/
def load (m : Mem) (b off : Nat) : Except Fault Nat :=
  match m b with
  | some blk => if off < blk.size then .ok (blk.bytes off) else .error .invalid_access
  | none => .error .invalid_access

/-- Write of one `char` at offset `off` of block `b`. -/
def store (m : Mem) (b off v : Nat) : Except Fault Mem :=
  match m b with
  | some blk =>
    if off < blk.size then
      .ok (Function.update m b (some ⟨blk.size, Function.update blk.bytes off v⟩))
    else .error .invalid_access
  | none => .error .invalid_access

/-- The little-endian value of the `k` bytes of `f` starting at `off`. -/
def read_le (f : Nat → Nat) (off : Nat) : Nat → Nat
  | 0 => 0
  | k + 1 => f off % 256 + 256 * read_le f (off + 1) k

/-- The contents `f` with the `k` low bytes of `v` written little-endian at `off`. -/
def write_le (f : Nat → Nat) (off v : Nat) : Nat → (Nat → Nat)
  | 0 => f
  | k + 1 => write_le (Function.update f off (v % 256)) (off + 1) (v / 256) k

/-- Read of a `uint64_t` field at offset `off` of block `b`. -/
def load64 (m : Mem) (b off : Nat) : Except Fault Nat :=
  match m b with
  | some blk => if off + 8 ≤ blk.size then .ok (read_le blk.bytes off 8) else .error .invalid_access
  | none => .error .invalid_access

/-- Write of a `uint64_t` field at offset `off` of block `b`. -/
def store64 (m : Mem) (b off v : Nat) : Except Fault Mem :=
  match m b with
  | some blk =>
    if off + 8 ≤ blk.size then
      .ok (Function.update m b (some ⟨blk.size, write_le blk.bytes off v 8⟩))
    else .error .invalid_access
  | none => .error .invalid_access

/-! ## The loops of the C file -/

/-- The loop `for (i = start; ...; ++i) p[i] = 0` over `count` iterations, `p` the
base of block `b` (the loop of `_dynamic_array_create`). -/
def zero_fill_up (m : Mem) (b i : Nat) : Nat → Except Fault Mem
  | 0 => .ok m
  | k + 1 => (store m b i 0).bind fun m1 => zero_fill_up m1 b (i + 1) k

/-- The loop `for (i = hi; i > lo; i--) darray_as_bytes[i] = 0` of
`_dynamic_array_resize`, over its `count = hi - lo` iterations (none when
`hi ≤ lo`).  `darray_as_bytes` is the payload pointer: offset `HEADER_SIZE` of
block `b`.  In every iteration `i > lo ≥ 0`, so `i--` does not wrap. -/
def zero_fill_down (m : Mem) (b i : Nat) : Nat → Except Fault Mem
  | 0 => .ok m
  | k + 1 => (store m b (HEADER_SIZE + i) 0).bind fun m1 => zero_fill_down m1 b (i - 1) k

/-- The loop `for (i = 0; i < count; ++i) dst[i] = src[i]` with both pointers in
memory (the loops of `_dynamic_array_copy` and `_dynamic_array_remove`).  Each
iteration reads the memory left by the previous ones. -/
def copy_bytes (m : Mem) (dst doff src soff : Nat) : Nat → Except Fault Mem
  | 0 => .ok m
  | k + 1 =>
    (load m src soff).bind fun v =>
    (store m dst doff v).bind fun m1 =>
    copy_bytes m1 dst (doff + 1) src (soff + 1) k

/-- The loop `for (i = 0; i < header->item_size; ++i) darray_bytes_to_fill[i] = data_bytes[i]`
of `_dynamic_array_insert`, from the iteration `i` on.  `darray_bytes_to_fill` is
offset `off` of block `b`; the bound is read from the header of block `b` on
every iteration; the list is the caller's object from index `i` on, and a
read past its end is an invalid access. -/
def write_bytes (m : Mem) (b off i : Nat) : List Nat → Except Fault Mem
  | [] =>
    (load64 m b 0).bind fun item_size =>
    if i < item_size then .error .invalid_access else .ok m
  | v :: rest =>
    (load64 m b 0).bind fun item_size =>
    if i < item_size then
      (store m b (off + i) v).bind fun m1 => write_bytes m1 b off (i + 1) rest
    else .ok m

/-! ## The functions of the C file

A handle `darray` is the identifier of its block; `get_dynamic_array_header(darray)`
is offset 0 of that block and the payload byte `darray[i]` is offset `16 + i`.
The header `struct dynamic_array_header` is the field `item_size` at bytes 0..7
and the field `length` at bytes 8..15.  All `uint64_t` arithmetic is reduced
modulo `U64`.  The loops of resize and remove re-read their bound from the
header on every iteration; their bodies store at payload offsets only (`16 + i`
of the block), never at header bytes, so the bound is read once before the
loop.  The loop of insert, whose target pointer can point into the header,
re-reads its bound. -/

/-- The C function `_dynamic_array_create`. -/
def _dynamic_array_create (m : Mem) (item_size length : Nat)
    (alloc : Option allocator_allocate) : Except Fault (Mem × Nat) :=
  match alloc with
  | none => .error .assertion
  | some alloc =>
    if item_size = 0 then .error .assertion
    else
      let total_size := (HEADER_SIZE + (item_size * length) % U64) % U64
      match alloc m total_size with
      | none => .error .assertion
      | some (m1, total_memory) =>
        (zero_fill_up m1 total_memory HEADER_SIZE (total_size - HEADER_SIZE)).bind fun m2 =>
        (store64 m2 total_memory 0 item_size).bind fun m3 =>
        (store64 m3 total_memory 8 length).bind fun m4 =>
        .ok (m4, total_memory)

/-- The C function `_dynamic_array_destroy`. -/
def _dynamic_array_destroy (m : Mem) (darray : Nat)
    (deallocate : Option allocator_deallocate) : Except Fault Mem :=
  (load64 m darray 0).bind fun item_size =>
  (load64 m darray 8).bind fun length =>
  match deallocate with
  | none => .error .null_pointer
  | some deallocate => .ok (deallocate m darray (((item_size * length) % U64 + HEADER_SIZE) % U64))

/-- The C function `_dynamic_array_length`. -/
def _dynamic_array_length (m : Mem) (darray : Nat) : Except Fault Nat :=
  load64 m darray 8

/-- The C function `_dynamic_array_index`.  The result is the payload offset of
the returned pointer (`darray + item_size * index`), `none` for `NULL`. -/
def _dynamic_array_index (m : Mem) (darray index : Nat) : Except Fault (Option Nat) :=
  (load64 m darray 8).bind fun length =>
  if index < length then
    (load64 m darray 0).bind fun item_size => .ok (some ((item_size * index) % U64))
  else .ok none

/-- The C function `_dynamic_array_resize`.  The zero-fill goes through
`darray`, the pointer the function was called with; the header is read and
written through `header`, the pointer `realloc` returned. -/
def _dynamic_array_resize (m : Mem) (darray new_length : Nat)
    (realloc : Option allocator_reallocate) : Except Fault (Mem × Nat) :=
  (load64 m darray 0).bind fun item_size =>
  match realloc with
  | none => .error .null_pointer
  | some realloc =>
    match realloc m darray ((HEADER_SIZE + (new_length * item_size) % U64) % U64) with
    | none => .error .null_pointer
    | some (m1, header) =>
      (load64 m1 header 8).bind fun length =>
      (if length < new_length then
        (load64 m1 header 0).bind fun item_size1 =>
        let hi := ((new_length * item_size1) % U64 + U64 - 1) % U64
        let lo := ((length * item_size1) % U64 + U64 - 1) % U64
        zero_fill_down m1 darray hi (hi - lo)
      else .ok m1).bind fun m2 =>
      (store64 m2 header 8 new_length).bind fun m3 =>
      .ok (m3, header)

/-- The C function `_dynamic_array_copy`. -/
def _dynamic_array_copy (m : Mem) (darray : Nat)
    (alloc : Option allocator_allocate) : Except Fault (Mem × Nat) :=
  (load64 m darray 8).bind fun length =>
  (load64 m darray 0).bind fun item_size =>
  let total_size := ((length * item_size) % U64 + HEADER_SIZE) % U64
  match alloc with
  | none => .error .null_pointer
  | some alloc =>
    match alloc m total_size with
    | none => .error .null_pointer
    | some (m1, darray_bytes) =>
      (copy_bytes m1 darray_bytes 0 darray 0 total_size).bind fun m2 =>
      .ok (m2, darray_bytes)

/-- The C function `_dynamic_array_insert`; `data` is the object `data` points
to (`none` for a null pointer).  The pointer `darray + length * item_size -
item_size` is offset `past_end - item_size` of the block; when that is below
the start of the block the first store of the loop is an invalid access. -/
def _dynamic_array_insert (m : Mem) (darray : Nat) (data : Option (List Nat)) (data_size : Nat)
    (realloc : Option allocator_reallocate) : Except Fault (Mem × Nat) :=
  (load64 m darray 0).bind fun item_size =>
  match realloc, data with
  | some realloc, some data_bytes =>
    if item_size = data_size then
      (load64 m darray 8).bind fun length =>
      (_dynamic_array_resize m darray ((length + 1) % U64) (some realloc)).bind fun r =>
      (load64 r.1 r.2 8).bind fun length1 =>
      (load64 r.1 r.2 0).bind fun item_size1 =>
      let past_end := HEADER_SIZE + (length1 * item_size1) % U64
      if item_size1 ≤ past_end then
        (write_bytes r.1 r.2 (past_end - item_size1) 0 data_bytes).bind fun m2 =>
        .ok (m2, r.2)
      else .error .invalid_access
    else .error .assertion
  | _, _ => .error .assertion

/-- The C function `_dynamic_array_remove`. -/
def _dynamic_array_remove (m : Mem) (darray index : Nat)
    (realloc : Option allocator_reallocate) : Except Fault (Mem × Nat) :=
  (load64 m darray 8).bind fun length =>
  if length > index then
    (load64 m darray 0).bind fun item_size =>
    let copy_off := HEADER_SIZE + (item_size * index) % U64
    let read_off := copy_off + item_size
    (copy_bytes m darray copy_off darray read_off
      (((length - index - 1) * item_size) % U64)).bind fun m1 =>
    _dynamic_array_resize m1 darray (length - 1) realloc
  else .error .assertion

/-! ## Allocators used at concrete inputs -/

/-- An allocator that places the new block at identifier `id` when that
identifier is free and fails otherwise; the block's contents are `junk`. -/
def alloc_at (id : Nat) (junk : Nat → Nat) : allocator_allocate := fun m size =>
  match m id with
  | none => some (Function.update m id (some ⟨size, junk⟩), id)
  | some _ => none

/-- A reallocator that always resizes in place; bytes beyond the old size are `junk`. -/
def realloc_in_place (junk : Nat → Nat) : allocator_reallocate := fun m b size =>
  match m b with
  | some old =>
    some (Function.update m b
      (some ⟨size, fun i => if i < old.size then old.bytes i else junk i⟩), b)
  | none => none

/-- A reallocator that moves the block to identifier `b + 1` when that
identifier is free (releasing block `b`) and resizes in place otherwise; bytes
beyond the old size are `junk`. -/
def realloc_move (junk : Nat → Nat) : allocator_reallocate := fun m b size =>
  match m b with
  | some old =>
    match m (b + 1) with
    | none =>
      some (Function.update (Function.update m b none) (b + 1)
        (some ⟨size, fun i => if i < old.size then old.bytes i else junk i⟩), b + 1)
    | some _ =>
      some (Function.update m b
        (some ⟨size, fun i => if i < old.size then old.bytes i else junk i⟩), b)
  | none => none

/-- A reallocator that always fails. -/
def realloc_fail : allocator_reallocate := fun _ _ _ => none

/-- The empty heap. -/
def empty_mem : Mem := fun _ => none

/-- The payload byte `darray[i]` of the handle of a result, when the call returned and
the byte is inside the block. -/
def result_byte (r : Except Fault (Mem × Nat)) (i : Nat) : Option Nat :=
  match r with
  | .ok (m, darray) =>
    match load m darray (HEADER_SIZE + i) with
    | .ok v => some v
    | .error _ => none
  | .error _ => none

/-- The `length` field of the handle of a result, when the call returned. -/
def result_length (r : Except Fault (Mem × Nat)) : Option Nat :=
  match r with
  | .ok (m, darray) =>
    match _dynamic_array_length m darray with
    | .ok v => some v
    | .error _ => none
  | .error _ => none

/-- The fault of a result, when the call did not return. -/
def result_fault {α : Type} (r : Except Fault α) : Option Fault :=
  match r with
  | .ok _ => none
  | .error e => some e

/-! ## The iteration macro

The macro `darray_iterate(DynamicArray, Index)` expands to the loop header
`for(uint64_t Index = 0; Index < darray_length(DynamicArray); ++i)`; the
statement after it is the body.  The macro parameter `Index` names the variable
the loop declares and tests; the increment is the token `i`, whatever `Index`
is.  Variables are looked up by name: when `Index` is `i` the increment is of
the loop variable, otherwise it is of the variable `i` of the enclosing scope
(without one the use does not compile). -/

/-- The loop `for(...; Index < darray_length(DynamicArray); ++i) body` from a
test of its condition on, for at most `fuel` tests.  `vars` holds the `uint64_t`
variables in scope by name, the loop variable among them.  The body is run with
the value of `Index` and the heap and leaves a heap.  The result is the heap,
the values of `Index` the body was run with, in order, and whether the loop
has ended (`false`: still running when the fuel was used up). -/
def iterate_from (darray : Nat) (Index : String) (body : Nat → Mem → Except Fault Mem)
    (m : Mem) (vars : String → Nat) : Nat → Except Fault (Mem × List Nat × Bool)
  | 0 => .ok (m, [], false)
  | fuel + 1 =>
    (_dynamic_array_length m darray).bind fun length =>
    if vars Index < length then
      (body (vars Index) m).bind fun m1 =>
      (iterate_from darray Index body m1
        (Function.update vars "i" ((vars "i" + 1) % U64)) fuel).bind fun r =>
      .ok (r.1, vars Index :: r.2.1, r.2.2)
    else .ok (m, [], true)

/-- The macro `darray_iterate(DynamicArray, Index)` followed by `body`: the
declaration `uint64_t Index = 0`, then the loop. -/
def darray_iterate (darray : Nat) (Index : String) (body : Nat → Mem → Except Fault Mem)
    (m : Mem) (vars : String → Nat) (fuel : Nat) : Except Fault (Mem × List Nat × Bool) :=
  iterate_from darray Index body m (Function.update vars Index 0) fuel

/-! ## Auxiliary definitions -/

/-- Replacing the contents of block `b`. -/
def set_block (m : Mem) (b size : Nat) (f : Nat → Nat) : Mem :=
  Function.update m b (some ⟨size, f⟩)

/-- The relation `Handle m darray blk item_size length`: in the heap `m`, `darray` is a live
handle whose block is `blk`; the header of `blk` records `item_size` and
`length`, and `blk` is exactly the header followed by `length` elements of
`item_size` bytes.  Block sizes are `uint64_t` values. -/
def Handle (m : Mem) (darray : Nat) (blk : Block) (item_size length : Nat) : Prop :=
  m darray = some blk ∧ blk.size = HEADER_SIZE + item_size * length ∧ blk.size < U64 ∧
    read_le blk.bytes 0 8 = item_size ∧ read_le blk.bytes 8 8 = length

/-- Element `j` of a block of `item_size`-byte elements: its bytes, in order. -/
def element (blk : Block) (item_size j : Nat) : List Nat :=
  (List.range item_size).map fun k => blk.bytes (HEADER_SIZE + item_size * j + k)

/-- The array behind a block, as the list of its `length` elements. -/
def elements (blk : Block) (item_size length : Nat) : List (List Nat) :=
  (List.range length).map (element blk item_size)

/-- Modelled from the spec: the `reallocate` capability is not part of the C
file (the caller passes it).  On a live block `reallocate(block, new_size)`
"returns a block of exactly `new_size` bytes whose first `min(old_size,
new_size)` bytes equal the input block's bytes; may relocate". -/
def ReallocateContract (realloc : allocator_reallocate) : Prop :=
  ∀ (m : Mem) (b size : Nat) (old : Block) (m1 : Mem) (b1 : Nat),
    m b = some old → realloc m b size = some (m1, b1) →
    ∃ new, m1 b1 = some new ∧ new.size = size ∧
      ∀ i, i < old.size → i < size → new.bytes i = old.bytes i

/-- The `reallocate` capability does not fail on a live block. -/
def ReallocateSucceeds (realloc : allocator_reallocate) : Prop :=
  ∀ (m : Mem) (b size : Nat), (m b).isSome = true → (realloc m b size).isSome = true

/-- Modelled from the spec: the block `reallocate` returns is the input block
or a block that was not live before, and no other block is touched. -/
def ReallocateFrame (realloc : allocator_reallocate) : Prop :=
  ∀ (m : Mem) (b size : Nat) (m1 : Mem) (b1 : Nat), realloc m b size = some (m1, b1) →
    (b1 = b ∨ m b1 = none) ∧ ∀ c, c ≠ b → c ≠ b1 → m1 c = m c

/-- Modelled from the spec: the `allocate` capability is not part of the C file
(the caller passes it).  `allocate(size)` "returns a fresh block of exactly
`size` bytes, contents unspecified"; no other block is touched. -/
def AllocateContract (alloc : allocator_allocate) : Prop :=
  ∀ (m : Mem) (size : Nat) (m1 : Mem) (b : Nat), alloc m size = some (m1, b) →
    m b = none ∧ (∃ blk, m1 b = some blk ∧ blk.size = size) ∧ ∀ c, c ≠ b → m1 c = m c

/-- Contents of the sample block: header `item_size = 4`, `length = 3`, payload
byte `i` holding `16 + i`. -/
def sample_bytes : Nat → Nat :=
  fun i => if i = 0 then 4 else if i = 8 then 3 else if 16 ≤ i then i else 0

/-- A block of three 4-byte elements. -/
def sample_block : Block := ⟨28, sample_bytes⟩

/-- A heap whose only live block is `sample_block`, at identifier 0. -/
def sample_mem : Mem := set_block empty_mem 0 28 sample_bytes

/-- The contents every test allocator leaves in memory it does not initialise. -/
def junk_FF : Nat → Nat := fun _ => 255

/-- The size of the block behind the handle of a result, when the call returned
a live handle. -/
def result_block_size (r : Except Fault (Mem × Nat)) : Option Nat :=
  match r with
  | .ok (m, darray) => (m darray).map Block.size
  | .error _ => none

/-- A heap whose only live block, at identifier 0, is an empty array of 4-byte
elements: the 16 header bytes with `item_size = 4`, `length = 0`. -/
def empty_array_mem : Mem := set_block empty_mem 0 16 (fun i => if i = 0 then 4 else 0)

/-- The block of `empty_array_mem`. -/
def empty_array_block : Block := ⟨16, fun i => if i = 0 then 4 else 0⟩

/-- The relation `StoresTo m m' b lo`: the heap `m'` is `m` after stores into block `b` at
offsets `≥ lo`: other blocks are the same, block `b` has the same size and the
same bytes below `lo`. -/
def StoresTo (m m' : Mem) (b lo : Nat) : Prop :=
  (∀ c, c ≠ b → m' c = m c) ∧
    ∀ blk, m b = some blk →
      ∃ blk', m' b = some blk' ∧ blk'.size = blk.size ∧ ∀ j, j < lo → blk'.bytes j = blk.bytes j

/-- The relation `Mutation m x m' x'`: one mutation of the array `x` in the heap `m` returned,
leaving the heap `m'` and the handle `x'`: a write of an element byte
(`darray[i] = v`), or a call of `_dynamic_array_resize`, `_dynamic_array_insert`
or `_dynamic_array_remove` with a reallocator obeying its contract. -/
inductive Mutation : Mem → Nat → Mem → Nat → Prop
  | write (m : Mem) (x i v : Nat) (m' : Mem) :
      store m x (HEADER_SIZE + i) v = .ok m' → Mutation m x m' x
  | resize (m : Mem) (x k : Nat) (realloc : allocator_reallocate) (m' : Mem) (x' : Nat) :
      ReallocateContract realloc → ReallocateFrame realloc →
      _dynamic_array_resize m x k (some realloc) = .ok (m', x') → Mutation m x m' x'
  | insert (m : Mem) (x : Nat) (data : Option (List Nat)) (data_size : Nat)
      (realloc : allocator_reallocate) (m' : Mem) (x' : Nat) :
      ReallocateContract realloc → ReallocateFrame realloc →
      _dynamic_array_insert m x data data_size (some realloc) = .ok (m', x') → Mutation m x m' x'
  | remove (m : Mem) (x i : Nat) (realloc : allocator_reallocate) (m' : Mem) (x' : Nat) :
      ReallocateContract realloc → ReallocateFrame realloc →
      _dynamic_array_remove m x i (some realloc) = .ok (m', x') → Mutation m x m' x'

/-- The relation `Later m x y m' x' y'`: from the heap `m` with the two arrays `x` and `y`, a
finite sequence of mutations, each of one of the two arrays, leads to the heap
`m'` where the two arrays have the handles `x'` and `y'`. -/
inductive Later : Mem → Nat → Nat → Mem → Nat → Nat → Prop
  | refl (m : Mem) (x y : Nat) : Later m x y m x y
  | left (m : Mem) (x y : Nat) (m1 : Mem) (x1 y1 : Nat) (m2 : Mem) (x2 : Nat) :
      Later m x y m1 x1 y1 → Mutation m1 x1 m2 x2 → Later m x y m2 x2 y1
  | right (m : Mem) (x y : Nat) (m1 : Mem) (x1 y1 : Nat) (m2 : Mem) (y2 : Nat) :
      Later m x y m1 x1 y1 → Mutation m1 y1 m2 y2 → Later m x y m2 x1 y2

/-- The relation `FrameResult m x m' x'`: an operation on the array `x` left the handle `x'`,
which is `x` or a block that was not live, is live afterwards, and no block
other than `x` and `x'` has changed. -/
def FrameResult (m : Mem) (x : Nat) (m' : Mem) (x' : Nat) : Prop :=
  (x' = x ∨ m x' = none) ∧ (m' x').isSome = true ∧ ∀ c, c ≠ x → c ≠ x' → m' c = m c

/-- The relation `ExactSize m darray`: the block behind `darray` is live, holds the header, and
its size is `16 + item_size * length` computed in `uint64_t` arithmetic from the
two header fields (the value `_dynamic_array_destroy` computes). -/
def ExactSize (m : Mem) (darray : Nat) : Prop :=
  ∃ blk, m darray = some blk ∧ HEADER_SIZE ≤ blk.size ∧
    blk.size = (HEADER_SIZE + (read_le blk.bytes 0 8 * read_le blk.bytes 8 8) % U64) % U64

/-- The relation `Reachable m darray`: in the heap `m`, `darray` is a handle obtained from
`_dynamic_array_create` and then a finite sequence of returned calls of resize,
insert, remove and copy, all with allocators obeying their contracts and with
`uint64_t` arguments. -/
inductive Reachable : Mem → Nat → Prop
  | create (m : Mem) (s n : Nat) (alloc : allocator_allocate) (m' : Mem) (d : Nat) :
      s < U64 → n < U64 → AllocateContract alloc →
      _dynamic_array_create m s n (some alloc) = .ok (m', d) → Reachable m' d
  | resize (m : Mem) (d k : Nat) (realloc : allocator_reallocate) (m' : Mem) (d' : Nat) :
      Reachable m d → k < U64 → ReallocateContract realloc →
      _dynamic_array_resize m d k (some realloc) = .ok (m', d') → Reachable m' d'
  | insert (m : Mem) (d : Nat) (data : Option (List Nat)) (data_size : Nat)
      (realloc : allocator_reallocate) (m' : Mem) (d' : Nat) :
      Reachable m d → ReallocateContract realloc →
      _dynamic_array_insert m d data data_size (some realloc) = .ok (m', d') → Reachable m' d'
  | remove (m : Mem) (d i : Nat) (realloc : allocator_reallocate) (m' : Mem) (d' : Nat) :
      Reachable m d → ReallocateContract realloc →
      _dynamic_array_remove m d i (some realloc) = .ok (m', d') → Reachable m' d'
  | copy (m : Mem) (d : Nat) (alloc : allocator_allocate) (m' : Mem) (d' : Nat) :
      Reachable m d → AllocateContract alloc →
      _dynamic_array_copy m d (some alloc) = .ok (m', d') → Reachable m' d'
  | copy_source (m : Mem) (d : Nat) (alloc : allocator_allocate) (m' : Mem) (d' : Nat) :
      Reachable m d → AllocateContract alloc →
      _dynamic_array_copy m d (some alloc) = .ok (m', d') → Reachable m' d

/-- The heap a call leaves, the empty heap when the call did not return. -/
def result_mem (r : Except Fault (Mem × Nat)) : Mem :=
  match r with
  | .ok (m, _) => m
  | .error _ => empty_mem

/-- The heap after creating two 4-byte elements in the empty heap. -/
def created_mem : Mem :=
  result_mem (_dynamic_array_create empty_mem 4 2 (some (alloc_at 0 junk_FF)))

/-- The heap after creating `2^61` elements of 8 bytes in the empty heap. -/
def overflowed_mem : Mem :=
  result_mem (_dynamic_array_create empty_mem 8 2305843009213693952 (some (alloc_at 0 junk_FF)))

/-- The `item_size` field of the handle of a result, when the call returned. -/
def result_item_size (r : Except Fault (Mem × Nat)) : Option Nat :=
  match r with
  | .ok (m, darray) =>
    match load64 m darray 0 with
    | .ok v => some v
    | .error _ => none
  | .error _ => none

/-- An allocator that always fails. -/
def alloc_fail : allocator_allocate := fun _ _ => none

/-- An allocator that serves a request of exactly `size0` bytes (as `alloc_at`
does) and fails on a request of any other size. -/
def alloc_only (size0 id : Nat) (junk : Nat → Nat) : allocator_allocate := fun m size =>
  if size = size0 then alloc_at id junk m size else none

/-- The stores `p[off] = v`, in order, for the pairs `(off, v)` of a list, `p`
the base of block `b`. -/
def store_all (m : Mem) (b : Nat) : List (Nat × Nat) → Except Fault Mem
  | [] => .ok m
  | p :: rest => (store m b p.1 p.2).bind fun m1 => store_all m1 b rest

/-- A loop body that leaves the heap as it is. -/
def skip_body : Nat → Mem → Except Fault Mem := fun _ m => .ok m

/-- Contents of a block of three elements of `2^62 + 1` bytes: header
`item_size = 2^62 + 1`, `length = 3`, payload all zero. -/
def wide_bytes : Nat → Nat :=
  fun i => if i = 0 then 1 else if i = 7 then 64 else if i = 8 then 3 else 0

/-- A block of three elements of `2^62 + 1` bytes: `16 + 3 * (2^62 + 1)` bytes. -/
def wide_block : Block := ⟨13835058055282163731, wide_bytes⟩

/-- A heap whose only live block is `wide_block`, at identifier 0. -/
def wide_mem : Mem := set_block empty_mem 0 13835058055282163731 wide_bytes

/-! ## Runs that keep their state when they stop

The functions above return no heap when a call does not return.  The
definitions of this section are the same loops and functions with the state
made visible at the point a run stops: the heap at that moment and the number
of calls of the reallocator made up to it. -/

/-- How a run that does not return has ended: the fault, the heap at that
moment, and the number of calls of the reallocator made up to it. -/
structure Abort where
  fault : Fault
  mem : Mem
  realloc_calls : Nat

/-- One access made in the heap `m` after `calls` calls of the reallocator: when
the access faults the run stops in that heap with that count. -/
def traced {α : Type} (m : Mem) (calls : Nat) (x : Except Fault α) : Except Abort α :=
  match x with
  | .ok a => .ok a
  | .error e => .error ⟨e, m, calls⟩

/-- A run with the state at its stop forgotten. -/
def untraced {α : Type} (x : Except Abort α) : Except Fault α :=
  match x with
  | .ok a => .ok a
  | .error a => .error a.fault

/-- The loop `zero_fill_down`, keeping the state at a fault. -/
def zero_fill_down_traced (calls : Nat) (m : Mem) (b i : Nat) : Nat → Except Abort Mem
  | 0 => .ok m
  | k + 1 =>
    (traced m calls (store m b (HEADER_SIZE + i) 0)).bind fun m1 =>
    zero_fill_down_traced calls m1 b (i - 1) k

/-- The loop `copy_bytes`, keeping the state at a fault. -/
def copy_bytes_traced (calls : Nat) (m : Mem) (dst doff src soff : Nat) :
    Nat → Except Abort Mem
  | 0 => .ok m
  | k + 1 =>
    (traced m calls (load m src soff)).bind fun v =>
    (traced m calls (store m dst doff v)).bind fun m1 =>
    copy_bytes_traced calls m1 dst (doff + 1) src (soff + 1) k

/-- The loop `write_bytes`, keeping the state at a fault. -/
def write_bytes_traced (calls : Nat) (m : Mem) (b off i : Nat) : List Nat → Except Abort Mem
  | [] =>
    (traced m calls (load64 m b 0)).bind fun item_size =>
    if i < item_size then .error ⟨.invalid_access, m, calls⟩ else .ok m
  | v :: rest =>
    (traced m calls (load64 m b 0)).bind fun item_size =>
    if i < item_size then
      (traced m calls (store m b (off + i) v)).bind fun m1 =>
      write_bytes_traced calls m1 b off (i + 1) rest
    else .ok m

/-- The C function `_dynamic_array_resize`, keeping the state at a fault.  The
run starts in the heap `m` after `calls` calls of the reallocator and returns
the heap, the handle and the number of calls made; the call `realloc(...)` of
line 57 is the one call it makes. -/
def _dynamic_array_resize_traced (calls : Nat) (m : Mem) (darray new_length : Nat)
    (realloc : Option allocator_reallocate) : Except Abort (Mem × Nat × Nat) :=
  (traced m calls (load64 m darray 0)).bind fun item_size =>
  match realloc with
  | none => .error ⟨.null_pointer, m, calls⟩
  | some realloc =>
    match realloc m darray ((HEADER_SIZE + (new_length * item_size) % U64) % U64) with
    | none => .error ⟨.null_pointer, m, calls + 1⟩
    | some (m1, header) =>
      (traced m1 (calls + 1) (load64 m1 header 8)).bind fun length =>
      (if length < new_length then
        (traced m1 (calls + 1) (load64 m1 header 0)).bind fun item_size1 =>
        let hi := ((new_length * item_size1) % U64 + U64 - 1) % U64
        let lo := ((length * item_size1) % U64 + U64 - 1) % U64
        zero_fill_down_traced (calls + 1) m1 darray hi (hi - lo)
      else .ok m1).bind fun m2 =>
      (traced m2 (calls + 1) (store64 m2 header 8 new_length)).bind fun m3 =>
      .ok (m3, header, calls + 1)

/-- The C function `_dynamic_array_insert`, keeping the state at a fault: the
`assert` of line 89 comes first, then the resize, then the value loop. -/
def _dynamic_array_insert_traced (calls : Nat) (m : Mem) (darray : Nat)
    (data : Option (List Nat)) (data_size : Nat) (realloc : Option allocator_reallocate) :
    Except Abort (Mem × Nat × Nat) :=
  (traced m calls (load64 m darray 0)).bind fun item_size =>
  match realloc, data with
  | some realloc, some data_bytes =>
    if item_size = data_size then
      (traced m calls (load64 m darray 8)).bind fun length =>
      (_dynamic_array_resize_traced calls m darray ((length + 1) % U64) (some realloc)).bind
        fun r =>
      (traced r.1 r.2.2 (load64 r.1 r.2.1 8)).bind fun length1 =>
      (traced r.1 r.2.2 (load64 r.1 r.2.1 0)).bind fun item_size1 =>
      let past_end := HEADER_SIZE + (length1 * item_size1) % U64
      if item_size1 ≤ past_end then
        (write_bytes_traced r.2.2 r.1 r.2.1 (past_end - item_size1) 0 data_bytes).bind fun m2 =>
        .ok (m2, r.2.1, r.2.2)
      else .error ⟨.invalid_access, r.1, r.2.2⟩
    else .error ⟨.assertion, m, calls⟩
  | _, _ => .error ⟨.assertion, m, calls⟩

/-- The C function `_dynamic_array_remove`, keeping the state at a fault: the
`assert` of line 103 comes first, then the shift loop, then the resize. -/
def _dynamic_array_remove_traced (calls : Nat) (m : Mem) (darray index : Nat)
    (realloc : Option allocator_reallocate) : Except Abort (Mem × Nat × Nat) :=
  (traced m calls (load64 m darray 8)).bind fun length =>
  if length > index then
    (traced m calls (load64 m darray 0)).bind fun item_size =>
    let copy_off := HEADER_SIZE + (item_size * index) % U64
    let read_off := copy_off + item_size
    (copy_bytes_traced calls m darray copy_off darray read_off
      (((length - index - 1) * item_size) % U64)).bind fun m1 =>
    _dynamic_array_resize_traced calls m1 darray (length - 1) realloc
  else .error ⟨.assertion, m, calls⟩

/-- The fault of a run that did not return. -/
def abort_fault {α : Type} (x : Except Abort α) : Option Fault :=
  match x with
  | .ok _ => none
  | .error a => some a.fault

/-- The number of calls of the reallocator made by a run that did not return. -/
def abort_calls {α : Type} (x : Except Abort α) : Option Nat :=
  match x with
  | .ok _ => none
  | .error a => some a.realloc_calls

/-- The byte at offset `off` of block `b` in the heap a run that did not return
stopped in. -/
def abort_byte {α : Type} (x : Except Abort α) (b off : Nat) : Option Nat :=
  match x with
  | .ok _ => none
  | .error a => (a.mem b).map fun blk => blk.bytes off

/-! ## The compiled functions on a flat address space

In the block model an access through a released block, or past the end of a
block, is a fault: it is undefined behaviour in C.  The compiled program does
not stop there: the address space is flat, a pointer is a 64-bit address, and a
store through a stale or out-of-bounds pointer lands in whatever object lies
at that address.  The definitions of this section are `_dynamic_array_resize`,
`_dynamic_array_copy` and `_dynamic_array_destroy` on such an address space;
they describe runs in which no access traps. -/

/-- A flat address space, one byte per address, with the bookkeeping of an
arena allocator: `brk` is the first address not handed out yet, and `sizes` is
the size last requested for the block at an address. -/
structure Flat where
  bytes : Nat → Nat
  brk : Nat
  sizes : Nat → Nat

/-- The C type `allocator_allocate` on a flat address space: the result is the
address of the block. -/
abbrev flat_allocate := Flat → Nat → Flat × Nat

/-- The C type `allocator_reallocate` on a flat address space. -/
abbrev flat_reallocate := Flat → Nat → Nat → Flat × Nat

/-- The arena's `allocate`: the new block is the `size` bytes at `brk`. -/
def arena_allocate : flat_allocate := fun mem size =>
  (⟨mem.bytes, mem.brk + size, Function.update mem.sizes mem.brk size⟩, mem.brk)

/-- The arena's `reallocate`: it always relocates.  The new block is the `size`
bytes at `brk`; its first `min(old_size, size)` bytes are those of the block at
`p`; the bytes of the old block stay where they are. -/
def arena_reallocate : flat_reallocate := fun mem p size =>
  (⟨fun a => if mem.brk ≤ a ∧ a < mem.brk + min (mem.sizes p) size
      then mem.bytes (p + (a - mem.brk)) else mem.bytes a,
    mem.brk + size, Function.update mem.sizes mem.brk size⟩, mem.brk)

/-- The loop `for(i = ...; i > (header->length * header->item_size) - 1; i--)
darray_as_bytes[i] = 0` of `_dynamic_array_resize` on a flat address space, from
the value `i` of the loop variable on.  The bound is read from the header on
every test; the store is at the address `darray + i`. -/
def flat_zero_fill (darray header : Nat) (bytes : Nat → Nat) : Nat → (Nat → Nat)
  | 0 => bytes
  | i + 1 =>
    if i + 1 > ((read_le bytes (header + 8) 8 * read_le bytes header 8) % U64 + U64 - 1) % U64
    then flat_zero_fill darray header (Function.update bytes ((darray + (i + 1)) % U64) 0) i
    else bytes

/-- The C function `_dynamic_array_resize` on a flat address space; `darray` is
the address of the payload and `darray - 16` that of the header. -/
def flat_dynamic_array_resize (mem : Flat) (darray new_length : Nat)
    (realloc : flat_reallocate) : Flat × Nat :=
  let header0 := (darray + U64 - HEADER_SIZE) % U64
  let r := realloc mem header0
    ((HEADER_SIZE + (new_length * read_le mem.bytes header0 8) % U64) % U64)
  let header := r.2
  let bytes2 :=
    if read_le r.1.bytes (header + 8) 8 < new_length then
      flat_zero_fill darray header r.1.bytes
        (((new_length * read_le r.1.bytes header 8) % U64 + U64 - 1) % U64)
    else r.1.bytes
  (⟨write_le bytes2 (header + 8) new_length 8, r.1.brk, r.1.sizes⟩,
    (header + HEADER_SIZE) % U64)

/-- The loop `for(i = 0; i < total_size; ++i) darray_bytes[i] = bytes_to_copy[i]`
of `_dynamic_array_copy` on a flat address space, from the value `i` of the loop
variable on, for the remaining number of iterations. -/
def flat_copy_loop (dst src : Nat) (bytes : Nat → Nat) (i : Nat) : Nat → (Nat → Nat)
  | 0 => bytes
  | k + 1 =>
    flat_copy_loop dst src
      (Function.update bytes ((dst + i) % U64) (bytes ((src + i) % U64))) (i + 1) k

/-- The C function `_dynamic_array_copy` on a flat address space. -/
def flat_dynamic_array_copy (mem : Flat) (darray : Nat) (alloc : flat_allocate) : Flat × Nat :=
  let header := (darray + U64 - HEADER_SIZE) % U64
  let total_size :=
    ((read_le mem.bytes (header + 8) 8 * read_le mem.bytes header 8) % U64 + HEADER_SIZE) % U64
  let r := alloc mem total_size
  (⟨flat_copy_loop r.2 header r.1.bytes 0 total_size, r.1.brk, r.1.sizes⟩,
    (r.2 + HEADER_SIZE) % U64)

/-- The C function `_dynamic_array_destroy` on a flat address space: the result
is what `deallocate` returns for the arguments `memory_start`, `memory_size`. -/
def flat_dynamic_array_destroy {α : Type} (mem : Flat) (darray : Nat)
    (deallocate : Nat → Nat → α) : α :=
  let header := (darray + U64 - HEADER_SIZE) % U64
  deallocate header
    (((read_le mem.bytes header 8 * read_le mem.bytes (header + 8) 8) % U64 + HEADER_SIZE) % U64)

/-- The `item_size` field of the handle `darray`. -/
def flat_item_size (mem : Flat) (darray : Nat) : Nat :=
  read_le mem.bytes ((darray + U64 - HEADER_SIZE) % U64) 8

/-- The `length` field of the handle `darray` (the C function
`_dynamic_array_length` on a flat address space). -/
def flat_length (mem : Flat) (darray : Nat) : Nat :=
  read_le mem.bytes ((darray + U64 - HEADER_SIZE) % U64 + 8) 8

/-- A flat address space holding one array of three 4-byte elements in the
28-byte block at address 4096 (handle 4112): header `item_size = 4`,
`length = 3`, payload byte `i` holding `16 + i`; every other byte is `0xFF`,
and the arena has handed out nothing else. -/
def flat_sample : Flat :=
  ⟨fun a => if a = 4096 then 4 else if a = 4104 then 3
      else if 4096 ≤ a ∧ a < 4112 then 0
      else if 4112 ≤ a ∧ a < 4124 then a - 4096 else 255,
    4124, fun p => if p = 4096 then 28 else 0⟩

/-- The flat sample after the growing resize of its array to four elements. -/
def flat_grown : Flat × Nat := flat_dynamic_array_resize flat_sample 4112 4 arena_reallocate

/-- The flat sample after a copy of its array. -/
def flat_copied : Flat × Nat := flat_dynamic_array_copy flat_sample 4112 arena_allocate

/-- The flat sample after a copy of its array and then the growing resize of the
array (the source of the copy) to four elements. -/
def flat_copied_grown : Flat × Nat :=
  flat_dynamic_array_resize flat_copied.1 4112 4 arena_reallocate

/-- The loop `for(i = 16; i < total_size; ++i) total_memory[i] = 0` of
`_dynamic_array_create` on a flat address space, from the value `i` of the loop
variable on, for the remaining number of iterations. -/
def flat_zero_loop (total_memory : Nat) (bytes : Nat → Nat) (i : Nat) : Nat → (Nat → Nat)
  | 0 => bytes
  | k + 1 =>
    flat_zero_loop total_memory (Function.update bytes ((total_memory + i) % U64) 0) (i + 1) k

/-- The C function `_dynamic_array_create` on a flat address space; `none` is a
failed `assert`, and the address 0 is `NULL`. -/
def flat_dynamic_array_create (mem : Flat) (item_size length : Nat)
    (alloc : Option flat_allocate) : Option (Flat × Nat) :=
  match alloc with
  | none => none
  | some alloc =>
    if item_size = 0 then none
    else
      let total_size := (HEADER_SIZE + (item_size * length) % U64) % U64
      let r := alloc mem total_size
      if r.2 = 0 then none
      else
        some (⟨write_le (write_le
            (flat_zero_loop r.2 r.1.bytes HEADER_SIZE (total_size - HEADER_SIZE))
            r.2 item_size 8) (r.2 + 8) length 8, r.1.brk, r.1.sizes⟩,
          (r.2 + HEADER_SIZE) % U64)

/-- A flat address space in which every byte is `0xFF` and the arena, starting
at address 4096, has handed out nothing. -/
def flat_empty : Flat := ⟨fun _ => 255, 4096, fun _ => 0⟩

/-- The flat address space and the handle after `_dynamic_array_create` of three
4-byte elements in `flat_empty` (unchanged `flat_empty` and `NULL` if the call
failed). -/
def flat_created : Flat × Nat :=
  (flat_dynamic_array_create flat_empty 4 3 (some arena_allocate)).getD (flat_empty, 0)

/-- The state `flat_created` after the growing resize of the array to four
elements. -/
def flat_created_grown : Flat × Nat :=
  flat_dynamic_array_resize flat_created.1 flat_created.2 4 arena_reallocate


/-! ## Little-endian words -/

theorem read_le_congr (f g : Nat → Nat) (k : Nat) :
    ∀ off, (∀ j, off ≤ j → j < off + k → f j = g j) → read_le f off k = read_le g off k := by
  induction k with
  | zero => intro off _; rfl
  | succ k ih =>
    intro off h
    have h0 : f off = g off := h off (le_refl _) (by omega)
    have h1 : read_le f (off + 1) k = read_le g (off + 1) k :=
      ih (off + 1) (fun j hj1 hj2 => h j (by omega) (by omega))
    simp only [read_le, h0, h1]

theorem write_le_apply_of_lt (k : Nat) :
    ∀ (f : Nat → Nat) (off v j : Nat), j < off → write_le f off v k j = f j := by
  induction k with
  | zero => intro f off v j _; rfl
  | succ k ih =>
    intro f off v j hj
    simp only [write_le]
    rw [ih _ _ _ _ (by omega), Function.update_noteq (by omega)]

theorem write_le_apply_of_ge (k : Nat) :
    ∀ (f : Nat → Nat) (off v j : Nat), off + k ≤ j → write_le f off v k j = f j := by
  induction k with
  | zero => intro f off v j _; rfl
  | succ k ih =>
    intro f off v j hj
    simp only [write_le]
    rw [ih _ _ _ _ (by omega), Function.update_noteq (by omega)]

theorem read_le_write_le (k : Nat) :
    ∀ (f : Nat → Nat) (off v : Nat), read_le (write_le f off v k) off k = v % 256 ^ k := by
  induction k with
  | zero => intro f off v; simp [read_le, Nat.mod_one]
  | succ k ih =>
    intro f off v
    simp only [read_le, write_le]
    rw [ih, write_le_apply_of_lt k _ _ _ _ (Nat.lt_succ_self off), Function.update_same,
      Nat.mod_mod, pow_succ', Nat.mod_mul]

theorem read_le_lt (f : Nat → Nat) (k : Nat) : ∀ off, read_le f off k < 256 ^ k := by
  induction k with
  | zero => intro off; simp [read_le]
  | succ k ih =>
    intro off
    have h1 := ih (off + 1)
    have h2 : f off % 256 < 256 := Nat.mod_lt _ (by decide)
    simp only [read_le, pow_succ]
    nlinarith

theorem pow_256_8 : 256 ^ 8 = U64 := by decide

theorem read_le_lt_U64 (f : Nat → Nat) (off : Nat) : read_le f off 8 < U64 := by
  have h := read_le_lt f 8 off
  rwa [pow_256_8] at h


/-! ## Single accesses -/

theorem load_eq (m : Mem) (b off : Nat) (blk : Block) (h : m b = some blk)
    (hoff : off < blk.size) : load m b off = .ok (blk.bytes off) := by
  simp [load, h, hoff]

theorem store_eq (m : Mem) (b off v : Nat) (blk : Block) (h : m b = some blk)
    (hoff : off < blk.size) :
    store m b off v
      = .ok (Function.update m b (some ⟨blk.size, Function.update blk.bytes off v⟩)) := by
  simp [store, h, hoff]

theorem load64_eq (m : Mem) (b off : Nat) (blk : Block) (h : m b = some blk)
    (hoff : off + 8 ≤ blk.size) : load64 m b off = .ok (read_le blk.bytes off 8) := by
  simp [load64, h, hoff]

theorem store64_eq (m : Mem) (b off v : Nat) (blk : Block) (h : m b = some blk)
    (hoff : off + 8 ≤ blk.size) :
    store64 m b off v
      = .ok (Function.update m b (some ⟨blk.size, write_le blk.bytes off v 8⟩)) := by
  simp [store64, h, hoff]


theorem bind_ok {α β : Type} (a : α) (f : α → Except Fault β) :
    (Except.ok a : Except Fault α).bind f = f a := rfl

theorem bind_error {α β : Type} (e : Fault) (f : α → Except Fault β) :
    (Except.error e : Except Fault α).bind f = .error e := rfl

theorem store_dead (m : Mem) (b off v : Nat) (h : m b = none) :
    store m b off v = .error .invalid_access := by
  simp [store, h]

theorem zero_fill_down_zero (m : Mem) (b i : Nat) : zero_fill_down m b i 0 = .ok m := rfl

theorem zero_fill_down_succ (m : Mem) (b i k : Nat) :
    zero_fill_down m b i (k + 1)
      = (store m b (HEADER_SIZE + i) 0).bind fun m1 => zero_fill_down m1 b (i - 1) k := rfl

theorem set_block_same (m : Mem) (b size : Nat) (f : Nat → Nat) :
    set_block m b size f b = some ⟨size, f⟩ := by
  simp [set_block]

theorem set_block_other (m : Mem) (b size : Nat) (f : Nat → Nat) (c : Nat) (h : c ≠ b) :
    set_block m b size f c = m c := by
  simp [set_block, Function.update_noteq h]

theorem set_block_set_block (m : Mem) (b s1 s2 : Nat) (f g : Nat → Nat) :
    set_block (set_block m b s1 f) b s2 g = set_block m b s2 g := by
  simp [set_block]

theorem set_block_self (m : Mem) (b : Nat) (blk : Block) (h : m b = some blk) (f : Nat → Nat)
    (hf : ∀ j, f j = blk.bytes j) : set_block m b blk.size f = m := by
  have : f = blk.bytes := funext hf
  subst this
  unfold set_block
  rw [← h]
  exact Function.update_eq_self b m

theorem set_block_congr (m : Mem) (b size : Nat) (f g : Nat → Nat) (h : ∀ j, f j = g j) :
    set_block m b size f = set_block m b size g := by
  rw [funext h]

/-! ## The loops in closed form -/

theorem zero_fill_up_eq (k : Nat) :
    ∀ (m : Mem) (b i : Nat) (blk : Block), m b = some blk → i + k ≤ blk.size →
      zero_fill_up m b i k
        = .ok (set_block m b blk.size
            (fun j => if i ≤ j ∧ j < i + k then 0 else blk.bytes j)) := by
  induction k with
  | zero =>
    intro m b i blk h _
    simp only [zero_fill_up]
    rw [set_block_self m b blk h]
    intro j
    simp
  | succ k ih =>
    intro m b i blk h hk
    simp only [zero_fill_up]
    rw [store_eq m b i 0 blk h (by omega)]
    simp only [Except.bind]
    rw [ih _ b (i + 1) ⟨blk.size, Function.update blk.bytes i 0⟩ (by simp) (by simpa using by omega)]
    show Except.ok (set_block (set_block m b _ _) b _ _) = _
    rw [set_block_set_block]
    apply congrArg Except.ok
    apply set_block_congr
    intro j
    by_cases hj : j = i
    · subst hj; simp
    · simp only [Function.update_noteq hj]
      by_cases h1 : i + 1 ≤ j ∧ j < i + 1 + k
      · rw [if_pos h1, if_pos (by omega)]
      · rw [if_neg h1, if_neg (by omega)]


theorem zero_fill_down_eq (k : Nat) :
    ∀ (m : Mem) (b i : Nat) (blk : Block), m b = some blk → HEADER_SIZE + i < blk.size →
      k ≤ i + 1 →
      zero_fill_down m b i k
        = .ok (set_block m b blk.size
            (fun j => if HEADER_SIZE + i + 1 - k ≤ j ∧ j ≤ HEADER_SIZE + i then 0
              else blk.bytes j)) := by
  simp only [HEADER_SIZE]
  induction k with
  | zero =>
    intro m b i blk h _ _
    simp only [zero_fill_down]
    rw [set_block_self m b blk h]
    intro j
    rw [if_neg (by omega)]
  | succ k ih =>
    intro m b i blk h hi hk
    simp only [zero_fill_down, HEADER_SIZE]
    rw [store_eq m b _ 0 blk h hi]
    simp only [Except.bind]
    rw [ih _ b (i - 1) ⟨blk.size, Function.update blk.bytes (16 + i) 0⟩
      (by simp) (by simpa using by omega) (by omega)]
    show Except.ok (set_block (set_block m b _ _) b _ _) = _
    rw [set_block_set_block]
    apply congrArg Except.ok
    apply set_block_congr
    intro j
    dsimp only
    by_cases hj : j = 16 + i
    · subst hj
      rw [if_pos (show 16 + i + 1 - (k + 1) ≤ 16 + i ∧ 16 + i ≤ 16 + i by omega)]
      simp
    · simp only [Function.update_noteq hj]
      by_cases h1 : 16 + (i - 1) + 1 - k ≤ j ∧ j ≤ 16 + (i - 1)
      · rw [if_pos h1, if_pos (by omega)]
      · rw [if_neg h1, if_neg (by omega)]

theorem copy_bytes_same_eq (k : Nat) :
    ∀ (m : Mem) (b doff soff : Nat) (blk : Block), m b = some blk → doff ≤ soff →
      soff + k ≤ blk.size →
      copy_bytes m b doff b soff k
        = .ok (set_block m b blk.size
            (fun j => if doff ≤ j ∧ j < doff + k then blk.bytes (j + (soff - doff))
              else blk.bytes j)) := by
  induction k with
  | zero =>
    intro m b doff soff blk h _ _
    simp only [copy_bytes]
    rw [set_block_self m b blk h]
    intro j
    rw [if_neg (by omega)]
  | succ k ih =>
    intro m b doff soff blk h hds hk
    simp only [copy_bytes]
    rw [load_eq m b soff blk h (by omega)]
    simp only [Except.bind]
    rw [store_eq m b doff _ blk h (by omega)]
    simp only []
    rw [ih _ b (doff + 1) (soff + 1) ⟨blk.size, Function.update blk.bytes doff (blk.bytes soff)⟩
      (by simp) (by omega) (by simpa using by omega)]
    show Except.ok (set_block (set_block m b _ _) b _ _) = _
    rw [set_block_set_block]
    apply congrArg Except.ok
    apply set_block_congr
    intro j
    dsimp only
    by_cases hj : j = doff
    · subst hj
      rw [if_neg (by omega), if_pos (by omega), Function.update_same]
      exact congrArg _ (by omega)
    · by_cases h1 : doff + 1 ≤ j ∧ j < doff + 1 + k
      · rw [if_pos h1, if_pos (by omega),
          Function.update_noteq (show j + (soff + 1 - (doff + 1)) ≠ doff by omega)]
        exact congrArg _ (by omega)
      · rw [if_neg h1, if_neg (by omega), Function.update_noteq hj]

theorem copy_bytes_other_eq (k : Nat) :
    ∀ (m : Mem) (dst doff src soff : Nat) (dblk sblk : Block), dst ≠ src →
      m dst = some dblk → m src = some sblk → doff + k ≤ dblk.size → soff + k ≤ sblk.size →
      copy_bytes m dst doff src soff k
        = .ok (set_block m dst dblk.size
            (fun j => if doff ≤ j ∧ j < doff + k then sblk.bytes (soff + (j - doff))
              else dblk.bytes j)) := by
  induction k with
  | zero =>
    intro m dst doff src soff dblk sblk _ hd _ _ _
    simp only [copy_bytes]
    rw [set_block_self m dst dblk hd]
    intro j
    rw [if_neg (by omega)]
  | succ k ih =>
    intro m dst doff src soff dblk sblk hne hd hs hdk hsk
    simp only [copy_bytes]
    rw [load_eq m src soff sblk hs (by omega)]
    simp only [Except.bind]
    rw [store_eq m dst doff _ dblk hd (by omega)]
    simp only []
    rw [ih _ dst (doff + 1) src (soff + 1)
      ⟨dblk.size, Function.update dblk.bytes doff (sblk.bytes soff)⟩ sblk hne
      (by simp) (by simp [Function.update_noteq (Ne.symm hne), hs]) (by simpa using by omega)
      (by omega)]
    show Except.ok (set_block (set_block m dst _ _) dst _ _) = _
    rw [set_block_set_block]
    apply congrArg Except.ok
    apply set_block_congr
    intro j
    dsimp only
    by_cases hj : j = doff
    · subst hj
      rw [if_neg (by omega), if_pos (by omega), Function.update_same]
      exact congrArg _ (by omega)
    · by_cases h1 : doff + 1 ≤ j ∧ j < doff + 1 + k
      · rw [if_pos h1, if_pos (by omega)]
        exact congrArg _ (by omega)
      · rw [if_neg h1, if_neg (by omega), Function.update_noteq hj]

theorem write_bytes_eq (data : List Nat) :
    ∀ (m : Mem) (b off i s : Nat) (blk : Block), m b = some blk →
      read_le blk.bytes 0 8 = s → 8 ≤ off → i + data.length = s → off + s ≤ blk.size →
      write_bytes m b off i data
        = .ok (set_block m b blk.size
            (fun j => if off + i ≤ j ∧ j < off + i + data.length
              then data.getD (j - (off + i)) 0 else blk.bytes j)) := by
  induction data with
  | nil =>
    intro m b off i s blk h hs hoff hlen hsz
    simp only [List.length_nil, Nat.add_zero] at hlen
    simp only [write_bytes]
    rw [load64_eq m b 0 blk h (by omega), hs, bind_ok, if_neg (by omega),
      set_block_self m b blk h]
    intro j
    rw [if_neg (by simp only [List.length_nil]; omega)]
  | cons v rest ih =>
    intro m b off i s blk h hs hoff hlen hsz
    simp only [List.length_cons] at hlen
    simp only [write_bytes]
    rw [load64_eq m b 0 blk h (by omega), hs, bind_ok, if_pos (by omega),
      store_eq m b _ _ blk h (by omega), bind_ok]
    have hs1 : read_le (Function.update blk.bytes (off + i) v) 0 8 = s := by
      rw [← hs]
      exact read_le_congr _ _ 8 0 (fun j _ hj => Function.update_noteq (by omega) _ _)
    rw [ih _ b off (i + 1) s ⟨blk.size, Function.update blk.bytes (off + i) v⟩
      (Function.update_same _ _ _) hs1 hoff (by omega) hsz]
    show Except.ok (set_block (set_block m b _ _) b _ _) = _
    rw [set_block_set_block]
    apply congrArg Except.ok
    apply set_block_congr
    intro j
    dsimp only
    by_cases hj : j = off + i
    · subst hj
      rw [if_neg (by omega), if_pos (by simp only [List.length_cons]; omega),
        Function.update_same, Nat.sub_self]
      rfl
    · by_cases h1 : off + (i + 1) ≤ j ∧ j < off + (i + 1) + rest.length
      · rw [if_pos h1, if_pos (by simp only [List.length_cons]; omega)]
        obtain ⟨t, ht⟩ : ∃ t, j - (off + i) = t + 1 := ⟨j - (off + i) - 1, by omega⟩
        rw [ht, List.getD_cons_succ]
        exact congrArg (fun x => rest.getD x 0) (by omega)
      · rw [if_neg h1, if_neg (by simp only [List.length_cons]; omega),
          Function.update_noteq hj]

/-! ## The sample allocators obey the allocator contracts -/

theorem alloc_at_contract (id : Nat) (junk : Nat → Nat) : AllocateContract (alloc_at id junk) := by
  intro m size m1 b h
  unfold alloc_at at h
  cases hm : m id with
  | some blk => simp [hm] at h
  | none =>
    simp only [hm, Option.some.injEq, Prod.mk.injEq] at h
    obtain ⟨rfl, rfl⟩ := h
    refine ⟨hm, ⟨_, Function.update_same _ _ _, rfl⟩, ?_⟩
    intro c hc
    simp [Function.update_noteq hc]

theorem realloc_in_place_contract (junk : Nat → Nat) :
    ReallocateContract (realloc_in_place junk) := by
  intro m b size old m1 b1 hm h
  simp only [realloc_in_place, hm, Option.some.injEq, Prod.mk.injEq] at h
  obtain ⟨rfl, rfl⟩ := h
  refine ⟨_, Function.update_same _ _ _, rfl, ?_⟩
  intro i hi _
  simp [hi]

theorem realloc_in_place_succeeds (junk : Nat → Nat) :
    ReallocateSucceeds (realloc_in_place junk) := by
  intro m b size h
  obtain ⟨old, hm⟩ := Option.isSome_iff_exists.mp h
  simp [realloc_in_place, hm]

theorem realloc_in_place_frame (junk : Nat → Nat) :
    ReallocateFrame (realloc_in_place junk) := by
  intro m b size m1 b1 h
  unfold realloc_in_place at h
  cases hm : m b with
  | none => simp [hm] at h
  | some old =>
    simp only [hm, Option.some.injEq, Prod.mk.injEq] at h
    obtain ⟨rfl, rfl⟩ := h
    refine ⟨Or.inl rfl, ?_⟩
    intro c hc _
    simp [Function.update_noteq hc]

theorem realloc_move_contract (junk : Nat → Nat) : ReallocateContract (realloc_move junk) := by
  intro m b size old m1 b1 hm h
  unfold realloc_move at h
  cases hm1 : m (b + 1) with
  | none =>
    simp only [hm, hm1, Option.some.injEq, Prod.mk.injEq] at h
    obtain ⟨rfl, rfl⟩ := h
    refine ⟨_, Function.update_same _ _ _, rfl, ?_⟩
    intro i hi _
    simp [hi]
  | some other =>
    simp only [hm, hm1, Option.some.injEq, Prod.mk.injEq] at h
    obtain ⟨rfl, rfl⟩ := h
    refine ⟨_, Function.update_same _ _ _, rfl, ?_⟩
    intro i hi _
    simp [hi]

theorem realloc_move_succeeds (junk : Nat → Nat) : ReallocateSucceeds (realloc_move junk) := by
  intro m b size h
  obtain ⟨old, hm⟩ := Option.isSome_iff_exists.mp h
  unfold realloc_move
  cases hm1 : m (b + 1) <;> simp [hm]

theorem realloc_move_frame (junk : Nat → Nat) : ReallocateFrame (realloc_move junk) := by
  intro m b size m1 b1 h
  unfold realloc_move at h
  cases hm : m b with
  | none => simp [hm] at h
  | some old =>
    cases hm1 : m (b + 1) with
    | none =>
      simp only [hm, hm1, Option.some.injEq, Prod.mk.injEq] at h
      obtain ⟨rfl, rfl⟩ := h
      refine ⟨Or.inr hm1, ?_⟩
      intro c hc hc1
      simp [Function.update_noteq hc, Function.update_noteq hc1]
    | some other =>
      simp only [hm, hm1, Option.some.injEq, Prod.mk.injEq] at h
      obtain ⟨rfl, rfl⟩ := h
      refine ⟨Or.inl rfl, ?_⟩
      intro c hc _
      simp [Function.update_noteq hc]

theorem sample_handle : Handle sample_mem 0 sample_block 4 3 :=
  ⟨rfl, by decide, by decide, by decide, by decide⟩

theorem empty_array_handle : Handle empty_array_mem 0 empty_array_block 4 0 :=
  ⟨rfl, by decide, by decide, by decide, by decide⟩

/-! ## Handles -/

theorem Handle.load_item_size {m : Mem} {darray : Nat} {blk : Block} {s n : Nat}
    (h : Handle m darray blk s n) : load64 m darray 0 = .ok s := by
  obtain ⟨hm, hsz, _, hs, _⟩ := h
  rw [load64_eq m darray 0 blk hm (by simp only [HEADER_SIZE] at hsz; omega), hs]

theorem Handle.load_length {m : Mem} {darray : Nat} {blk : Block} {s n : Nat}
    (h : Handle m darray blk s n) : load64 m darray 8 = .ok n := by
  obtain ⟨hm, hsz, _, _, hn⟩ := h
  rw [load64_eq m darray 8 blk hm (by simp only [HEADER_SIZE] at hsz; omega), hn]

theorem Handle.item_size_lt {m : Mem} {darray : Nat} {blk : Block} {s n : Nat}
    (h : Handle m darray blk s n) : s < U64 := by
  obtain ⟨_, _, _, hs, _⟩ := h
  rw [← hs]; exact read_le_lt_U64 _ _

theorem Handle.length_lt {m : Mem} {darray : Nat} {blk : Block} {s n : Nat}
    (h : Handle m darray blk s n) : n < U64 := by
  obtain ⟨_, _, _, _, hn⟩ := h
  rw [← hn]; exact read_le_lt_U64 _ _

/-- A block that agrees with a handle's block on the header bytes and has the
size of `k` elements is a handle of `k` elements once `length` is stored. -/
theorem Handle.of_store_length {m : Mem} {b : Nat} {new : Block} {s k : Nat}
    (hm : m b = some new) (hsz : new.size = HEADER_SIZE + s * k) (hlt : new.size < U64)
    (hs : read_le new.bytes 0 8 = s) (hk : k < U64) :
    ∃ m', store64 m b 8 k = .ok m' ∧
      Handle m' b ⟨new.size, write_le new.bytes 8 k 8⟩ s k ∧
      (∀ c, c ≠ b → m' c = m c) := by
  refine ⟨_, store64_eq m b 8 k new hm (by simp only [HEADER_SIZE] at hsz; omega), ?_, ?_⟩
  · refine ⟨by simp, hsz, hlt, ?_, ?_⟩
    · rw [← hs]
      apply read_le_congr
      intro j _ hj
      exact write_le_apply_of_lt 8 _ _ _ _ (by omega)
    · show read_le (write_le new.bytes 8 k 8) 8 8 = k
      rw [read_le_write_le, pow_256_8, Nat.mod_eq_of_lt hk]
  · intro c hc
    simp [Function.update_noteq hc]

/-! ## `_dynamic_array_resize` without growth -/

/-- Shrinking (or same-length) resize, any reallocator obeying its contract. -/
theorem resize_shrink_aux (m : Mem) (darray : Nat) (blk : Block) (s n k : Nat)
    (realloc : allocator_reallocate) (h : Handle m darray blk s n) (hk : k ≤ n)
    (hc : ReallocateContract realloc) (hsucc : ReallocateSucceeds realloc) :
    ∃ m' darray' blk', _dynamic_array_resize m darray k (some realloc) = .ok (m', darray') ∧
      Handle m' darray' blk' s k ∧
      ∀ i, i < s * k → blk'.bytes (HEADER_SIZE + i) = blk.bytes (HEADER_SIZE + i) := by
  have hs := h.load_item_size
  have hnlt := h.length_lt
  obtain ⟨hm, hsz, hlt, hrs, hrn⟩ := h
  have hmul : s * k ≤ s * n := Nat.mul_le_mul_left s hk
  have hreq : (HEADER_SIZE + (k * s) % U64) % U64 = HEADER_SIZE + s * k := by
    rw [Nat.mul_comm k s]
    simp only [HEADER_SIZE, U64] at *
    omega
  have hsome := hsucc m darray (HEADER_SIZE + s * k) (by simp [hm])
  obtain ⟨⟨m1, b1⟩, hcall⟩ := Option.isSome_iff_exists.mp hsome
  obtain ⟨new, hnew, hnsz, hpre⟩ := hc m darray _ blk m1 b1 hm hcall
  have hn1 : read_le new.bytes 8 8 = n := by
    rw [← hrn]
    apply read_le_congr
    intro j _ hj
    exact hpre j (by simp only [HEADER_SIZE] at hsz; omega)
      (by simp only [HEADER_SIZE]; omega)
  have hs1 : read_le new.bytes 0 8 = s := by
    rw [← hrs]
    apply read_le_congr
    intro j _ hj
    exact hpre j (by simp only [HEADER_SIZE] at hsz; omega)
      (by simp only [HEADER_SIZE]; omega)
  obtain ⟨m', hst, hh, _⟩ := Handle.of_store_length hnew hnsz
    (by rw [hnsz]; omega) hs1 (by omega)
  refine ⟨m', b1, _, ?_, hh, ?_⟩
  · simp only [_dynamic_array_resize, hs, Except.bind, hreq, hcall]
    rw [load64_eq m1 b1 8 new hnew (by simp only [HEADER_SIZE] at hnsz; omega), hn1]
    simp only [if_neg (Nat.not_lt.mpr hk), hst]
  · intro i hi
    show write_le new.bytes 8 k 8 (HEADER_SIZE + i) = _
    rw [write_le_apply_of_ge 8 _ _ _ _ (by simp only [HEADER_SIZE]; omega)]
    exact hpre _ (by omega) (by omega)

/-! ## `_dynamic_array_remove` -/

theorem element_congr (blk blk' : Block) (s j j' : Nat)
    (h : ∀ k, k < s →
      blk'.bytes (HEADER_SIZE + s * j' + k) = blk.bytes (HEADER_SIZE + s * j + k)) :
    element blk' s j' = element blk s j := by
  unfold element
  apply List.map_congr_left
  intro k hk
  exact h k (List.mem_range.mp hk)

/-- Removal at a valid index, any reallocator obeying its contract. -/
theorem remove_aux (m : Mem) (darray : Nat) (blk : Block) (s n i : Nat)
    (realloc : allocator_reallocate) (h : Handle m darray blk s n) (hi : i < n)
    (hc : ReallocateContract realloc) (hsucc : ReallocateSucceeds realloc) :
    ∃ m' darray' blk', _dynamic_array_remove m darray i (some realloc) = .ok (m', darray') ∧
      Handle m' darray' blk' s (n - 1) ∧
      (∀ j, j < i → element blk' s j = element blk s j) ∧
      (∀ j, i ≤ j → j < n - 1 → element blk' s j = element blk s (j + 1)) := by
  have hls := h.load_item_size
  have hln := h.load_length
  obtain ⟨hm, hsz, hlt, hrs, hrn⟩ := h
  obtain ⟨t, rfl⟩ : ∃ t, n = i + 1 + t := ⟨n - i - 1, by omega⟩
  have e1 : s * (i + 1 + t) = s * i + s + t * s := by ring
  have e2 : (i + 1 + t - i - 1) * s = t * s := by
    congr 1; omega
  have e3 : s * (i + 1 + t - 1) = s * i + t * s := by
    have : i + 1 + t - 1 = i + t := by omega
    rw [this]; ring
  have h1 : (s * i) % U64 = s * i := Nat.mod_eq_of_lt (by omega)
  have h2 : (t * s) % U64 = t * s := Nat.mod_eq_of_lt (by omega)
  have hcopy := copy_bytes_same_eq (t * s) m darray (HEADER_SIZE + s * i)
    (HEADER_SIZE + s * i + s) blk hm (by omega) (by omega)
  have hh1 : Handle (set_block m darray blk.size
      (fun j => if HEADER_SIZE + s * i ≤ j ∧ j < HEADER_SIZE + s * i + t * s
        then blk.bytes (j + (HEADER_SIZE + s * i + s - (HEADER_SIZE + s * i)))
        else blk.bytes j)) darray
      ⟨blk.size, fun j => if HEADER_SIZE + s * i ≤ j ∧ j < HEADER_SIZE + s * i + t * s
        then blk.bytes (j + (HEADER_SIZE + s * i + s - (HEADER_SIZE + s * i)))
        else blk.bytes j⟩ s (i + 1 + t) := by
    refine ⟨set_block_same _ _ _ _, hsz, hlt, ?_, ?_⟩
    · rw [← hrs]
      apply read_le_congr
      intro j _ hj
      dsimp only
      rw [if_neg (by simp only [HEADER_SIZE]; omega)]
    · rw [← hrn]
      apply read_le_congr
      intro j _ hj
      dsimp only
      rw [if_neg (by simp only [HEADER_SIZE]; omega)]
  obtain ⟨m', d', blk', hres, hh', hbytes⟩ :=
    resize_shrink_aux _ darray _ s (i + 1 + t) (i + 1 + t - 1) realloc hh1 (by omega) hc hsucc
  refine ⟨m', d', blk', ?_, hh', ?_, ?_⟩
  · simp only [_dynamic_array_remove, hln, hls, Except.bind, h1, e2, h2]
    rw [if_pos (by omega), hcopy]
    exact hres
  · intro j hj
    apply element_congr
    intro k hk
    have hj1 : s * (j + 1) ≤ s * i := Nat.mul_le_mul_left s hj
    have hj2 : s * (j + 1) = s * j + s := Nat.mul_succ s j
    rw [Nat.add_assoc, hbytes (s * j + k) (by omega)]
    dsimp only
    rw [if_neg (by omega)]
  · intro j hj1 hj2
    apply element_congr
    intro k hk
    have hj3 : s * i ≤ s * j := Nat.mul_le_mul_left s hj1
    have hj4 : s * (j + 1) ≤ s * (i + 1 + t - 1) := Nat.mul_le_mul_left s (by omega)
    have hj5 : s * (j + 1) = s * j + s := Nat.mul_succ s j
    rw [Nat.add_assoc, hbytes (s * j + k) (by omega)]
    dsimp only
    rw [if_pos (by omega)]
    exact congrArg blk.bytes (by omega)

theorem erase_map_range {α : Type} (f g : Nat → α) (n i : Nat) (hi : i < n)
    (h1 : ∀ j, j < i → g j = f j) (h2 : ∀ j, i ≤ j → j < n - 1 → g j = f (j + 1)) :
    (List.range (n - 1)).map g = ((List.range n).map f).eraseIdx i := by
  apply List.ext_getElem?
  intro j
  by_cases hj : j < i
  · rw [List.getElem?_eraseIdx_of_lt _ _ _ hj, List.getElem?_map, List.getElem?_map,
      List.getElem?_range (by omega), List.getElem?_range (by omega)]
    simp only [Option.map_some']
    rw [h1 j hj]
  · rw [List.getElem?_eraseIdx_of_ge _ _ _ (by omega), List.getElem?_map, List.getElem?_map]
    by_cases hjn : j < n - 1
    · rw [List.getElem?_range hjn, List.getElem?_range (by omega)]
      simp only [Option.map_some']
      rw [h2 j (by omega) hjn]
    · rw [List.getElem?_eq_none (by simp; omega), List.getElem?_eq_none (by simp; omega)]
      rfl

/-! ## `_dynamic_array_create` -/

/-- The contents of the block `_dynamic_array_create` returns, from the contents
`f` of the block `allocate` returned. -/
theorem create_eq (m : Mem) (s n : Nat) (alloc : allocator_allocate) (m1 : Mem) (b : Nat)
    (blk0 : Block) (hs : s ≠ 0)
    (hcall : alloc m ((HEADER_SIZE + (s * n) % U64) % U64) = some (m1, b))
    (hb : m1 b = some blk0) (hsz : blk0.size = (HEADER_SIZE + (s * n) % U64) % U64)
    (h16 : HEADER_SIZE ≤ blk0.size) :
    _dynamic_array_create m s n (some alloc)
      = .ok (set_block m1 b blk0.size
          (write_le (write_le
            (fun j => if HEADER_SIZE ≤ j ∧ j < HEADER_SIZE + (blk0.size - HEADER_SIZE) then 0
              else blk0.bytes j) 0 s 8) 8 n 8), b) := by
  simp only [_dynamic_array_create, if_neg hs, hcall]
  rw [← hsz, zero_fill_up_eq _ m1 b HEADER_SIZE blk0 hb (by omega)]
  simp only [Except.bind]
  rw [store64_eq _ b 0 s ⟨blk0.size, _⟩ (set_block_same _ _ _ _)
    (by simp only [HEADER_SIZE] at h16 ⊢; omega)]
  simp only []
  rw [store64_eq _ b 8 n ⟨blk0.size, _⟩ (Function.update_same _ _ _)
    (by simp only [HEADER_SIZE] at h16 ⊢; omega)]
  simp only [set_block, Function.update_idem]

/-- Creation when `16 + s * n` is a `uint64_t` value. -/
theorem create_aux (m : Mem) (s n : Nat) (alloc : allocator_allocate) (m1 : Mem) (b : Nat)
    (hs : 0 < s) (hs64 : s < U64) (hfit : HEADER_SIZE + s * n < U64)
    (hc : AllocateContract alloc) (hcall : alloc m (HEADER_SIZE + s * n) = some (m1, b)) :
    ∃ m' blk', _dynamic_array_create m s n (some alloc) = .ok (m', b) ∧
      Handle m' b blk' s n ∧
      (∀ i, i < s * n → blk'.bytes (HEADER_SIZE + i) = 0) ∧
      (∀ c, c ≠ b → m' c = m c) := by
  have hn64 : n < U64 := by
    have : 1 * n ≤ s * n := Nat.mul_le_mul_right n hs
    omega
  have htot : (HEADER_SIZE + (s * n) % U64) % U64 = HEADER_SIZE + s * n := by
    rw [Nat.mod_eq_of_lt (show s * n < U64 by omega), Nat.mod_eq_of_lt hfit]
  obtain ⟨_, ⟨blk0, hb, hsz⟩, hframe⟩ := hc m _ m1 b hcall
  have heq := create_eq m s n alloc m1 b blk0 (by omega) (by rw [htot]; exact hcall) hb
    (by rw [htot]; exact hsz) (by omega)
  refine ⟨_, ⟨blk0.size, _⟩, heq,
    ⟨set_block_same _ _ _ _, hsz, (by show blk0.size < U64; omega), ?_, ?_⟩, ?_, ?_⟩
  · show read_le (write_le (write_le _ 0 s 8) 8 n 8) 0 8 = s
    rw [read_le_congr _ (write_le _ 0 s 8) 8 0
      (fun j _ hj => write_le_apply_of_lt 8 _ _ _ _ (by omega)),
      read_le_write_le, pow_256_8, Nat.mod_eq_of_lt hs64]
  · show read_le (write_le (write_le _ 0 s 8) 8 n 8) 8 8 = n
    rw [read_le_write_le, pow_256_8, Nat.mod_eq_of_lt hn64]
  · intro i hi
    show write_le (write_le _ 0 s 8) 8 n 8 (HEADER_SIZE + i) = 0
    rw [write_le_apply_of_ge 8 _ _ _ _ (by simp only [HEADER_SIZE]; omega),
      write_le_apply_of_ge 8 _ _ _ _ (by simp only [HEADER_SIZE]; omega)]
    exact if_pos (by omega)
  · intro c hc
    rw [set_block_other _ _ _ _ _ hc]
    exact hframe c hc

/-! ### Faults of stores are never assertion failures -/

theorem store_ne_assertion (m : Mem) (b off v : Nat) : store m b off v ≠ .error .assertion := by
  unfold store
  cases m b with
  | none => simp
  | some blk => dsimp only; split <;> simp

theorem store64_ne_assertion (m : Mem) (b off v : Nat) :
    store64 m b off v ≠ .error .assertion := by
  unfold store64
  cases m b with
  | none => simp
  | some blk => dsimp only; split <;> simp

theorem zero_fill_up_ne_assertion (k : Nat) :
    ∀ (m : Mem) (b i : Nat), zero_fill_up m b i k ≠ .error .assertion := by
  induction k with
  | zero => intro m b i; simp [zero_fill_up]
  | succ k ih =>
    intro m b i
    simp only [zero_fill_up]
    cases hst : store m b i 0 with
    | error e =>
      simp only [Except.bind]
      intro h
      apply store_ne_assertion m b i 0
      rw [hst, h]
    | ok m1 =>
      simp only [Except.bind]
      exact ih m1 b (i + 1)

theorem create_assertion_iff (m : Mem) (s n : Nat) (alloc : Option allocator_allocate) :
    _dynamic_array_create m s n alloc = .error .assertion ↔
      (s = 0 ∨ alloc = none ∨
        ∃ f, alloc = some f ∧ f m ((HEADER_SIZE + (s * n) % U64) % U64) = none) := by
  cases alloc with
  | none => simp [_dynamic_array_create]
  | some f =>
    by_cases hs : s = 0
    · simp [_dynamic_array_create, hs]
    · cases hcall : f m ((HEADER_SIZE + (s * n) % U64) % U64) with
      | none =>
        simp only [_dynamic_array_create, if_neg hs, hcall, true_iff]
        exact Or.inr (Or.inr ⟨f, rfl, hcall⟩)
      | some r =>
        obtain ⟨m1, b⟩ := r
        have hne : _dynamic_array_create m s n (some f) ≠ .error .assertion := by
          simp only [_dynamic_array_create, if_neg hs, hcall]
          cases h1 : zero_fill_up m1 b HEADER_SIZE
              ((HEADER_SIZE + s * n % U64) % U64 - HEADER_SIZE) with
          | error e =>
            simp only [Except.bind]
            intro h
            apply zero_fill_up_ne_assertion _ m1 b HEADER_SIZE
            rw [h1, Except.error.inj h]
          | ok m2 =>
            simp only [Except.bind]
            cases h2 : store64 m2 b 0 s with
            | error e =>
              simp only []
              intro h
              apply store64_ne_assertion m2 b 0 s
              rw [h2, Except.error.inj h]
            | ok m3 =>
              simp only []
              cases h3 : store64 m3 b 8 n with
              | error e =>
                simp only []
                intro h
                apply store64_ne_assertion m3 b 8 n
                rw [h3, Except.error.inj h]
              | ok m4 => simp
        constructor
        · intro h
          exact absurd h hne
        · rintro (h | h | ⟨g, hg, hnone⟩)
          · exact absurd h hs
          · cases h
          · cases hg
            rw [hcall] at hnone
            cases hnone

/-! ## `_dynamic_array_resize` with growth -/

theorem grow_bounds_arith (a b : Nat) (ha : 1 ≤ a) (hab : a ≤ b) (hb : HEADER_SIZE + b < U64) :
    (b % U64 + U64 - 1) % U64 = b - 1 ∧ (a % U64 + U64 - 1) % U64 = a - 1 := by
  unfold U64 HEADER_SIZE at *
  omega

theorem grow_bounds_zero_arith (b : Nat) :
    (b % U64 + U64 - 1) % U64 - ((0 : Nat) % U64 + U64 - 1) % U64 = 0 := by
  unfold U64
  omega

/-- The call of `_dynamic_array_resize` after its `realloc` call has returned the
block `new`, of at least 16 bytes, as block `d1`. -/
theorem resize_eq (m : Mem) (d k : Nat) (realloc : allocator_reallocate) (s : Nat) (m1 : Mem)
    (d1 : Nat) (new : Block) (hls : load64 m d 0 = .ok s)
    (hcall : realloc m d ((HEADER_SIZE + (k * s) % U64) % U64) = some (m1, d1))
    (hnew : m1 d1 = some new) (h16 : HEADER_SIZE ≤ new.size) :
    _dynamic_array_resize m d k (some realloc)
      = ((if read_le new.bytes 8 8 < k then
            zero_fill_down m1 d (((k * read_le new.bytes 0 8) % U64 + U64 - 1) % U64)
              (((k * read_le new.bytes 0 8) % U64 + U64 - 1) % U64
                - ((read_le new.bytes 8 8 * read_le new.bytes 0 8) % U64 + U64 - 1) % U64)
          else .ok m1).bind fun m2 =>
          (store64 m2 d1 8 k).bind fun m3 => .ok (m3, d1)) := by
  have h8 : load64 m1 d1 8 = .ok (read_le new.bytes 8 8) :=
    load64_eq m1 d1 8 new hnew (by simp only [HEADER_SIZE] at h16; omega)
  have h0 : load64 m1 d1 0 = .ok (read_le new.bytes 0 8) :=
    load64_eq m1 d1 0 new hnew (by simp only [HEADER_SIZE] at h16; omega)
  unfold _dynamic_array_resize
  rw [hls, bind_ok]
  dsimp only
  rw [hcall]
  dsimp only
  rw [h8, bind_ok, h0, bind_ok]

/-- Growth of a non-empty array when `realloc` resizes the block in place: the
old payload is kept and the added bytes are zero. -/
theorem resize_grow_in_place_aux (m : Mem) (d : Nat) (blk : Block) (s n k : Nat)
    (realloc : allocator_reallocate) (m1 : Mem) (h : Handle m d blk s n) (hs : 0 < s)
    (hn : 1 ≤ n) (hk : n < k) (hfit : HEADER_SIZE + s * k < U64)
    (hc : ReallocateContract realloc)
    (hcall : realloc m d (HEADER_SIZE + s * k) = some (m1, d)) :
    ∃ m' blk', _dynamic_array_resize m d k (some realloc) = .ok (m', d) ∧
      Handle m' d blk' s k ∧
      (∀ i, i < s * n → blk'.bytes (HEADER_SIZE + i) = blk.bytes (HEADER_SIZE + i)) ∧
      (∀ i, s * n ≤ i → i < s * k → blk'.bytes (HEADER_SIZE + i) = 0) ∧
      (∀ c, c ≠ d → m' c = m1 c) := by
  have hls := h.load_item_size
  obtain ⟨hm, hsz, hlt, hrs, hrn⟩ := h
  have hmul : s * n < s * k := Nat.mul_lt_mul_of_pos_left hk hs
  have hpos : 1 ≤ s * n := Nat.mul_pos hs hn
  have hreq : (HEADER_SIZE + (k * s) % U64) % U64 = HEADER_SIZE + s * k := by
    rw [Nat.mul_comm k s, Nat.mod_eq_of_lt (show s * k < U64 by omega), Nat.mod_eq_of_lt hfit]
  obtain ⟨new, hnew, hnsz, hpre⟩ := hc m d _ blk m1 d hm hcall
  have hn1 : read_le new.bytes 8 8 = n := by
    rw [← hrn]
    exact read_le_congr _ _ 8 8
      (fun j _ hj => hpre j (by simp only [HEADER_SIZE] at hsz; omega)
        (by simp only [HEADER_SIZE]; omega))
  have hs1 : read_le new.bytes 0 8 = s := by
    rw [← hrs]
    exact read_le_congr _ _ 8 0
      (fun j _ hj => hpre j (by simp only [HEADER_SIZE] at hsz; omega)
        (by simp only [HEADER_SIZE]; omega))
  obtain ⟨hhi, hlo⟩ := grow_bounds_arith (s * n) (s * k) hpos (by omega) hfit
  have hzero := zero_fill_down_eq (s * k - 1 - (s * n - 1)) m1 d (s * k - 1) new hnew
    (by omega) (by omega)
  obtain ⟨f, hfdef⟩ : ∃ f : Nat → Nat, f = fun j =>
      if HEADER_SIZE + (s * k - 1) + 1 - (s * k - 1 - (s * n - 1)) ≤ j
        ∧ j ≤ HEADER_SIZE + (s * k - 1) then 0 else new.bytes j := ⟨_, rfl⟩
  rw [← hfdef] at hzero
  have hf0 : read_le f 0 8 = s := by
    rw [← hs1, hfdef]
    exact read_le_congr _ _ 8 0
      (fun j _ hj => if_neg (by simp only [HEADER_SIZE]; omega))
  have hk64 : k < U64 := by
    have : 1 * k ≤ s * k := Nat.mul_le_mul_right k hs
    omega
  have hlive : set_block m1 d new.size f d = some ⟨new.size, f⟩ := set_block_same _ _ _ _
  obtain ⟨m', hst, hh, hframe⟩ := Handle.of_store_length hlive hnsz
    (show new.size < U64 by omega) hf0 hk64
  refine ⟨m', _, ?_, hh, ?_, ?_, ?_⟩
  · rw [resize_eq m d k realloc s m1 d new hls (by rw [hreq]; exact hcall) hnew (by omega),
      hn1, hs1, if_pos hk, Nat.mul_comm k s, Nat.mul_comm n s, hhi, hlo, hzero, bind_ok, hst,
      bind_ok]
  · intro i hi
    show write_le f 8 k 8 (HEADER_SIZE + i) = _
    rw [write_le_apply_of_ge 8 _ _ _ _ (by simp only [HEADER_SIZE]; omega), hfdef]
    dsimp only
    rw [if_neg (by omega)]
    exact hpre _ (by omega) (by omega)
  · intro i hi1 hi2
    show write_le f 8 k 8 (HEADER_SIZE + i) = _
    rw [write_le_apply_of_ge 8 _ _ _ _ (by simp only [HEADER_SIZE]; omega), hfdef]
    dsimp only
    rw [if_pos (by omega)]
  · intro c hcd
    rw [hframe c hcd, set_block_other _ _ _ _ _ hcd]

/-- Growth of a non-empty array when `realloc` moves the block and releases the
old one: the zero-fill stores through the released block. -/
theorem resize_grow_moved_aux (m : Mem) (d : Nat) (blk : Block) (s n k : Nat)
    (realloc : allocator_reallocate) (m1 : Mem) (d1 : Nat) (h : Handle m d blk s n)
    (hs : 0 < s) (hn : 1 ≤ n) (hk : n < k) (hfit : HEADER_SIZE + s * k < U64)
    (hc : ReallocateContract realloc)
    (hcall : realloc m d (HEADER_SIZE + s * k) = some (m1, d1)) (hdead : m1 d = none) :
    _dynamic_array_resize m d k (some realloc) = .error .invalid_access := by
  have hls := h.load_item_size
  obtain ⟨hm, hsz, hlt, hrs, hrn⟩ := h
  have hmul : s * n < s * k := Nat.mul_lt_mul_of_pos_left hk hs
  have hpos : 1 ≤ s * n := Nat.mul_pos hs hn
  have hreq : (HEADER_SIZE + (k * s) % U64) % U64 = HEADER_SIZE + s * k := by
    rw [Nat.mul_comm k s, Nat.mod_eq_of_lt (show s * k < U64 by omega), Nat.mod_eq_of_lt hfit]
  obtain ⟨new, hnew, hnsz, hpre⟩ := hc m d _ blk m1 d1 hm hcall
  have hn1 : read_le new.bytes 8 8 = n := by
    rw [← hrn]
    exact read_le_congr _ _ 8 8
      (fun j _ hj => hpre j (by simp only [HEADER_SIZE] at hsz; omega)
        (by simp only [HEADER_SIZE]; omega))
  have hs1 : read_le new.bytes 0 8 = s := by
    rw [← hrs]
    exact read_le_congr _ _ 8 0
      (fun j _ hj => hpre j (by simp only [HEADER_SIZE] at hsz; omega)
        (by simp only [HEADER_SIZE]; omega))
  obtain ⟨hhi, hlo⟩ := grow_bounds_arith (s * n) (s * k) hpos (by omega) hfit
  obtain ⟨c, hcount⟩ : ∃ c, s * k - 1 - (s * n - 1) = c + 1 :=
    ⟨s * k - 1 - (s * n - 1) - 1, by omega⟩
  rw [resize_eq m d k realloc s m1 d1 new hls (by rw [hreq]; exact hcall) hnew (by omega),
    hn1, hs1, if_pos hk, Nat.mul_comm k s, Nat.mul_comm n s, hhi, hlo, hcount,
    zero_fill_down_succ, store_dead m1 d _ 0 hdead, bind_error, bind_error]

/-- Growth of an empty array: the zero-fill loop does not run, and the payload
of the returned handle is whatever `realloc` left in its block. -/
theorem resize_grow_from_empty_aux (m : Mem) (d : Nat) (blk : Block) (s k : Nat)
    (realloc : allocator_reallocate) (m1 : Mem) (d1 : Nat) (new : Block)
    (h : Handle m d blk s 0) (hk : k < U64) (hfit : HEADER_SIZE + s * k < U64)
    (hc : ReallocateContract realloc)
    (hcall : realloc m d (HEADER_SIZE + s * k) = some (m1, d1)) (hnew : m1 d1 = some new) :
    ∃ m' blk', _dynamic_array_resize m d k (some realloc) = .ok (m', d1) ∧
      Handle m' d1 blk' s k ∧
      (∀ i, i < s * k → blk'.bytes (HEADER_SIZE + i) = new.bytes (HEADER_SIZE + i)) ∧
      (∀ c, c ≠ d1 → m' c = m1 c) := by
  have hls := h.load_item_size
  obtain ⟨hm, hsz, hlt, hrs, hrn⟩ := h
  have hreq : (HEADER_SIZE + (k * s) % U64) % U64 = HEADER_SIZE + s * k := by
    rw [Nat.mul_comm k s, Nat.mod_eq_of_lt (show s * k < U64 by omega), Nat.mod_eq_of_lt hfit]
  obtain ⟨new', hnew', hnsz, hpre⟩ := hc m d _ blk m1 d1 hm hcall
  rw [hnew] at hnew'
  cases hnew'
  have hn1 : read_le new.bytes 8 8 = 0 := by
    rw [← hrn]
    exact read_le_congr _ _ 8 8
      (fun j _ hj => hpre j (by simp only [HEADER_SIZE] at hsz; omega)
        (by simp only [HEADER_SIZE]; omega))
  have hs1 : read_le new.bytes 0 8 = s := by
    rw [← hrs]
    exact read_le_congr _ _ 8 0
      (fun j _ hj => hpre j (by simp only [HEADER_SIZE] at hsz; omega)
        (by simp only [HEADER_SIZE]; omega))
  obtain ⟨m', hst, hh, hframe⟩ := Handle.of_store_length hnew hnsz (by omega) hs1 hk
  refine ⟨m', _, ?_, hh, ?_, hframe⟩
  · rw [resize_eq m d k realloc s m1 d1 new hls (by rw [hreq]; exact hcall) hnew (by omega),
      hn1, hs1]
    by_cases hk0 : 0 < k
    · rw [if_pos hk0, Nat.zero_mul, grow_bounds_zero_arith, zero_fill_down_zero, bind_ok, hst,
        bind_ok]
    · rw [if_neg hk0, bind_ok, hst, bind_ok]
  · intro i hi
    show write_le new.bytes 8 k 8 (HEADER_SIZE + i) = _
    rw [write_le_apply_of_ge 8 _ _ _ _ (by simp only [HEADER_SIZE]; omega)]

/-! ## `_dynamic_array_insert` -/

theorem map_getD_range (v : List Nat) (off : Nat) :
    (List.range v.length).map (fun k => v.getD (off + k - off) 0) = v := by
  apply List.ext_getElem
  · simp
  · intro i h1 h2
    simp only [List.getElem_map, List.getElem_range, Nat.add_sub_cancel_left]
    simp [List.getD_eq_getElem?_getD, List.getElem?_eq_getElem h2]

/-- The call of `_dynamic_array_insert` after its resize has returned the handle
`d1` of `n1` elements. -/
theorem insert_eq (m : Mem) (d : Nat) (v : List Nat) (realloc : allocator_reallocate)
    (s n : Nat) (mr : Mem) (d1 : Nat) (n1 : Nat)
    (hls : load64 m d 0 = .ok s) (hln : load64 m d 8 = .ok n)
    (hres : _dynamic_array_resize m d ((n + 1) % U64) (some realloc) = .ok (mr, d1))
    (hls1 : load64 mr d1 0 = .ok s) (hln1 : load64 mr d1 8 = .ok n1) :
    _dynamic_array_insert m d (some v) s (some realloc)
      = (if s ≤ HEADER_SIZE + (n1 * s) % U64 then
          (write_bytes mr d1 (HEADER_SIZE + (n1 * s) % U64 - s) 0 v).bind fun m2 =>
            .ok (m2, d1)
        else .error .invalid_access) := by
  unfold _dynamic_array_insert
  rw [hls, bind_ok]
  dsimp only
  rw [if_pos rfl, hln, bind_ok, hres, bind_ok]
  dsimp only
  rw [hln1, bind_ok, hls1, bind_ok]

/-- Insertion when the resize inside it returns: into an empty array with any
reallocator, or with a reallocator that resizes the block in place. -/
theorem insert_aux (m : Mem) (d : Nat) (blk : Block) (s n : Nat) (v : List Nat)
    (realloc : allocator_reallocate) (m1 : Mem) (d1 : Nat) (h : Handle m d blk s n)
    (hs : 0 < s) (hv : v.length = s) (hfit : HEADER_SIZE + s * (n + 1) < U64)
    (hc : ReallocateContract realloc)
    (hcall : realloc m d (HEADER_SIZE + s * (n + 1)) = some (m1, d1))
    (hplace : n = 0 ∨ d1 = d) :
    ∃ m' blk', _dynamic_array_insert m d (some v) s (some realloc) = .ok (m', d1) ∧
      Handle m' d1 blk' s (n + 1) ∧
      (∀ j, j < n → element blk' s j = element blk s j) ∧
      element blk' s n = v := by
  have hls := h.load_item_size
  have hln := h.load_length
  have hn64 : n + 1 < U64 := by
    have : 1 * (n + 1) ≤ s * (n + 1) := Nat.mul_le_mul_right _ hs
    omega
  have hres : ∃ mr blkr, _dynamic_array_resize m d (n + 1) (some realloc) = .ok (mr, d1) ∧
      Handle mr d1 blkr s (n + 1) ∧
      ∀ i, i < s * n → blkr.bytes (HEADER_SIZE + i) = blk.bytes (HEADER_SIZE + i) := by
    by_cases hn0 : n = 0
    · subst hn0
      obtain ⟨new, hnew, _, _⟩ := hc m d _ blk m1 d1 h.1 hcall
      obtain ⟨mr, blkr, h1, h2, _, _⟩ := resize_grow_from_empty_aux m d blk s (0 + 1) realloc
        m1 d1 new h hn64 hfit hc hcall hnew
      exact ⟨mr, blkr, h1, h2, fun i hi => absurd hi (by omega)⟩
    · have hd : d1 = d := hplace.resolve_left hn0
      subst hd
      obtain ⟨mr, blkr, h1, h2, h3, _, _⟩ := resize_grow_in_place_aux m d1 blk s n (n + 1)
        realloc m1 h hs (by omega) (by omega) hfit hc hcall
      exact ⟨mr, blkr, h1, h2, h3⟩
  obtain ⟨mr, blkr, hres, hhr, hkeep⟩ := hres
  have hls1 := hhr.load_item_size
  have hln1 := hhr.load_length
  obtain ⟨hmr, hszr, hltr, hrsr, hrnr⟩ := hhr
  have e1 : s * (n + 1) = s * n + s := Nat.mul_succ s n
  have hpast : ((n + 1) * s) % U64 = s * n + s := by
    rw [Nat.mul_comm, e1, Nat.mod_eq_of_lt (by omega)]
  have hoff : HEADER_SIZE + (s * n + s) - s = HEADER_SIZE + s * n := by omega
  obtain ⟨f, hw, hf⟩ : ∃ f : Nat → Nat,
      write_bytes mr d1 (HEADER_SIZE + s * n) 0 v = .ok (set_block mr d1 blkr.size f) ∧
      ∀ j, f j = if HEADER_SIZE + s * n + 0 ≤ j ∧ j < HEADER_SIZE + s * n + 0 + v.length
        then v.getD (j - (HEADER_SIZE + s * n + 0)) 0 else blkr.bytes j :=
    ⟨_, write_bytes_eq v mr d1 (HEADER_SIZE + s * n) 0 s blkr hmr hrsr
      (by simp only [HEADER_SIZE]; omega) (by omega) (by omega), fun _ => rfl⟩
  refine ⟨set_block mr d1 blkr.size f, ⟨blkr.size, f⟩, ?_,
    ⟨set_block_same _ _ _ _, hszr, hltr, ?_, ?_⟩, ?_, ?_⟩
  · rw [insert_eq m d v realloc s n mr d1 (n + 1) hls hln
      (by rw [Nat.mod_eq_of_lt hn64]; exact hres) hls1 hln1, hpast, if_pos (by omega), hoff, hw,
      bind_ok]
  · rw [← hrsr]
    exact read_le_congr _ _ 8 0
      (fun j _ hj => by
        show f j = blkr.bytes j
        rw [hf j, if_neg (by simp only [HEADER_SIZE]; omega)])
  · rw [← hrnr]
    exact read_le_congr _ _ 8 8
      (fun j _ hj => by
        show f j = blkr.bytes j
        rw [hf j, if_neg (by simp only [HEADER_SIZE]; omega)])
  · intro j hj
    apply element_congr
    intro k hk
    have hj1 : s * (j + 1) ≤ s * n := Nat.mul_le_mul_left s hj
    have hj2 : s * (j + 1) = s * j + s := Nat.mul_succ s j
    show f (HEADER_SIZE + s * j + k) = _
    rw [hf, if_neg (by omega), Nat.add_assoc, hkeep (s * j + k) (by omega)]
  · subst hv
    unfold element
    refine Eq.trans ?_ (map_getD_range v (HEADER_SIZE + v.length * n))
    apply List.map_congr_left
    intro k hk
    have hk' := List.mem_range.mp hk
    show f (HEADER_SIZE + v.length * n + k) = _
    rw [hf, if_pos (by omega)]
    rfl

/-! ## What a call that returned has done -/

theorem bind_eq_ok {α β : Type} {x : Except Fault α} {f : α → Except Fault β} {r : β}
    (h : x.bind f = .ok r) : ∃ a, x = .ok a ∧ f a = .ok r := by
  cases x with
  | error e => simp [Except.bind] at h
  | ok a => exact ⟨a, rfl, h⟩

theorem load64_ok {m : Mem} {b off v : Nat} (h : load64 m b off = .ok v) :
    ∃ blk, m b = some blk ∧ off + 8 ≤ blk.size ∧ v = read_le blk.bytes off 8 := by
  unfold load64 at h
  cases hm : m b with
  | none => simp [hm] at h
  | some blk =>
    simp only [hm] at h
    by_cases hoff : off + 8 ≤ blk.size
    · rw [if_pos hoff] at h
      exact ⟨blk, rfl, hoff, (Except.ok.inj h).symm⟩
    · rw [if_neg hoff] at h
      cases h

theorem store_ok {m m' : Mem} {b off v : Nat} (h : store m b off v = .ok m') :
    ∃ blk, m b = some blk ∧ off < blk.size ∧
      m' = set_block m b blk.size (Function.update blk.bytes off v) := by
  unfold store at h
  cases hm : m b with
  | none => simp [hm] at h
  | some blk =>
    simp only [hm] at h
    by_cases hoff : off < blk.size
    · rw [if_pos hoff] at h
      exact ⟨blk, rfl, hoff, (Except.ok.inj h).symm⟩
    · rw [if_neg hoff] at h
      cases h

theorem store64_ok {m m' : Mem} {b off v : Nat} (h : store64 m b off v = .ok m') :
    ∃ blk, m b = some blk ∧ off + 8 ≤ blk.size ∧
      m' = set_block m b blk.size (write_le blk.bytes off v 8) := by
  unfold store64 at h
  cases hm : m b with
  | none => simp [hm] at h
  | some blk =>
    simp only [hm] at h
    by_cases hoff : off + 8 ≤ blk.size
    · rw [if_pos hoff] at h
      exact ⟨blk, rfl, hoff, (Except.ok.inj h).symm⟩
    · rw [if_neg hoff] at h
      cases h

theorem StoresTo.refl (m : Mem) (b lo : Nat) : StoresTo m m b lo :=
  ⟨fun _ _ => rfl, fun blk h => ⟨blk, h, rfl, fun _ _ => rfl⟩⟩

theorem StoresTo.trans {m1 m2 m3 : Mem} {b lo : Nat} (h12 : StoresTo m1 m2 b lo)
    (h23 : StoresTo m2 m3 b lo) : StoresTo m1 m3 b lo := by
  refine ⟨fun c hc => by rw [h23.1 c hc, h12.1 c hc], ?_⟩
  intro blk hb
  obtain ⟨blk2, hb2, hs2, hj2⟩ := h12.2 blk hb
  obtain ⟨blk3, hb3, hs3, hj3⟩ := h23.2 blk2 hb2
  exact ⟨blk3, hb3, by rw [hs3, hs2], fun j hj => by rw [hj3 j hj, hj2 j hj]⟩

theorem StoresTo.mono {m m' : Mem} {b lo lo' : Nat} (h : StoresTo m m' b lo) (hlo : lo' ≤ lo) :
    StoresTo m m' b lo' := by
  refine ⟨h.1, ?_⟩
  intro blk hb
  obtain ⟨blk', hb', hs', hj'⟩ := h.2 blk hb
  exact ⟨blk', hb', hs', fun j hj => hj' j (by omega)⟩

theorem store_storesTo {m m' : Mem} {b off v lo : Nat} (h : store m b off v = .ok m')
    (hlo : lo ≤ off) : StoresTo m m' b lo := by
  obtain ⟨blk, hb, _, rfl⟩ := store_ok h
  refine ⟨fun c hc => set_block_other _ _ _ _ _ hc, ?_⟩
  intro blk0 hb0
  rw [hb] at hb0
  cases hb0
  refine ⟨_, set_block_same _ _ _ _, rfl, ?_⟩
  intro j hj
  exact Function.update_noteq (by omega) _ _

theorem zero_fill_up_storesTo (k : Nat) :
    ∀ (m m' : Mem) (b i lo : Nat), zero_fill_up m b i k = .ok m' → lo ≤ i →
      StoresTo m m' b lo := by
  induction k with
  | zero =>
    intro m m' b i lo h _
    cases (Except.ok.inj h)
    exact StoresTo.refl _ _ _
  | succ k ih =>
    intro m m' b i lo h hlo
    obtain ⟨m1, h1, h2⟩ := bind_eq_ok h
    exact (store_storesTo h1 hlo).trans (ih m1 m' b (i + 1) lo h2 (by omega))

theorem zero_fill_down_storesTo (k : Nat) :
    ∀ (m m' : Mem) (b i : Nat), zero_fill_down m b i k = .ok m' →
      StoresTo m m' b HEADER_SIZE := by
  induction k with
  | zero =>
    intro m m' b i h
    cases (Except.ok.inj h)
    exact StoresTo.refl _ _ _
  | succ k ih =>
    intro m m' b i h
    obtain ⟨m1, h1, h2⟩ := bind_eq_ok h
    exact (store_storesTo h1 (Nat.le_add_right _ _)).trans (ih m1 m' b (i - 1) h2)

theorem copy_bytes_storesTo (k : Nat) :
    ∀ (m m' : Mem) (dst doff src soff lo : Nat), copy_bytes m dst doff src soff k = .ok m' →
      lo ≤ doff → StoresTo m m' dst lo := by
  induction k with
  | zero =>
    intro m m' dst doff src soff lo h _
    cases (Except.ok.inj h)
    exact StoresTo.refl _ _ _
  | succ k ih =>
    intro m m' dst doff src soff lo h hlo
    obtain ⟨v, _, h1⟩ := bind_eq_ok h
    obtain ⟨m1, h2, h3⟩ := bind_eq_ok h1
    exact (store_storesTo h2 hlo).trans (ih m1 m' dst (doff + 1) src (soff + 1) lo h3 (by omega))

theorem write_bytes_storesTo (data : List Nat) :
    ∀ (m m' : Mem) (b off i lo : Nat),
      write_bytes m b off i data = .ok m' → lo ≤ off + i → StoresTo m m' b lo := by
  induction data with
  | nil =>
    intro m m' b off i lo h _
    simp only [write_bytes] at h
    obtain ⟨s, _, h1⟩ := bind_eq_ok h
    by_cases hi : i < s
    · rw [if_pos hi] at h1
      cases h1
    · rw [if_neg hi] at h1
      cases (Except.ok.inj h1)
      exact StoresTo.refl _ _ _
  | cons v rest ih =>
    intro m m' b off i lo h hlo
    simp only [write_bytes] at h
    obtain ⟨s, _, h1⟩ := bind_eq_ok h
    by_cases hi : i < s
    · rw [if_pos hi] at h1
      obtain ⟨m1, h2, h3⟩ := bind_eq_ok h1
      exact (store_storesTo h2 hlo).trans (ih m1 m' b off (i + 1) lo h3 (by omega))
    · rw [if_neg hi] at h1
      cases (Except.ok.inj h1)
      exact StoresTo.refl _ _ _

theorem store64_storesTo {m m' : Mem} {b off v lo : Nat} (h : store64 m b off v = .ok m')
    (hlo : lo ≤ off) : StoresTo m m' b lo := by
  obtain ⟨blk, hb, _, rfl⟩ := store64_ok h
  refine ⟨fun c hc => set_block_other _ _ _ _ _ hc, ?_⟩
  intro blk0 hb0
  rw [hb] at hb0
  cases hb0
  refine ⟨_, set_block_same _ _ _ _, rfl, ?_⟩
  intro j hj
  exact write_le_apply_of_lt 8 _ _ _ _ (by omega)

/-- What a returned `_dynamic_array_resize` has done: it has called `realloc`
for `(16 + new_length * item_size) mod 2^64` bytes, and the block behind the
returned handle has that size, the old `item_size` and `length = new_length`. -/
theorem resize_ok {m m' : Mem} {d k d' : Nat} {realloc : allocator_reallocate}
    (hc : ReallocateContract realloc)
    (h : _dynamic_array_resize m d k (some realloc) = .ok (m', d')) :
    ∃ old m1 blk', m d = some old ∧ 8 ≤ old.size ∧
      realloc m d ((HEADER_SIZE + (k * read_le old.bytes 0 8) % U64) % U64) = some (m1, d') ∧
      m' d' = some blk' ∧
      blk'.size = (HEADER_SIZE + (k * read_le old.bytes 0 8) % U64) % U64 ∧
      HEADER_SIZE ≤ blk'.size ∧
      read_le blk'.bytes 0 8 = read_le old.bytes 0 8 ∧
      read_le blk'.bytes 8 8 = k % U64 ∧
      (∀ c, c ≠ d → c ≠ d' → m' c = m1 c) := by
  unfold _dynamic_array_resize at h
  obtain ⟨s0, hl0, h1⟩ := bind_eq_ok h
  obtain ⟨old, hold, h8, rfl⟩ := load64_ok hl0
  dsimp only at h1
  cases hr : realloc m d ((HEADER_SIZE + (k * read_le old.bytes 0 8) % U64) % U64) with
  | none => rw [hr] at h1; cases h1
  | some r =>
    obtain ⟨m1, hdr⟩ := r
    rw [hr] at h1
    dsimp only at h1
    obtain ⟨len, hl8, h2⟩ := bind_eq_ok h1
    obtain ⟨m2, hz, h3⟩ := bind_eq_ok h2
    obtain ⟨m3, hst, h4⟩ := bind_eq_ok h3
    have h5 := Except.ok.inj h4
    simp only [Prod.mk.injEq] at h5
    obtain ⟨rfl, rfl⟩ := h5
    obtain ⟨new, hnew, hnsz, hpre⟩ := hc m d _ old m1 hdr hold hr
    obtain ⟨new', hnew', h16, _⟩ := load64_ok hl8
    rw [hnew] at hnew'
    cases hnew'
    have hstores : StoresTo m1 m2 d HEADER_SIZE := by
      by_cases hlt : len < k
      · rw [if_pos hlt] at hz
        obtain ⟨isz, _, hzz⟩ := bind_eq_ok hz
        exact zero_fill_down_storesTo _ _ _ _ _ hzz
      · rw [if_neg hlt] at hz
        cases (Except.ok.inj hz)
        exact StoresTo.refl _ _ _
    have hblk2 : ∃ blk2, m2 hdr = some blk2 ∧ blk2.size = new.size ∧
        ∀ j, j < HEADER_SIZE → blk2.bytes j = new.bytes j := by
      by_cases hd : hdr = d
      · subst hd
        exact hstores.2 new hnew
      · exact ⟨new, by rw [hstores.1 hdr hd]; exact hnew, rfl, fun _ _ => rfl⟩
    obtain ⟨blk2, hb2, hs2, hj2⟩ := hblk2
    obtain ⟨blk2', hb2', _, rfl⟩ := store64_ok hst
    rw [hb2] at hb2'
    cases hb2'
    refine ⟨old, m1, ⟨blk2.size, write_le blk2.bytes 8 k 8⟩, hold, h8, hr,
      set_block_same _ _ _ _, by rw [← hnsz]; exact hs2, by
        show HEADER_SIZE ≤ blk2.size
        rw [hs2]; simp only [HEADER_SIZE]; omega, ?_, ?_, ?_⟩
    · show read_le (write_le blk2.bytes 8 k 8) 0 8 = read_le old.bytes 0 8
      apply read_le_congr
      intro j _ hj
      rw [write_le_apply_of_lt 8 _ _ _ _ (by omega), hj2 j (by simp only [HEADER_SIZE]; omega)]
      exact hpre j (by omega) (by omega)
    · show read_le (write_le blk2.bytes 8 k 8) 8 8 = k % U64
      rw [read_le_write_le, pow_256_8]
    · intro c hcd hch
      rw [set_block_other _ _ _ _ _ hch]
      exact hstores.1 c hcd

/-! ## Operations on one array leave other blocks alone -/

theorem resize_frame {m m' : Mem} {d k d' : Nat} {realloc : allocator_reallocate}
    (hc : ReallocateContract realloc) (hf : ReallocateFrame realloc)
    (h : _dynamic_array_resize m d k (some realloc) = .ok (m', d')) :
    FrameResult m d m' d' := by
  obtain ⟨old, m1, blk', _, _, hr, hb', _, _, _, _, hframe⟩ := resize_ok hc h
  obtain ⟨hfresh, hother⟩ := hf m d _ m1 d' hr
  refine ⟨hfresh, by simp [hb'], ?_⟩
  intro c hcd hcd'
  rw [hframe c hcd hcd', hother c hcd hcd']

theorem insert_frame {m m' : Mem} {d d' : Nat} {data : Option (List Nat)} {data_size : Nat}
    {realloc : allocator_reallocate}
    (hc : ReallocateContract realloc) (hf : ReallocateFrame realloc)
    (h : _dynamic_array_insert m d data data_size (some realloc) = .ok (m', d')) :
    FrameResult m d m' d' := by
  unfold _dynamic_array_insert at h
  obtain ⟨s0, _, h1⟩ := bind_eq_ok h
  cases data with
  | none => cases h1
  | some bytes =>
    dsimp only at h1
    by_cases hsz : s0 = data_size
    · rw [if_pos hsz] at h1
      obtain ⟨n0, _, h2⟩ := bind_eq_ok h1
      obtain ⟨r, hres, h3⟩ := bind_eq_ok h2
      obtain ⟨m1, d1⟩ := r
      obtain ⟨n1, _, h4⟩ := bind_eq_ok h3
      obtain ⟨s1, _, h5⟩ := bind_eq_ok h4
      dsimp only at h5
      by_cases hle : s1 ≤ HEADER_SIZE + (n1 * s1) % U64
      · rw [if_pos hle] at h5
        obtain ⟨m2, hw, h6⟩ := bind_eq_ok h5
        have h7 := Except.ok.inj h6
        simp only [Prod.mk.injEq] at h7
        obtain ⟨rfl, rfl⟩ := h7
        obtain ⟨hfresh, hlive, hother⟩ := resize_frame hc hf hres
        have hst := write_bytes_storesTo _ _ _ _ _ _ 0 hw (Nat.zero_le _)
        refine ⟨hfresh, ?_, ?_⟩
        · obtain ⟨blk1, hb1⟩ := Option.isSome_iff_exists.mp hlive
          obtain ⟨blk2, hb2, _, _⟩ := hst.2 blk1 hb1
          simp [hb2]
        · intro c hcd hcd'
          rw [hst.1 c hcd', hother c hcd hcd']
      · rw [if_neg hle] at h5
        cases h5
    · rw [if_neg hsz] at h1
      cases h1

theorem remove_frame {m m' : Mem} {d i d' : Nat} {realloc : allocator_reallocate}
    (hc : ReallocateContract realloc) (hf : ReallocateFrame realloc)
    (h : _dynamic_array_remove m d i (some realloc) = .ok (m', d')) :
    FrameResult m d m' d' := by
  unfold _dynamic_array_remove at h
  obtain ⟨n0, _, h1⟩ := bind_eq_ok h
  by_cases hlt : n0 > i
  · rw [if_pos hlt] at h1
    obtain ⟨s0, _, h2⟩ := bind_eq_ok h1
    obtain ⟨m1, hcp, h3⟩ := bind_eq_ok h2
    have hst := copy_bytes_storesTo _ _ _ _ _ _ _ 0 hcp (Nat.zero_le _)
    obtain ⟨hfresh, hlive, hother⟩ := resize_frame hc hf h3
    refine ⟨?_, hlive, ?_⟩
    · rcases hfresh with h4 | h4
      · exact Or.inl h4
      · by_cases hd : d' = d
        · exact Or.inl hd
        · right
          rw [← hst.1 d' hd]
          exact h4
    · intro c hcd hcd'
      rw [hother c hcd hcd', hst.1 c hcd]
  · rw [if_neg hlt] at h1
    cases h1

theorem mutation_frame {m m' : Mem} {x x' : Nat} (h : Mutation m x m' x')
    (hx : (m x).isSome = true) : FrameResult m x m' x' := by
  cases h with
  | write =>
    rename_i hst
    have hs : StoresTo _ _ _ 0 := store_storesTo hst (Nat.zero_le _)
    refine ⟨Or.inl rfl, ?_, fun c hc _ => hs.1 c hc⟩
    obtain ⟨blk, hb⟩ := Option.isSome_iff_exists.mp hx
    obtain ⟨blk', hb', _, _⟩ := hs.2 blk hb
    simp [hb']
  | resize =>
    rename_i hc hf h
    exact resize_frame hc hf h
  | insert =>
    rename_i hc hf h
    exact insert_frame hc hf h
  | remove =>
    rename_i hc hf h
    exact remove_frame hc hf h

/-- A mutation of the array `x` leaves every other live block as it was, and the
handle it returns is not one of them. -/
theorem mutation_other {m m' : Mem} {x x' y : Nat} (h : Mutation m x m' x')
    (hx : (m x).isSome = true) (hy : (m y).isSome = true) (hxy : x ≠ y) :
    m' y = m y ∧ x' ≠ y ∧ (m' x').isSome = true := by
  obtain ⟨hfresh, hlive, hother⟩ := mutation_frame h hx
  have hne : x' ≠ y := by
    rcases hfresh with h1 | h1
    · rw [h1]; exact hxy
    · intro h2
      rw [h2] at h1
      rw [h1] at hy
      cases hy
  exact ⟨hother y (Ne.symm hxy) (Ne.symm hne), hne, hlive⟩

/-- Two distinct live arrays stay distinct and live under any sequence of
mutations of either. -/
theorem later_distinct {m m1 : Mem} {x y x1 y1 : Nat} (h : Later m x y m1 x1 y1)
    (hx : (m x).isSome = true) (hy : (m y).isSome = true) (hxy : x ≠ y) :
    (m1 x1).isSome = true ∧ (m1 y1).isSome = true ∧ x1 ≠ y1 := by
  induction h with
  | refl => exact ⟨hx, hy, hxy⟩
  | left m1 x1 y1 m2 x2 _ hmut ih =>
    obtain ⟨hx1, hy1, hne⟩ := ih
    obtain ⟨hsame, hne', hlive⟩ := mutation_other hmut hx1 hy1 hne
    exact ⟨hlive, by rw [hsame]; exact hy1, hne'⟩
  | right m1 x1 y1 m2 y2 _ hmut ih =>
    obtain ⟨hx1, hy1, hne⟩ := ih
    obtain ⟨hsame, hne', hlive⟩ := mutation_other hmut hy1 hx1 (Ne.symm hne)
    exact ⟨by rw [hsame]; exact hx1, hlive, Ne.symm hne'⟩

/-- The relation `Mutation` is inhabited: removing index 1 of the sample array. -/
theorem mutation_exists : ∃ m' x', Mutation sample_mem 0 m' x' := by
  obtain ⟨m', d', _, h, _⟩ := remove_aux sample_mem 0 sample_block 4 3 1 (realloc_move junk_FF)
    sample_handle (by decide) (realloc_move_contract junk_FF) (realloc_move_succeeds junk_FF)
  exact ⟨m', d', Mutation.remove _ _ _ _ _ _ (realloc_move_contract junk_FF)
    (realloc_move_frame junk_FF) h⟩

/-! ## `_dynamic_array_copy` -/

/-- Copy of a valid handle, any allocator obeying its contract. -/
theorem copy_aux (m : Mem) (d : Nat) (blk : Block) (s n : Nat) (alloc : allocator_allocate)
    (m1 : Mem) (b : Nat) (h : Handle m d blk s n) (hc : AllocateContract alloc)
    (hcall : alloc m (HEADER_SIZE + s * n) = some (m1, b)) :
    ∃ m' blk', _dynamic_array_copy m d (some alloc) = .ok (m', b) ∧
      Handle m' b blk' s n ∧
      (∀ j, j < blk.size → blk'.bytes j = blk.bytes j) ∧
      m' d = some blk ∧ b ≠ d ∧ (∀ c, c ≠ b → m' c = m c) := by
  have hls := h.load_item_size
  have hln := h.load_length
  obtain ⟨hm, hsz, hlt, hrs, hrn⟩ := h
  have htot : ((n * s) % U64 + HEADER_SIZE) % U64 = HEADER_SIZE + s * n := by
    rw [Nat.mul_comm n s, Nat.mod_eq_of_lt (show s * n < U64 by omega), Nat.add_comm,
      Nat.mod_eq_of_lt (by omega)]
  obtain ⟨hfresh, ⟨blk0, hb0, hsz0⟩, hframe⟩ := hc m _ m1 b hcall
  have hbd : b ≠ d := by
    intro hbd
    rw [hbd, hm] at hfresh
    cases hfresh
  have hd1 : m1 d = some blk := by rw [hframe d (Ne.symm hbd)]; exact hm
  obtain ⟨f, hcopy, hf⟩ : ∃ f : Nat → Nat,
      copy_bytes m1 b 0 d 0 (HEADER_SIZE + s * n) = .ok (set_block m1 b blk0.size f) ∧
      ∀ j, j < HEADER_SIZE + s * n → f j = blk.bytes j := by
    refine ⟨_, copy_bytes_other_eq (HEADER_SIZE + s * n) m1 b 0 d 0 blk0 blk hbd hb0 hd1
      (by omega) (by omega), ?_⟩
    intro j hj
    show (if 0 ≤ j ∧ j < 0 + (HEADER_SIZE + s * n) then blk.bytes (0 + (j - 0))
      else blk0.bytes j) = blk.bytes j
    rw [if_pos (by omega)]
    exact congrArg blk.bytes (by omega)
  refine ⟨set_block m1 b blk0.size f, ⟨blk0.size, f⟩, ?_,
    ⟨set_block_same _ _ _ _, ?_, ?_, ?_, ?_⟩, ?_, ?_, hbd, ?_⟩
  · simp only [_dynamic_array_copy, hln, hls, Except.bind, htot, hcall, hcopy]
  · show blk0.size = HEADER_SIZE + s * n
    exact hsz0
  · show blk0.size < U64
    omega
  · rw [← hrs]
    apply read_le_congr
    intro j _ hj
    exact hf j (by simp only [HEADER_SIZE]; omega)
  · rw [← hrn]
    apply read_le_congr
    intro j _ hj
    exact hf j (by simp only [HEADER_SIZE]; omega)
  · intro j hj
    exact hf j (by omega)
  · rw [set_block_other _ _ _ _ _ (Ne.symm hbd)]
    exact hd1
  · intro c hc
    rw [set_block_other _ _ _ _ _ hc]
    exact hframe c hc

/-! ## The exact-size invariant -/

theorem mod_mul_add_one (n s : Nat) :
    (((n + 1) % U64) * s) % U64 = ((s * n) % U64 + s) % U64 := by
  rw [Nat.mod_add_mod, Nat.mul_mod, Nat.mod_mod, ← Nat.mul_mod]
  congr 1
  ring

theorem create_exact_size {m m' : Mem} {s n d : Nat} {alloc : allocator_allocate}
    (hs64 : s < U64) (hn64 : n < U64) (hc : AllocateContract alloc)
    (h : _dynamic_array_create m s n (some alloc) = .ok (m', d)) : ExactSize m' d := by
  have hs : s ≠ 0 := by
    intro hs
    simp only [_dynamic_array_create, hs, if_true] at h
    cases h
  cases hcall : alloc m ((HEADER_SIZE + (s * n) % U64) % U64) with
  | none =>
    simp only [_dynamic_array_create, if_neg hs, hcall] at h
    cases h
  | some r =>
    obtain ⟨m1, b⟩ := r
    obtain ⟨_, ⟨blk0, hb0, hsz0⟩, _⟩ := hc m _ m1 b hcall
    have h16 : HEADER_SIZE ≤ blk0.size := by
      simp only [_dynamic_array_create, if_neg hs, hcall] at h
      obtain ⟨m2, hz, h2⟩ := bind_eq_ok h
      obtain ⟨m3, hst0, h3⟩ := bind_eq_ok h2
      obtain ⟨m4, hst8, _⟩ := bind_eq_ok h3
      obtain ⟨blk2, hb2, hs2, _⟩ :=
        (zero_fill_up_storesTo _ _ _ _ _ 0 hz (Nat.zero_le _)).2 blk0 hb0
      obtain ⟨blk3, hb3, hs3, _⟩ := (store64_storesTo hst0 (Nat.zero_le 0)).2 blk2 hb2
      obtain ⟨blk3', hb3', hle, _⟩ := store64_ok hst8
      rw [hb3] at hb3'
      cases hb3'
      simp only [HEADER_SIZE]
      omega
    rw [create_eq m s n alloc m1 b blk0 hs hcall hb0 hsz0 h16] at h
    have h5 := Except.ok.inj h
    simp only [Prod.mk.injEq] at h5
    obtain ⟨rfl, rfl⟩ := h5
    refine ⟨⟨blk0.size, _⟩, set_block_same _ _ _ _, h16, ?_⟩
    have hr0 : read_le (write_le (write_le
        (fun j => if HEADER_SIZE ≤ j ∧ j < HEADER_SIZE + (blk0.size - HEADER_SIZE) then 0
          else blk0.bytes j) 0 s 8) 8 n 8) 0 8 = s := by
      rw [read_le_congr _ (write_le _ 0 s 8) 8 0
        (fun j _ hj => write_le_apply_of_lt 8 _ _ _ _ (by omega)),
        read_le_write_le, pow_256_8, Nat.mod_eq_of_lt hs64]
    have hr8 : read_le (write_le (write_le
        (fun j => if HEADER_SIZE ≤ j ∧ j < HEADER_SIZE + (blk0.size - HEADER_SIZE) then 0
          else blk0.bytes j) 0 s 8) 8 n 8) 8 8 = n := by
      rw [read_le_write_le, pow_256_8, Nat.mod_eq_of_lt hn64]
    show blk0.size = _
    rw [hr0, hr8]
    exact hsz0

theorem resize_exact_size {m m' : Mem} {d k d' : Nat} {realloc : allocator_reallocate}
    (hk : k < U64) (hc : ReallocateContract realloc)
    (h : _dynamic_array_resize m d k (some realloc) = .ok (m', d')) : ExactSize m' d' := by
  obtain ⟨old, m1, blk', _, _, _, hb', hsz, h16, hr0, hr8, _⟩ := resize_ok hc h
  refine ⟨blk', hb', h16, ?_⟩
  rw [hr0, hr8, Nat.mod_eq_of_lt hk, Nat.mul_comm]
  exact hsz

theorem remove_exact_size {m m' : Mem} {d i d' : Nat} {realloc : allocator_reallocate}
    (hc : ReallocateContract realloc)
    (h : _dynamic_array_remove m d i (some realloc) = .ok (m', d')) : ExactSize m' d' := by
  unfold _dynamic_array_remove at h
  obtain ⟨n0, hl, h1⟩ := bind_eq_ok h
  obtain ⟨blk, _, _, rfl⟩ := load64_ok hl
  by_cases hlt : read_le blk.bytes 8 8 > i
  · rw [if_pos hlt] at h1
    obtain ⟨s0, _, h2⟩ := bind_eq_ok h1
    obtain ⟨m1, _, h3⟩ := bind_eq_ok h2
    have := read_le_lt_U64 blk.bytes 8
    exact resize_exact_size (by omega) hc h3
  · rw [if_neg hlt] at h1
    cases h1

theorem insert_offset_arith (p s : Nat)
    (h16 : HEADER_SIZE ≤ (HEADER_SIZE + p) % U64) (hle : s ≤ HEADER_SIZE + (p + s) % U64) :
    HEADER_SIZE ≤ HEADER_SIZE + (p + s) % U64 - s + 0 := by
  unfold U64 HEADER_SIZE at *
  omega

theorem insert_size_arith (p s : Nat) :
    (HEADER_SIZE + (p + s) % U64) % U64 = ((HEADER_SIZE + p) % U64 + s) % U64 := by
  unfold U64 HEADER_SIZE
  omega

/-- What a returned `_dynamic_array_insert` has done to the size of the block. -/
theorem insert_exact_size {m m' : Mem} {d d' : Nat} {data : Option (List Nat)}
    {data_size : Nat} {realloc : allocator_reallocate} {blk : Block}
    (hc : ReallocateContract realloc) (hb : m d = some blk) (h16 : HEADER_SIZE ≤ blk.size)
    (hsz : blk.size
      = (HEADER_SIZE + (read_le blk.bytes 0 8 * read_le blk.bytes 8 8) % U64) % U64)
    (h : _dynamic_array_insert m d data data_size (some realloc) = .ok (m', d')) :
    ExactSize m' d' ∧
      ∃ blk', m' d' = some blk' ∧ blk'.size = (blk.size + read_le blk.bytes 0 8) % U64 := by
  unfold _dynamic_array_insert at h
  obtain ⟨s0, hl0, h1⟩ := bind_eq_ok h
  obtain ⟨blk_, hb_, _, hs0⟩ := load64_ok hl0
  rw [hb] at hb_
  cases hb_
  cases data with
  | none => cases h1
  | some bytes =>
    dsimp only at h1
    by_cases hds : s0 = data_size
    · rw [if_pos hds] at h1
      obtain ⟨n0, hl8, h2⟩ := bind_eq_ok h1
      obtain ⟨blk_, hb_, _, hn0⟩ := load64_ok hl8
      rw [hb] at hb_
      cases hb_
      obtain ⟨r, hres, h3⟩ := bind_eq_ok h2
      obtain ⟨m1, d1⟩ := r
      dsimp only at h3
      obtain ⟨old, _, blk1, hold, _, _, hb1, hsz1, h161, hr0, hr8, _⟩ := resize_ok hc hres
      rw [hb] at hold
      cases hold
      obtain ⟨n1, hl18, h4⟩ := bind_eq_ok h3
      obtain ⟨blk1_, hb1_, _, hn1⟩ := load64_ok hl18
      rw [hb1] at hb1_
      cases hb1_
      obtain ⟨s1, hl10, h5⟩ := bind_eq_ok h4
      obtain ⟨blk1_, hb1_, _, hs1⟩ := load64_ok hl10
      rw [hb1] at hb1_
      cases hb1_
      rw [← hs0] at hr0 hsz1 hsz
      rw [← hn0] at hsz
      have hs1' : s1 = s0 := by rw [hs1, hr0]
      have hn1' : n1 = (n0 + 1) % U64 := by rw [hn1, hr8, Nat.mod_mod]
      subst hs1'
      have hx : (n1 * s1) % U64 = ((s1 * n0) % U64 + s1) % U64 := by
        rw [hn1', mod_mul_add_one]
      rw [hx] at h5
      rw [mod_mul_add_one] at hsz1
      by_cases hle : s1 ≤ HEADER_SIZE + ((s1 * n0) % U64 + s1) % U64
      · rw [if_pos hle] at h5
        obtain ⟨m2, hw, h6⟩ := bind_eq_ok h5
        have h7 := Except.ok.inj h6
        simp only [Prod.mk.injEq] at h7
        obtain ⟨rfl, rfl⟩ := h7
        have hlo := insert_offset_arith ((s1 * n0) % U64) s1 (by rw [← hsz]; exact h16) hle
        obtain ⟨blk2, hb2, hs2, hj2⟩ :=
          (write_bytes_storesTo _ _ _ _ _ _ HEADER_SIZE hw hlo).2 blk1 hb1
        have hr0' : read_le blk2.bytes 0 8 = s1 := by
          rw [← hr0]
          exact read_le_congr _ _ 8 0 (fun j _ hj => hj2 j (by simp only [HEADER_SIZE]; omega))
        have hr8' : read_le blk2.bytes 8 8 = n1 := by
          rw [hn1]
          exact read_le_congr _ _ 8 8 (fun j _ hj => hj2 j (by simp only [HEADER_SIZE]; omega))
        refine ⟨⟨blk2, hb2, by rw [hs2]; exact h161, ?_⟩, blk2, hb2, ?_⟩
        · rw [hs2, hsz1, hr0', hr8', Nat.mul_comm s1 n1, hx]
        · rw [hs2, hsz1, hsz, ← hs0]
          exact insert_size_arith _ _
      · rw [if_neg hle] at h5
        cases h5
    · rw [if_neg hds] at h1
      cases h1

theorem copy_exact_size {m m' : Mem} {d d' : Nat} {alloc : allocator_allocate}
    (hc : AllocateContract alloc) (hinv : ExactSize m d)
    (h : _dynamic_array_copy m d (some alloc) = .ok (m', d')) :
    ExactSize m' d' ∧ ExactSize m' d := by
  obtain ⟨blk, hb, h16, hsz⟩ := hinv
  unfold _dynamic_array_copy at h
  obtain ⟨n0, hl8, h1⟩ := bind_eq_ok h
  obtain ⟨blk_, hb_, _, hn0⟩ := load64_ok hl8
  rw [hb] at hb_
  cases hb_
  obtain ⟨s0, hl0, h2⟩ := bind_eq_ok h1
  obtain ⟨blk_, hb_, _, hs0⟩ := load64_ok hl0
  rw [hb] at hb_
  cases hb_
  dsimp only at h2
  have htot : ((n0 * s0) % U64 + HEADER_SIZE) % U64 = blk.size := by
    rw [hsz, hn0, hs0, Nat.mul_comm, Nat.add_comm]
  rw [htot] at h2
  cases hcall : alloc m blk.size with
  | none => rw [hcall] at h2; cases h2
  | some r =>
    obtain ⟨m1, nb⟩ := r
    rw [hcall] at h2
    dsimp only at h2
    obtain ⟨m2, hcp, h3⟩ := bind_eq_ok h2
    have h4 := Except.ok.inj h3
    simp only [Prod.mk.injEq] at h4
    obtain ⟨rfl, rfl⟩ := h4
    obtain ⟨hfresh, ⟨blk0, hb0, hsz0⟩, hframe⟩ := hc m _ m1 nb hcall
    have hne : nb ≠ d := by
      intro hnd
      rw [hnd, hb] at hfresh
      cases hfresh
    have hd1 : m1 d = some blk := by rw [hframe d (Ne.symm hne)]; exact hb
    rw [copy_bytes_other_eq blk.size m1 nb 0 d 0 blk0 blk hne hb0 hd1 (by omega) (by omega)]
      at hcp
    have hm2 := (Except.ok.inj hcp).symm
    subst hm2
    have hf : ∀ j, j < blk.size →
        (if 0 ≤ j ∧ j < 0 + blk.size then blk.bytes (0 + (j - 0)) else blk0.bytes j)
          = blk.bytes j := by
      intro j hj
      rw [if_pos (by omega)]
      exact congrArg blk.bytes (by omega)
    refine ⟨⟨⟨blk0.size, _⟩, set_block_same _ _ _ _, by rw [hsz0]; exact h16, ?_⟩,
      ⟨blk, by rw [set_block_other _ _ _ _ _ (Ne.symm hne)]; exact hd1, h16, hsz⟩⟩
    have hr0 : read_le (fun j => if 0 ≤ j ∧ j < 0 + blk.size then blk.bytes (0 + (j - 0))
        else blk0.bytes j) 0 8 = read_le blk.bytes 0 8 :=
      read_le_congr _ _ 8 0 (fun j _ hj => hf j (by simp only [HEADER_SIZE] at h16; omega))
    have hr8 : read_le (fun j => if 0 ≤ j ∧ j < 0 + blk.size then blk.bytes (0 + (j - 0))
        else blk0.bytes j) 8 8 = read_le blk.bytes 8 8 :=
      read_le_congr _ _ 8 8 (fun j _ hj => hf j (by simp only [HEADER_SIZE] at h16; omega))
    show blk0.size = _
    rw [hr0, hr8, hsz0]
    exact hsz

/-- Every reachable handle satisfies the exact-size invariant. -/
theorem reachable_exact_size {m : Mem} {d : Nat} (h : Reachable m d) : ExactSize m d := by
  induction h with
  | create m s n alloc m' d hs hn hc h => exact create_exact_size hs hn hc h
  | resize m d k realloc m' d' _ hk hc h _ => exact resize_exact_size hk hc h
  | insert m d data data_size realloc m' d' _ hc h ih =>
    obtain ⟨blk, hb, h16, hsz⟩ := ih
    exact (insert_exact_size hc hb h16 hsz h).1
  | remove m d i realloc m' d' _ hc h _ => exact remove_exact_size hc h
  | copy m d alloc m' d' _ hc h ih => exact (copy_exact_size hc ih h).1
  | copy_source m d alloc m' d' _ hc h ih => exact (copy_exact_size hc ih h).2

theorem destroy_exact_size {m : Mem} {d : Nat} {blk : Block} (hb : m d = some blk)
    (h16 : HEADER_SIZE ≤ blk.size)
    (hsz : blk.size
      = (HEADER_SIZE + (read_le blk.bytes 0 8 * read_le blk.bytes 8 8) % U64) % U64)
    (deallocate : allocator_deallocate) :
    _dynamic_array_destroy m d (some deallocate) = .ok (deallocate m d blk.size) := by
  simp only [_dynamic_array_destroy,
    load64_eq m d 0 blk hb (by simp only [HEADER_SIZE] at h16; omega),
    load64_eq m d 8 blk hb (by simp only [HEADER_SIZE] at h16; omega), Except.bind]
  rw [Nat.add_comm _ HEADER_SIZE, ← hsz]

/-! ## Which calls can end in a failed assertion -/

theorem bind_ne_assertion {α β : Type} {x : Except Fault α} {f : α → Except Fault β}
    (hx : x ≠ .error .assertion) (hf : ∀ a, f a ≠ .error .assertion) :
    x.bind f ≠ .error .assertion := by
  cases x with
  | error e =>
    intro h
    have he : e = .assertion := Except.error.inj h
    exact hx (by rw [he])
  | ok a => exact hf a

theorem load_ne_assertion (m : Mem) (b off : Nat) : load m b off ≠ .error .assertion := by
  unfold load
  cases m b with
  | none => exact fun h => by cases h
  | some blk =>
    dsimp only
    by_cases h : off < blk.size
    · rw [if_pos h]; exact fun h => by cases h
    · rw [if_neg h]; exact fun h => by cases h

theorem load64_ne_assertion (m : Mem) (b off : Nat) :
    load64 m b off ≠ .error .assertion := by
  unfold load64
  cases m b with
  | none => exact fun h => by cases h
  | some blk =>
    dsimp only
    by_cases h : off + 8 ≤ blk.size
    · rw [if_pos h]; exact fun h => by cases h
    · rw [if_neg h]; exact fun h => by cases h

theorem zero_fill_down_ne_assertion (k : Nat) :
    ∀ (m : Mem) (b i : Nat), zero_fill_down m b i k ≠ .error .assertion := by
  induction k with
  | zero => intro m b i h; cases h
  | succ k ih =>
    intro m b i
    rw [zero_fill_down_succ]
    exact bind_ne_assertion (store_ne_assertion m b _ 0) (fun m1 => ih m1 b (i - 1))

theorem copy_bytes_ne_assertion (k : Nat) :
    ∀ (m : Mem) (dst doff src soff : Nat),
      copy_bytes m dst doff src soff k ≠ .error .assertion := by
  induction k with
  | zero => intro m dst doff src soff h; cases h
  | succ k ih =>
    intro m dst doff src soff
    show ((load m src soff).bind fun v => (store m dst doff v).bind fun m1 =>
      copy_bytes m1 dst (doff + 1) src (soff + 1) k) ≠ _
    exact bind_ne_assertion (load_ne_assertion m src soff) (fun v =>
      bind_ne_assertion (store_ne_assertion m dst doff v) (fun m1 => ih m1 dst _ src _))

theorem write_bytes_ne_assertion (data : List Nat) :
    ∀ (m : Mem) (b off i : Nat), write_bytes m b off i data ≠ .error .assertion := by
  induction data with
  | nil =>
    intro m b off i
    show ((load64 m b 0).bind fun item_size =>
      if i < item_size then .error .invalid_access else .ok m) ≠ _
    refine bind_ne_assertion (load64_ne_assertion m b 0) (fun s => ?_)
    by_cases h : i < s
    · rw [if_pos h]; exact fun h => by cases h
    · rw [if_neg h]; exact fun h => by cases h
  | cons v rest ih =>
    intro m b off i
    show ((load64 m b 0).bind fun item_size =>
      if i < item_size then
        (store m b (off + i) v).bind fun m1 => write_bytes m1 b off (i + 1) rest
      else .ok m) ≠ _
    refine bind_ne_assertion (load64_ne_assertion m b 0) (fun s => ?_)
    by_cases h : i < s
    · rw [if_pos h]
      exact bind_ne_assertion (store_ne_assertion m b _ v) (fun m1 => ih m1 b off (i + 1))
    · rw [if_neg h]; exact fun h => by cases h

theorem resize_ne_assertion (m : Mem) (d k : Nat) (realloc : Option allocator_reallocate) :
    _dynamic_array_resize m d k realloc ≠ .error .assertion := by
  unfold _dynamic_array_resize
  refine bind_ne_assertion (load64_ne_assertion m d 0) (fun s => ?_)
  cases realloc with
  | none => exact fun h => by cases h
  | some realloc =>
    dsimp only
    cases realloc m d ((HEADER_SIZE + (k * s) % U64) % U64) with
    | none => exact fun h => by cases h
    | some r =>
      obtain ⟨m1, header⟩ := r
      dsimp only
      refine bind_ne_assertion (load64_ne_assertion m1 header 8) (fun n => ?_)
      refine bind_ne_assertion ?_ (fun m2 =>
        bind_ne_assertion (store64_ne_assertion m2 header 8 k) (fun m3 h => by cases h))
      by_cases hlt : n < k
      · rw [if_pos hlt]
        exact bind_ne_assertion (load64_ne_assertion m1 header 0)
          (fun s1 => zero_fill_down_ne_assertion _ m1 d _)
      · rw [if_neg hlt]; exact fun h => by cases h

theorem remove_assertion_iff (m : Mem) (d i n : Nat) (realloc : Option allocator_reallocate)
    (hln : load64 m d 8 = .ok n) :
    _dynamic_array_remove m d i realloc = .error .assertion ↔ n ≤ i := by
  unfold _dynamic_array_remove
  rw [hln, bind_ok]
  by_cases h : n > i
  · rw [if_pos h]
    constructor
    · intro hr
      exact absurd hr (bind_ne_assertion (load64_ne_assertion m d 0) (fun s =>
        bind_ne_assertion (copy_bytes_ne_assertion _ m d _ d _)
          (fun m1 => resize_ne_assertion m1 d (n - 1) realloc)))
    · intro hle
      omega
  · rw [if_neg h]
    exact ⟨fun _ => by omega, fun _ => rfl⟩

theorem insert_assertion_iff (m : Mem) (d s : Nat) (data : Option (List Nat)) (data_size : Nat)
    (realloc : Option allocator_reallocate) (hls : load64 m d 0 = .ok s) :
    _dynamic_array_insert m d data data_size realloc = .error .assertion ↔
      (data_size ≠ s ∨ data = none ∨ realloc = none) := by
  unfold _dynamic_array_insert
  rw [hls, bind_ok]
  cases realloc with
  | none => exact ⟨fun _ => Or.inr (Or.inr rfl), fun _ => rfl⟩
  | some realloc =>
    cases data with
    | none => exact ⟨fun _ => Or.inr (Or.inl rfl), fun _ => rfl⟩
    | some data_bytes =>
      dsimp only
      by_cases h : s = data_size
      · rw [if_pos h]
        constructor
        · intro hr
          refine absurd hr (bind_ne_assertion (load64_ne_assertion m d 8) (fun n =>
            bind_ne_assertion (resize_ne_assertion m d _ (some realloc)) (fun r =>
              bind_ne_assertion (load64_ne_assertion r.1 r.2 8) (fun n1 =>
                bind_ne_assertion (load64_ne_assertion r.1 r.2 0) (fun s1 => ?_)))))
          dsimp only
          by_cases hle : s1 ≤ HEADER_SIZE + (n1 * s1) % U64
          · rw [if_pos hle]
            exact bind_ne_assertion (write_bytes_ne_assertion data_bytes r.1 r.2 _ 0)
              (fun m2 h => by cases h)
          · rw [if_neg hle]; exact fun h => by cases h
        · intro hor
          rcases hor with h1 | h1 | h1
          · exact absurd h.symm h1
          · cases h1
          · cases h1
      · rw [if_neg h]
        exact ⟨fun _ => Or.inl (fun h1 => h h1.symm), fun _ => rfl⟩

/-- A `NULL` result of `realloc` is not checked by `_dynamic_array_resize`: the
next statement reads `header->length` through it. -/
theorem resize_realloc_null (m : Mem) (d k s : Nat) (realloc : allocator_reallocate)
    (hls : load64 m d 0 = .ok s)
    (hcall : realloc m d ((HEADER_SIZE + (k * s) % U64) % U64) = none) :
    _dynamic_array_resize m d k (some realloc) = .error .null_pointer := by
  unfold _dynamic_array_resize
  rw [hls, bind_ok]
  dsimp only
  rw [hcall]

/-- A `NULL` result of `alloc` is not checked by `_dynamic_array_copy`: the copy
loop stores through it. -/
theorem copy_alloc_null (m : Mem) (d s n : Nat) (alloc : allocator_allocate)
    (hls : load64 m d 0 = .ok s) (hln : load64 m d 8 = .ok n)
    (hcall : alloc m (((n * s) % U64 + HEADER_SIZE) % U64) = none) :
    _dynamic_array_copy m d (some alloc) = .error .null_pointer := by
  unfold _dynamic_array_copy
  rw [hln, bind_ok, hls, bind_ok]
  dsimp only
  rw [hcall]

/-! ## The `item_size` field after each operation -/

theorem resize_item_size {m m' : Mem} {d k d' : Nat} {blk : Block} {s n : Nat}
    {realloc : allocator_reallocate} (h : Handle m d blk s n)
    (hc : ReallocateContract realloc)
    (hr : _dynamic_array_resize m d k (some realloc) = .ok (m', d')) :
    load64 m' d' 0 = .ok s := by
  obtain ⟨old, m1, blk', hold, _, _, hb', _, h16, hr0, _, _⟩ := resize_ok hc hr
  rw [h.1] at hold
  cases hold
  rw [load64_eq m' d' 0 blk' hb' (by simp only [HEADER_SIZE] at h16; omega), hr0, h.2.2.2.1]

theorem remove_item_size {m m' : Mem} {d i d' : Nat} {blk : Block} {s n : Nat}
    {realloc : allocator_reallocate} (h : Handle m d blk s n)
    (hc : ReallocateContract realloc)
    (hr : _dynamic_array_remove m d i (some realloc) = .ok (m', d')) :
    load64 m' d' 0 = .ok s := by
  unfold _dynamic_array_remove at hr
  rw [h.load_length, bind_ok] at hr
  by_cases hlt : n > i
  · rw [if_pos hlt, h.load_item_size, bind_ok] at hr
    obtain ⟨m1, hcp, h3⟩ := bind_eq_ok hr
    obtain ⟨blk1, hb1, hs1, hj1⟩ :=
      (copy_bytes_storesTo _ _ _ _ _ _ _ HEADER_SIZE hcp (Nat.le_add_right _ _)).2 blk h.1
    obtain ⟨old, _, blk', hold, _, _, hb', _, h16, hr0, _, _⟩ := resize_ok hc h3
    rw [hb1] at hold
    cases hold
    have hr1 : read_le blk1.bytes 0 8 = s := by
      rw [← h.2.2.2.1]
      exact read_le_congr _ _ 8 0 (fun j _ hj => hj1 j (by simp only [HEADER_SIZE]; omega))
    rw [load64_eq m' d' 0 blk' hb' (by simp only [HEADER_SIZE] at h16; omega), hr0, hr1]
  · rw [if_neg hlt] at hr
    cases hr

theorem handle_exact_size_arith (sz p : Nat) (h1 : sz = HEADER_SIZE + p) (h2 : sz < U64) :
    sz = (HEADER_SIZE + p % U64) % U64 := by
  unfold U64 HEADER_SIZE at *
  omega

theorem copy_size_arith (sz p : Nat) (h1 : sz = HEADER_SIZE + p) (h2 : sz < U64) :
    (p % U64 + HEADER_SIZE) % U64 = HEADER_SIZE + p := by
  unfold U64 HEADER_SIZE at *
  omega

/-- The header of the handle a returned `_dynamic_array_insert` leaves. -/
theorem insert_header {m m' : Mem} {d d' : Nat} {data : Option (List Nat)}
    {data_size : Nat} {realloc : allocator_reallocate} {blk : Block}
    (hc : ReallocateContract realloc) (hb : m d = some blk) (h16 : HEADER_SIZE ≤ blk.size)
    (hsz : blk.size
      = (HEADER_SIZE + (read_le blk.bytes 0 8 * read_le blk.bytes 8 8) % U64) % U64)
    (h : _dynamic_array_insert m d data data_size (some realloc) = .ok (m', d')) :
    ∃ blk', m' d' = some blk' ∧ HEADER_SIZE ≤ blk'.size ∧
      read_le blk'.bytes 0 8 = read_le blk.bytes 0 8 ∧
      read_le blk'.bytes 8 8 = (read_le blk.bytes 8 8 + 1) % U64 := by
  unfold _dynamic_array_insert at h
  obtain ⟨s0, hl0, h1⟩ := bind_eq_ok h
  obtain ⟨blk_, hb_, _, hs0⟩ := load64_ok hl0
  rw [hb] at hb_
  cases hb_
  cases data with
  | none => cases h1
  | some bytes =>
    dsimp only at h1
    by_cases hds : s0 = data_size
    · rw [if_pos hds] at h1
      obtain ⟨n0, hl8, h2⟩ := bind_eq_ok h1
      obtain ⟨blk_, hb_, _, hn0⟩ := load64_ok hl8
      rw [hb] at hb_
      cases hb_
      obtain ⟨r, hres, h3⟩ := bind_eq_ok h2
      obtain ⟨m1, d1⟩ := r
      dsimp only at h3
      obtain ⟨old, _, blk1, hold, _, _, hb1, hsz1, h161, hr0, hr8, _⟩ := resize_ok hc hres
      rw [hb] at hold
      cases hold
      obtain ⟨n1, hl18, h4⟩ := bind_eq_ok h3
      obtain ⟨blk1_, hb1_, _, hn1⟩ := load64_ok hl18
      rw [hb1] at hb1_
      cases hb1_
      obtain ⟨s1, hl10, h5⟩ := bind_eq_ok h4
      obtain ⟨blk1_, hb1_, _, hs1⟩ := load64_ok hl10
      rw [hb1] at hb1_
      cases hb1_
      rw [← hs0] at hr0 hsz1 hsz
      rw [← hn0] at hsz
      have hs1' : s1 = s0 := by rw [hs1, hr0]
      have hn1' : n1 = (n0 + 1) % U64 := by rw [hn1, hr8, Nat.mod_mod]
      subst hs1'
      have hx : (n1 * s1) % U64 = ((s1 * n0) % U64 + s1) % U64 := by
        rw [hn1', mod_mul_add_one]
      rw [hx] at h5
      by_cases hle : s1 ≤ HEADER_SIZE + ((s1 * n0) % U64 + s1) % U64
      · rw [if_pos hle] at h5
        obtain ⟨m2, hw, h6⟩ := bind_eq_ok h5
        have h7 := Except.ok.inj h6
        simp only [Prod.mk.injEq] at h7
        obtain ⟨rfl, rfl⟩ := h7
        have hlo := insert_offset_arith ((s1 * n0) % U64) s1 (by rw [← hsz]; exact h16) hle
        obtain ⟨blk2, hb2, hs2, hj2⟩ :=
          (write_bytes_storesTo _ _ _ _ _ _ HEADER_SIZE hw hlo).2 blk1 hb1
        refine ⟨blk2, hb2, by rw [hs2]; exact h161, ?_, ?_⟩
        · rw [← hs0]
          exact (read_le_congr _ _ 8 0
            (fun j _ hj => hj2 j (by simp only [HEADER_SIZE]; omega))).trans hr0
        · rw [← hn0, ← hn1']
          exact (read_le_congr _ _ 8 8
            (fun j _ hj => hj2 j (by simp only [HEADER_SIZE]; omega))).trans hn1.symm
      · rw [if_neg hle] at h5
        cases h5
    · rw [if_neg hds] at h1
      cases h1

theorem insert_item_size {m m' : Mem} {d d' : Nat} {blk : Block} {s n : Nat}
    {data : Option (List Nat)} {data_size : Nat} {realloc : allocator_reallocate}
    (h : Handle m d blk s n) (hc : ReallocateContract realloc)
    (hr : _dynamic_array_insert m d data data_size (some realloc) = .ok (m', d')) :
    load64 m' d' 0 = .ok s := by
  obtain ⟨hm, hsz, hlt, hrs, hrn⟩ := h
  obtain ⟨blk', hb', h16, hr0, _⟩ := insert_header hc hm (by rw [hsz]; omega)
    (by rw [hrs, hrn]; exact handle_exact_size_arith _ _ hsz hlt) hr
  rw [load64_eq m' d' 0 blk' hb' (by simp only [HEADER_SIZE] at h16; omega), hr0, hrs]

theorem copy_item_size {m m' : Mem} {d d' : Nat} {blk : Block} {s n : Nat}
    {alloc : allocator_allocate} (h : Handle m d blk s n) (hc : AllocateContract alloc)
    (hr : _dynamic_array_copy m d (some alloc) = .ok (m', d')) :
    load64 m' d' 0 = .ok s ∧ load64 m' d 0 = .ok s ∧ load64 m' d' 8 = .ok n := by
  have htot : ((n * s) % U64 + HEADER_SIZE) % U64 = HEADER_SIZE + s * n := by
    rw [Nat.mul_comm n s]
    exact copy_size_arith blk.size (s * n) h.2.1 h.2.2.1
  have hr' := hr
  unfold _dynamic_array_copy at hr'
  rw [h.load_length, bind_ok, h.load_item_size, bind_ok] at hr'
  dsimp only at hr'
  rw [htot] at hr'
  cases hcall : alloc m (HEADER_SIZE + s * n) with
  | none => rw [hcall] at hr'; cases hr'
  | some r =>
    obtain ⟨m1, b⟩ := r
    obtain ⟨m'', blk', h1, h2, _, h4, _, _⟩ := copy_aux m d blk s n alloc m1 b h hc hcall
    rw [h1] at hr
    have h5 := Except.ok.inj hr
    simp only [Prod.mk.injEq] at h5
    obtain ⟨rfl, rfl⟩ := h5
    refine ⟨h2.load_item_size, ?_, h2.load_length⟩
    have hsz := h.2.1
    rw [load64_eq _ d 0 blk h4 (by rw [hsz]; simp only [HEADER_SIZE]; omega), h.2.2.2.1]

theorem create_item_size {m m' : Mem} {s n d : Nat} {alloc : allocator_allocate}
    (hs64 : s < U64) (hc : AllocateContract alloc)
    (h : _dynamic_array_create m s n (some alloc) = .ok (m', d)) :
    load64 m' d 0 = .ok s := by
  have hs : s ≠ 0 := by
    intro hs
    simp only [_dynamic_array_create, hs, if_true] at h
    cases h
  cases hcall : alloc m ((HEADER_SIZE + (s * n) % U64) % U64) with
  | none =>
    simp only [_dynamic_array_create, if_neg hs, hcall] at h
    cases h
  | some r =>
    obtain ⟨m1, b⟩ := r
    obtain ⟨_, ⟨blk0, hb0, hsz0⟩, _⟩ := hc m _ m1 b hcall
    have h16 : HEADER_SIZE ≤ blk0.size := by
      simp only [_dynamic_array_create, if_neg hs, hcall] at h
      obtain ⟨m2, hz, h2⟩ := bind_eq_ok h
      obtain ⟨m3, hst0, h3⟩ := bind_eq_ok h2
      obtain ⟨m4, hst8, _⟩ := bind_eq_ok h3
      obtain ⟨blk2, hb2, hs2, _⟩ :=
        (zero_fill_up_storesTo _ _ _ _ _ 0 hz (Nat.zero_le _)).2 blk0 hb0
      obtain ⟨blk3, hb3, hs3, _⟩ := (store64_storesTo hst0 (Nat.zero_le 0)).2 blk2 hb2
      obtain ⟨blk3', hb3', hle, _⟩ := store64_ok hst8
      rw [hb3] at hb3'
      cases hb3'
      simp only [HEADER_SIZE]
      omega
    rw [create_eq m s n alloc m1 b blk0 hs hcall hb0 hsz0 h16] at h
    have h5 := Except.ok.inj h
    simp only [Prod.mk.injEq] at h5
    obtain ⟨rfl, rfl⟩ := h5
    rw [load64_eq _ b 0 ⟨blk0.size, _⟩ (set_block_same _ _ _ _)
      (by simp only [HEADER_SIZE] at h16; show 0 + 8 ≤ blk0.size; omega)]
    apply congrArg Except.ok
    show read_le (write_le (write_le _ 0 s 8) 8 n 8) 0 8 = s
    rw [read_le_congr _ (write_le _ 0 s 8) 8 0
      (fun j _ hj => write_le_apply_of_lt 8 _ _ _ _ (by omega)),
      read_le_write_le, pow_256_8, Nat.mod_eq_of_lt hs64]

/-! ## The iteration macro -/

theorem iterate_from_succ (darray : Nat) (Index : String)
    (body : Nat → Mem → Except Fault Mem) (m : Mem) (vars : String → Nat) (fuel : Nat) :
    iterate_from darray Index body m vars (fuel + 1)
      = (_dynamic_array_length m darray).bind fun length =>
        if vars Index < length then
          (body (vars Index) m).bind fun m1 =>
          (iterate_from darray Index body m1
            (Function.update vars "i" ((vars "i" + 1) % U64)) fuel).bind fun r =>
          .ok (r.1, vars Index :: r.2.1, r.2.2)
        else .ok (m, [], true) := rfl

/-- With an index variable not named `i` the loop variable is never
incremented: on a non-empty array the body is run with the same index on every
iteration and the loop does not end, whatever the fuel. -/
theorem iterate_from_stuck (darray : Nat) (Index : String)
    (body : Nat → Mem → Except Fault Mem) (n j : Nat) (hne : Index ≠ "i") (hj : j < n)
    (hbody : ∀ m, load64 m darray 8 = .ok n →
      ∃ m1, body j m = .ok m1 ∧ load64 m1 darray 8 = .ok n) (fuel : Nat) :
    ∀ (m : Mem) (vars : String → Nat), load64 m darray 8 = .ok n → vars Index = j →
      ∃ m', iterate_from darray Index body m vars fuel
        = .ok (m', List.replicate fuel j, false) := by
  induction fuel with
  | zero =>
    intro m vars _ _
    exact ⟨m, rfl⟩
  | succ fuel ih =>
    intro m vars hln hv
    obtain ⟨m1, hb, hln1⟩ := hbody m hln
    obtain ⟨m', hrec⟩ := ih m1 (Function.update vars "i" ((vars "i" + 1) % U64)) hln1
      (by rw [Function.update_noteq hne]; exact hv)
    refine ⟨m', ?_⟩
    rw [iterate_from_succ]
    unfold _dynamic_array_length
    rw [hln, bind_ok, hv, if_pos hj, hb, bind_ok, hrec, bind_ok]
    rfl

/-- With the index variable named `i` the loop runs its body once for each index
below the length, in increasing order, and ends. -/
theorem iterate_from_i (darray : Nat) (body : Nat → Mem → Except Fault Mem) (n : Nat)
    (hn : n < U64)
    (hbody : ∀ j m, j < n → load64 m darray 8 = .ok n →
      ∃ m1, body j m = .ok m1 ∧ load64 m1 darray 8 = .ok n) (k : Nat) :
    ∀ (j : Nat) (m : Mem) (vars : String → Nat) (fuel : Nat), j + k = n → vars "i" = j →
      k < fuel → load64 m darray 8 = .ok n →
      ∃ m', iterate_from darray "i" body m vars fuel = .ok (m', List.range' j k, true) := by
  induction k with
  | zero =>
    intro j m vars fuel hjk hv hfuel hln
    obtain ⟨f, rfl⟩ : ∃ f, fuel = f + 1 := ⟨fuel - 1, by omega⟩
    refine ⟨m, ?_⟩
    rw [iterate_from_succ]
    unfold _dynamic_array_length
    rw [hln, bind_ok, hv, if_neg (by omega)]
    rfl
  | succ k ih =>
    intro j m vars fuel hjk hv hfuel hln
    obtain ⟨f, rfl⟩ : ∃ f, fuel = f + 1 := ⟨fuel - 1, by omega⟩
    obtain ⟨m1, hb, hln1⟩ := hbody j m (by omega) hln
    have hstep : (j + 1) % U64 = j + 1 := Nat.mod_eq_of_lt (by omega)
    obtain ⟨m', hrec⟩ := ih (j + 1) m1 (Function.update vars "i" ((j + 1) % U64)) f
      (by omega) (by rw [Function.update_same]; exact hstep) (by omega) hln1
    refine ⟨m', ?_⟩
    rw [iterate_from_succ]
    unfold _dynamic_array_length
    rw [hln, bind_ok, hv, if_pos (by omega), hb, bind_ok, hrec, bind_ok]
    rfl

/-- The macro used with the name `i`, as in the file's test: on a handle of
length `n` the body runs for the indices `0, 1, ..., n - 1`, in this order, and
the loop ends. -/
theorem darray_iterate_i (m : Mem) (darray : Nat) (blk : Block) (s n : Nat)
    (body : Nat → Mem → Except Fault Mem) (vars : String → Nat) (fuel : Nat)
    (h : Handle m darray blk s n) (hfuel : n < fuel)
    (hbody : ∀ j m, j < n → load64 m darray 8 = .ok n →
      ∃ m1, body j m = .ok m1 ∧ load64 m1 darray 8 = .ok n) :
    ∃ m', darray_iterate darray "i" body m vars fuel = .ok (m', List.range n, true) := by
  obtain ⟨m', hrec⟩ := iterate_from_i darray body n h.length_lt hbody n 0 m
    (Function.update vars "i" 0) fuel (by omega) (Function.update_same _ _ _) hfuel
    h.load_length
  refine ⟨m', ?_⟩
  unfold darray_iterate
  rw [hrec, List.range_eq_range']

theorem skip_body_keeps (darray n j : Nat) (m : Mem) (h : load64 m darray 8 = .ok n) :
    ∃ m1, skip_body j m = .ok m1 ∧ load64 m1 darray 8 = .ok n :=
  ⟨m, rfl, h⟩

/-! ## Insert followed by remove of the last element -/

/-- When the reallocator of the insert returns the block in place, or the array
is empty, inserting a value and removing the last element returns a handle
with the same `item_size`, the same `length` and the same elements. -/
theorem insert_remove_aux (m : Mem) (d : Nat) (blk : Block) (s n : Nat) (v : List Nat)
    (realloc realloc2 : allocator_reallocate) (m1 : Mem) (d1 : Nat) (h : Handle m d blk s n)
    (hs : 0 < s) (hv : v.length = s) (hfit : HEADER_SIZE + s * (n + 1) < U64)
    (hc : ReallocateContract realloc)
    (hcall : realloc m d (HEADER_SIZE + s * (n + 1)) = some (m1, d1))
    (hplace : n = 0 ∨ d1 = d)
    (hc2 : ReallocateContract realloc2) (hsucc2 : ReallocateSucceeds realloc2) :
    ∃ m' d' blk',
      ((_dynamic_array_insert m d (some v) s (some realloc)).bind fun r =>
        _dynamic_array_remove r.1 r.2 n (some realloc2)) = .ok (m', d') ∧
      Handle m' d' blk' s n ∧
      ∀ j, j < n → element blk' s j = element blk s j := by
  obtain ⟨mi, blki, h1, h2, h3, _⟩ := insert_aux m d blk s n v realloc m1 d1 h hs hv hfit hc
    hcall hplace
  obtain ⟨m', d', blk', h4, h5, h6, _⟩ := remove_aux mi d1 blki s (n + 1) n realloc2 h2
    (by omega) hc2 hsucc2
  refine ⟨m', d', blk', ?_, h5, ?_⟩
  · rw [h1, bind_ok]
    exact h4
  · intro j hj
    rw [h6 j hj, h3 j hj]

/-! ## The loops as sequences of stores -/

theorem store_all_cons (m : Mem) (b : Nat) (p : Nat × Nat) (rest : List (Nat × Nat)) :
    store_all m b (p :: rest) = (store m b p.1 p.2).bind fun m1 => store_all m1 b rest := rfl

/-- Stores at offsets inside a live block do not fault and leave the block live,
with its size. -/
theorem store_all_ok (l : List (Nat × Nat)) :
    ∀ (m : Mem) (b : Nat) (blk : Block), m b = some blk → (∀ p ∈ l, p.1 < blk.size) →
      ∃ m' blk', store_all m b l = .ok m' ∧ m' b = some blk' ∧ blk'.size = blk.size := by
  induction l with
  | nil =>
    intro m b blk h _
    exact ⟨m, blk, rfl, h, rfl⟩
  | cons p rest ih =>
    intro m b blk h hl
    rw [store_all_cons, store_eq m b p.1 p.2 blk h (hl p (List.mem_cons_self _ _)), bind_ok]
    exact ih _ b ⟨blk.size, Function.update blk.bytes p.1 p.2⟩ (Function.update_same _ _ _)
      (fun q hq => hl q (List.mem_cons_of_mem _ hq))

/-- The zero-fill loop of `_dynamic_array_create` as its stores: offsets
`i, i + 1, ..., i + k - 1`, in this order. -/
theorem zero_fill_up_store_all (k : Nat) :
    ∀ (m : Mem) (b i : Nat),
      zero_fill_up m b i k = store_all m b ((List.range k).map fun j => (i + j, 0)) := by
  induction k with
  | zero => intro m b i; rfl
  | succ k ih =>
    intro m b i
    rw [List.range_succ_eq_map, List.map_cons, List.map_map, store_all_cons]
    have hl : (List.range k).map ((fun j => (i + j, 0)) ∘ Nat.succ)
        = (List.range k).map (fun j => (i + 1 + j, 0)) :=
      List.map_congr_left (fun j _ => by
        show (i + (j + 1), 0) = (i + 1 + j, 0)
        rw [Nat.add_assoc, Nat.add_comm 1 j])
    rw [hl]
    show (store m b i 0).bind (fun m1 => zero_fill_up m1 b (i + 1) k) = _
    exact congrArg (fun f => (store m b i 0).bind f) (funext fun m1 => ih m1 b (i + 1))

/-- The shift loop of `_dynamic_array_remove` as its stores: offsets
`doff, doff + 1, ..., doff + k - 1`, in this order, with the bytes the block
held at `soff, soff + 1, ...` before the loop. -/
theorem copy_bytes_store_all (k : Nat) :
    ∀ (m : Mem) (b doff soff : Nat) (blk : Block), m b = some blk → doff ≤ soff →
      soff + k ≤ blk.size →
      copy_bytes m b doff b soff k
        = store_all m b ((List.range k).map fun j => (doff + j, blk.bytes (soff + j))) := by
  induction k with
  | zero => intro m b doff soff blk _ _ _; rfl
  | succ k ih =>
    intro m b doff soff blk h hds hk
    rw [List.range_succ_eq_map, List.map_cons, List.map_map, store_all_cons]
    show ((load m b soff).bind fun v => (store m b doff v).bind fun m1 =>
      copy_bytes m1 b (doff + 1) b (soff + 1) k) = _
    rw [load_eq m b soff blk h (by omega), bind_ok, store_eq m b doff _ blk h (by omega),
      bind_ok]
    show _ = (store m b doff (blk.bytes soff)).bind _
    rw [store_eq m b doff _ blk h (by omega), bind_ok]
    rw [ih _ b (doff + 1) (soff + 1) ⟨blk.size, Function.update blk.bytes doff (blk.bytes soff)⟩
      (Function.update_same _ _ _) (by omega) (by show soff + 1 + k ≤ blk.size; omega)]
    apply congrArg (store_all _ b)
    refine List.map_congr_left (fun j _ => ?_)
    show (doff + 1 + j, Function.update blk.bytes doff (blk.bytes soff) (soff + 1 + j))
      = (doff + (j + 1), blk.bytes (soff + (j + 1)))
    rw [Function.update_noteq (show soff + 1 + j ≠ doff by omega),
      show doff + 1 + j = doff + (j + 1) by omega, show soff + 1 + j = soff + (j + 1) by omega]

/-- The value loop of `_dynamic_array_insert` as its stores: offsets
`off + i, off + i + 1, ...`, in this order, with the bytes of the value. -/
theorem write_bytes_store_all (data : List Nat) :
    ∀ (m : Mem) (b off i s : Nat) (blk : Block), m b = some blk →
      read_le blk.bytes 0 8 = s → 8 ≤ off → i + data.length = s → off + s ≤ blk.size →
      write_bytes m b off i data
        = store_all m b ((List.range data.length).map fun j => (off + i + j, data.getD j 0)) := by
  induction data with
  | nil =>
    intro m b off i s blk h hs hoff hlen hsz
    simp only [List.length_nil, Nat.add_zero] at hlen
    simp only [write_bytes]
    rw [load64_eq m b 0 blk h (by omega), hs, bind_ok, if_neg (by omega)]
    rfl
  | cons v rest ih =>
    intro m b off i s blk h hs hoff hlen hsz
    simp only [List.length_cons] at hlen
    simp only [write_bytes, List.length_cons]
    rw [load64_eq m b 0 blk h (by omega), hs, bind_ok, if_pos (by omega),
      store_eq m b _ _ blk h (by omega), bind_ok]
    have hs1 : read_le (Function.update blk.bytes (off + i) v) 0 8 = s := by
      rw [← hs]
      exact read_le_congr _ _ 8 0 (fun j _ hj => Function.update_noteq (by omega) _ _)
    rw [ih _ b off (i + 1) s ⟨blk.size, Function.update blk.bytes (off + i) v⟩
      (Function.update_same _ _ _) hs1 hoff (by omega) hsz]
    rw [List.range_succ_eq_map, List.map_cons, List.map_map, store_all_cons]
    show _ = (store m b (off + i + 0) v).bind _
    rw [Nat.add_zero, store_eq m b _ _ blk h (by omega), bind_ok]
    apply congrArg (store_all _ b)
    refine List.map_congr_left (fun j _ => ?_)
    show (off + (i + 1) + j, rest.getD j 0) = (off + i + (j + 1), (v :: rest).getD (j + 1) 0)
    rw [List.getD_cons_succ, show off + (i + 1) + j = off + i + (j + 1) by omega]

/-! ## The stores of create, remove and insert -/

theorem create_stores (m : Mem) (s n : Nat) (alloc : allocator_allocate) (m1 : Mem) (b : Nat)
    (hs : 0 < s) (hfit : HEADER_SIZE + s * n < U64)
    (hcall : alloc m (HEADER_SIZE + s * n) = some (m1, b)) :
    _dynamic_array_create m s n (some alloc)
      = (store_all m1 b ((List.range (s * n)).map fun k => (HEADER_SIZE + k, 0))).bind fun m2 =>
        (store64 m2 b 0 s).bind fun m3 =>
        (store64 m3 b 8 n).bind fun m4 => .ok (m4, b) := by
  have htot : (HEADER_SIZE + (s * n) % U64) % U64 = HEADER_SIZE + s * n := by
    rw [Nat.mod_eq_of_lt (show s * n < U64 by omega), Nat.mod_eq_of_lt hfit]
  have hs0 : s ≠ 0 := by omega
  unfold _dynamic_array_create
  dsimp only
  rw [if_neg hs0, htot, hcall]
  dsimp only
  rw [Nat.add_sub_cancel_left, zero_fill_up_store_all]

theorem remove_shift_arith (s n i : Nat) (hi : i < n) (hfit : HEADER_SIZE + s * n < U64) :
    (s * i) % U64 = s * i ∧ ((n - i - 1) * s) % U64 = s * (n - i - 1) ∧
      s * i + s + s * (n - i - 1) = s * n := by
  obtain ⟨t, rfl⟩ : ∃ t, n = i + 1 + t := ⟨n - i - 1, by omega⟩
  have e1 : s * (i + 1 + t) = s * i + s + s * t := by ring
  have e2 : i + 1 + t - i - 1 = t := by omega
  rw [e2, Nat.mul_comm t s]
  exact ⟨Nat.mod_eq_of_lt (by omega), Nat.mod_eq_of_lt (by omega), e1.symm⟩

theorem remove_stores (m : Mem) (d : Nat) (blk : Block) (s n i : Nat)
    (realloc : Option allocator_reallocate) (h : Handle m d blk s n) (hi : i < n) :
    _dynamic_array_remove m d i realloc
      = (store_all m d ((List.range (s * (n - i - 1))).map fun k =>
          (HEADER_SIZE + s * i + k, blk.bytes (HEADER_SIZE + s * i + s + k)))).bind fun m1 =>
        _dynamic_array_resize m1 d (n - 1) realloc := by
  obtain ⟨e1, e2, e3⟩ := remove_shift_arith s n i hi (by rw [← h.2.1]; exact h.2.2.1)
  have hsz := h.2.1
  unfold _dynamic_array_remove
  rw [h.load_length, bind_ok, if_pos hi, h.load_item_size, bind_ok]
  dsimp only
  rw [e1, e2, copy_bytes_store_all (s * (n - i - 1)) m d (HEADER_SIZE + s * i)
    (HEADER_SIZE + s * i + s) blk h.1 (by omega) (by omega)]

theorem insert_write_arith (s n : Nat) (hfit : HEADER_SIZE + s * (n + 1) < U64) :
    ((n + 1) * s) % U64 = s * n + s := by
  have e : (n + 1) * s = s * n + s := by ring
  have e2 : s * (n + 1) = s * n + s := by ring
  rw [e]
  exact Nat.mod_eq_of_lt (by omega)

theorem insert_stores (m : Mem) (d : Nat) (blk : Block) (s n : Nat) (v : List Nat)
    (realloc : allocator_reallocate) (m1 : Mem) (d1 : Nat) (blk1 : Block)
    (h : Handle m d blk s n) (hv : v.length = s)
    (hres : _dynamic_array_resize m d (n + 1) (some realloc) = .ok (m1, d1))
    (h1 : Handle m1 d1 blk1 s (n + 1)) :
    _dynamic_array_insert m d (some v) s (some realloc)
      = (store_all m1 d1 ((List.range s).map fun k =>
          (HEADER_SIZE + s * n + k, v.getD k 0))).bind fun m2 => .ok (m2, d1) := by
  have hn1 : (n + 1) % U64 = n + 1 := Nat.mod_eq_of_lt h1.length_lt
  have hsz1 := h1.2.1
  have hlt1 := h1.2.2.1
  have e2 : s * (n + 1) = s * n + s := by ring
  have hx := insert_write_arith s n (by rw [← hsz1]; exact hlt1)
  rw [insert_eq m d v realloc s n m1 d1 (n + 1) h.load_item_size h.load_length
    (by rw [hn1]; exact hres) h1.load_item_size h1.load_length, hx, if_pos (by omega),
    show HEADER_SIZE + (s * n + s) - s = HEADER_SIZE + s * n by omega,
    write_bytes_store_all v m1 d1 (HEADER_SIZE + s * n) 0 s blk1 h1.1 h1.2.2.2.1
      (by simp only [HEADER_SIZE]; omega) (by omega) (by omega), hv]
  rfl

theorem resize_size_arith (s k : Nat) (hfit : HEADER_SIZE + s * k < U64) :
    (HEADER_SIZE + (k * s) % U64) % U64 = HEADER_SIZE + s * k := by
  rw [Nat.mul_comm k s, Nat.mod_eq_of_lt (show s * k < U64 by omega), Nat.mod_eq_of_lt hfit]

/-- A returned resize to a length that fits leaves a valid handle of that length. -/
theorem resize_ok_handle {m m1 : Mem} {d k d1 : Nat} {blk : Block} {s n : Nat}
    {realloc : allocator_reallocate} (h : Handle m d blk s n) (hk : k < U64)
    (hfit : HEADER_SIZE + s * k < U64) (hc : ReallocateContract realloc)
    (hr : _dynamic_array_resize m d k (some realloc) = .ok (m1, d1)) :
    ∃ blk1, Handle m1 d1 blk1 s k := by
  obtain ⟨old, _, blk1, hold, _, _, hb1, hsz1, _, hr0, hr8, _⟩ := resize_ok hc hr
  rw [h.1] at hold
  cases hold
  rw [h.2.2.2.1] at hsz1 hr0
  rw [resize_size_arith s k hfit] at hsz1
  exact ⟨blk1, hb1, hsz1, by rw [hsz1]; exact hfit, hr0, by rw [hr8, Nat.mod_eq_of_lt hk]⟩

/-- The call `_dynamic_array_insert` of a value of `s` bytes on a handle of `n` elements of
`s` bytes, when `n + 1` elements fit: the resize, then the stores of the value
bytes at the payload offsets `s * n, ..., s * n + s - 1` of the block the resize
returned. -/
theorem insert_resize_then_stores (m : Mem) (d : Nat) (blk : Block) (s n : Nat) (v : List Nat)
    (realloc : allocator_reallocate) (h : Handle m d blk s n) (hs : 0 < s) (hv : v.length = s)
    (hfit : HEADER_SIZE + s * (n + 1) < U64) (hc : ReallocateContract realloc) :
    _dynamic_array_insert m d (some v) s (some realloc)
      = (_dynamic_array_resize m d (n + 1) (some realloc)).bind fun r =>
        (store_all r.1 r.2 ((List.range s).map fun k =>
          (HEADER_SIZE + s * n + k, v.getD k 0))).bind fun m2 => .ok (m2, r.2) := by
  have hn1 : n + 1 < U64 := by
    have : 1 * (n + 1) ≤ s * (n + 1) := Nat.mul_le_mul_right _ hs
    omega
  cases hres : _dynamic_array_resize m d (n + 1) (some realloc) with
  | error e =>
    rw [bind_error]
    unfold _dynamic_array_insert
    rw [h.load_item_size, bind_ok]
    dsimp only
    rw [if_pos rfl, h.load_length, bind_ok, Nat.mod_eq_of_lt hn1, hres, bind_error]
  | ok r =>
    obtain ⟨m1, d1⟩ := r
    obtain ⟨blk1, h1⟩ := resize_ok_handle h hn1 hfit hc hres
    rw [bind_ok]
    exact insert_stores m d blk s n v realloc m1 d1 blk1 h hv hres h1

theorem wide_handle : Handle wide_mem 0 wide_block 4611686018427387905 3 :=
  ⟨rfl, by decide, by decide, by decide, by decide⟩

theorem result_item_size_ok {m : Mem} {d s : Nat}
    (h : result_item_size (.ok (m, d)) = some s) : load64 m d 0 = .ok s := by
  unfold result_item_size at h
  dsimp only at h
  cases hl : load64 m d 0 with
  | error e => rw [hl] at h; cases h
  | ok v => rw [hl] at h; cases h; rfl

theorem result_length_ok {m : Mem} {d n : Nat}
    (h : result_length (.ok (m, d)) = some n) : load64 m d 8 = .ok n := by
  unfold result_length _dynamic_array_length at h
  dsimp only at h
  cases hl : load64 m d 8 with
  | error e => rw [hl] at h; cases h
  | ok v => rw [hl] at h; cases h; rfl

/-- On the handle of three elements of `2^62 + 1` bytes the product
`4 * (2^62 + 1)` wraps to 4: the resize inside `_dynamic_array_insert` returns a
20-byte block of length 4, and the pointer `darray + 4 - (2^62 + 1)` of the
value write is below the start of that block. -/
theorem wide_insert_fault (v : List Nat) :
    _dynamic_array_insert wide_mem 0 (some v) 4611686018427387905
      (some (realloc_in_place junk_FF)) = .error .invalid_access := by
  have hl : result_length (_dynamic_array_resize wide_mem 0 ((3 + 1) % U64)
      (some (realloc_in_place junk_FF))) = some 4 := by decide
  have hs : result_item_size (_dynamic_array_resize wide_mem 0 ((3 + 1) % U64)
      (some (realloc_in_place junk_FF))) = some 4611686018427387905 := by decide
  cases hres : _dynamic_array_resize wide_mem 0 ((3 + 1) % U64)
      (some (realloc_in_place junk_FF)) with
  | error e => rw [hres] at hl; cases hl
  | ok r =>
    obtain ⟨mr, d1⟩ := r
    rw [hres] at hl hs
    rw [insert_eq wide_mem 0 v (realloc_in_place junk_FF) 4611686018427387905 3 mr d1 4
      wide_handle.load_item_size wide_handle.load_length hres (result_item_size_ok hs)
      (result_length_ok hl), if_neg (by decide)]

/-! ## Runs that keep their state: agreement with the functions -/

theorem untraced_traced {α : Type} (m : Mem) (calls : Nat) (x : Except Fault α) :
    untraced (traced m calls x) = x := by
  cases x <;> rfl

theorem untraced_bind {α β : Type} (x : Except Abort α) (f : α → Except Abort β) :
    untraced (x.bind f) = (untraced x).bind fun a => untraced (f a) := by
  cases x <;> rfl

theorem untraced_map_bind {α β γ : Type} (x : Except Abort α) (f : α → Except Abort β)
    (g : β → γ) :
    (untraced (x.bind f)).map g = (untraced x).bind fun a => (untraced (f a)).map g := by
  cases x <;> rfl

theorem zero_fill_down_untraced (k : Nat) :
    ∀ (calls : Nat) (m : Mem) (b i : Nat),
      untraced (zero_fill_down_traced calls m b i k) = zero_fill_down m b i k := by
  induction k with
  | zero => intro calls m b i; rfl
  | succ k ih =>
    intro calls m b i
    show untraced ((traced m calls (store m b (HEADER_SIZE + i) 0)).bind fun m1 =>
      zero_fill_down_traced calls m1 b (i - 1) k) = _
    rw [untraced_bind, untraced_traced, zero_fill_down_succ]
    exact congrArg (fun f => (store m b (HEADER_SIZE + i) 0).bind f)
      (funext fun m1 => ih calls m1 b (i - 1))

theorem copy_bytes_untraced (k : Nat) :
    ∀ (calls : Nat) (m : Mem) (dst doff src soff : Nat),
      untraced (copy_bytes_traced calls m dst doff src soff k)
        = copy_bytes m dst doff src soff k := by
  induction k with
  | zero => intro calls m dst doff src soff; rfl
  | succ k ih =>
    intro calls m dst doff src soff
    show untraced ((traced m calls (load m src soff)).bind fun v =>
      (traced m calls (store m dst doff v)).bind fun m1 =>
      copy_bytes_traced calls m1 dst (doff + 1) src (soff + 1) k)
      = (load m src soff).bind fun v => (store m dst doff v).bind fun m1 =>
        copy_bytes m1 dst (doff + 1) src (soff + 1) k
    rw [untraced_bind, untraced_traced]
    refine congrArg (fun f => (load m src soff).bind f) (funext fun v => ?_)
    rw [untraced_bind, untraced_traced]
    exact congrArg (fun f => (store m dst doff v).bind f)
      (funext fun m1 => ih calls m1 dst (doff + 1) src (soff + 1))

theorem write_bytes_untraced (data : List Nat) :
    ∀ (calls : Nat) (m : Mem) (b off i : Nat),
      untraced (write_bytes_traced calls m b off i data) = write_bytes m b off i data := by
  induction data with
  | nil =>
    intro calls m b off i
    show untraced ((traced m calls (load64 m b 0)).bind fun item_size =>
      if i < item_size then .error ⟨.invalid_access, m, calls⟩ else .ok m)
      = (load64 m b 0).bind fun item_size =>
        if i < item_size then .error .invalid_access else .ok m
    rw [untraced_bind, untraced_traced]
    refine congrArg (fun f => (load64 m b 0).bind f) (funext fun s => ?_)
    by_cases h : i < s
    · rw [if_pos h, if_pos h]; rfl
    · rw [if_neg h, if_neg h]; rfl
  | cons v rest ih =>
    intro calls m b off i
    show untraced ((traced m calls (load64 m b 0)).bind fun item_size =>
      if i < item_size then
        (traced m calls (store m b (off + i) v)).bind fun m1 =>
        write_bytes_traced calls m1 b off (i + 1) rest
      else .ok m)
      = (load64 m b 0).bind fun item_size =>
        if i < item_size then
          (store m b (off + i) v).bind fun m1 => write_bytes m1 b off (i + 1) rest
        else .ok m
    rw [untraced_bind, untraced_traced]
    refine congrArg (fun f => (load64 m b 0).bind f) (funext fun s => ?_)
    by_cases h : i < s
    · rw [if_pos h, if_pos h, untraced_bind, untraced_traced]
      exact congrArg (fun f => (store m b (off + i) v).bind f)
        (funext fun m1 => ih calls m1 b off (i + 1))
    · rw [if_neg h, if_neg h]; rfl

/-- The traced resize is `_dynamic_array_resize` with the state kept. -/
theorem resize_untraced (calls : Nat) (m : Mem) (d k : Nat)
    (realloc : Option allocator_reallocate) :
    (untraced (_dynamic_array_resize_traced calls m d k realloc)).map (fun r => (r.1, r.2.1))
      = _dynamic_array_resize m d k realloc := by
  unfold _dynamic_array_resize_traced _dynamic_array_resize
  rw [untraced_map_bind, untraced_traced]
  refine congrArg (fun f => (load64 m d 0).bind f) (funext fun s => ?_)
  cases realloc with
  | none => rfl
  | some realloc =>
    dsimp only
    cases realloc m d ((HEADER_SIZE + (k * s) % U64) % U64) with
    | none => rfl
    | some r =>
      obtain ⟨m1, header⟩ := r
      dsimp only
      rw [untraced_map_bind, untraced_traced]
      refine congrArg (fun f => (load64 m1 header 8).bind f) (funext fun n => ?_)
      rw [untraced_map_bind]
      by_cases hlt : n < k
      · rw [if_pos hlt, if_pos hlt, untraced_bind, untraced_traced]
        simp only [zero_fill_down_untraced]
        refine congrArg (fun f => Except.bind _ f) (funext fun m2 => ?_)
        rw [untraced_map_bind, untraced_traced]
        rfl
      · rw [if_neg hlt, if_neg hlt]
        show (Except.ok m1 : Except Fault Mem).bind _ = (Except.ok m1 : Except Fault Mem).bind _
        rw [bind_ok, bind_ok, untraced_map_bind, untraced_traced]
        rfl

theorem map_then_bind {α β γ : Type} (x : Except Fault α) (p : α → β)
    (f : β → Except Fault γ) : (x.map p).bind f = x.bind fun a => f (p a) := by
  cases x <;> rfl

/-- The traced remove is `_dynamic_array_remove` with the state kept. -/
theorem remove_untraced (calls : Nat) (m : Mem) (d i : Nat)
    (realloc : Option allocator_reallocate) :
    (untraced (_dynamic_array_remove_traced calls m d i realloc)).map (fun r => (r.1, r.2.1))
      = _dynamic_array_remove m d i realloc := by
  unfold _dynamic_array_remove_traced _dynamic_array_remove
  rw [untraced_map_bind, untraced_traced]
  refine congrArg (fun f => (load64 m d 8).bind f) (funext fun n => ?_)
  by_cases h : n > i
  · rw [if_pos h, if_pos h, untraced_map_bind, untraced_traced]
    refine congrArg (fun f => (load64 m d 0).bind f) (funext fun s => ?_)
    dsimp only
    rw [untraced_map_bind, copy_bytes_untraced]
    exact congrArg (fun f => Except.bind _ f)
      (funext fun m1 => resize_untraced calls m1 d (n - 1) realloc)
  · rw [if_neg h, if_neg h]
    rfl

/-- The traced insert is `_dynamic_array_insert` with the state kept. -/
theorem insert_untraced (calls : Nat) (m : Mem) (d : Nat) (data : Option (List Nat))
    (data_size : Nat) (realloc : Option allocator_reallocate) :
    (untraced (_dynamic_array_insert_traced calls m d data data_size realloc)).map
        (fun r => (r.1, r.2.1))
      = _dynamic_array_insert m d data data_size realloc := by
  unfold _dynamic_array_insert_traced _dynamic_array_insert
  rw [untraced_map_bind, untraced_traced]
  refine congrArg (fun f => (load64 m d 0).bind f) (funext fun s => ?_)
  cases realloc with
  | none => rfl
  | some realloc =>
    cases data with
    | none => rfl
    | some data_bytes =>
      dsimp only
      by_cases h : s = data_size
      · rw [if_pos h, if_pos h, untraced_map_bind, untraced_traced]
        refine congrArg (fun f => (load64 m d 8).bind f) (funext fun n => ?_)
        rw [untraced_map_bind, ← resize_untraced calls m d ((n + 1) % U64) (some realloc),
          map_then_bind]
        refine congrArg (fun f => Except.bind _ f) (funext fun r => ?_)
        rw [untraced_map_bind, untraced_traced]
        refine congrArg (fun f => (load64 r.1 r.2.1 8).bind f) (funext fun n1 => ?_)
        rw [untraced_map_bind, untraced_traced]
        refine congrArg (fun f => (load64 r.1 r.2.1 0).bind f) (funext fun s1 => ?_)
        dsimp only
        by_cases hle : s1 ≤ HEADER_SIZE + (n1 * s1) % U64
        · rw [if_pos hle, if_pos hle, untraced_map_bind, write_bytes_untraced]
          rfl
        · rw [if_neg hle, if_neg hle]
          rfl
      · rw [if_neg h, if_neg h]
        rfl

theorem untraced_error_map {α β : Type} (a : Abort) (g : α → β) :
    (untraced (Except.error a : Except Abort α)).map g = .error a.fault := rfl

/-- A remove with an out-of-range index stops at its `assert`, in the heap it
started in and without a call of the reallocator. -/
theorem remove_traced_rejects (calls : Nat) (m : Mem) (d i n : Nat)
    (realloc : Option allocator_reallocate) (hln : load64 m d 8 = .ok n) (hi : n ≤ i) :
    _dynamic_array_remove_traced calls m d i realloc = .error ⟨.assertion, m, calls⟩ := by
  unfold _dynamic_array_remove_traced
  rw [hln]
  show (if n > i then _ else _) = _
  rw [if_neg (by omega)]

/-- Every failed assertion of a remove is in the heap the call started in,
without a call of the reallocator. -/
theorem remove_traced_assertion (calls : Nat) (m : Mem) (d i n : Nat)
    (realloc : Option allocator_reallocate) (hln : load64 m d 8 = .ok n) (a : Abort)
    (h : _dynamic_array_remove_traced calls m d i realloc = .error a)
    (hf : a.fault = .assertion) :
    n ≤ i ∧ a.mem = m ∧ a.realloc_calls = calls := by
  have h1 := remove_untraced calls m d i realloc
  rw [h, untraced_error_map, hf] at h1
  have hi := (remove_assertion_iff m d i n realloc hln).1 h1.symm
  rw [remove_traced_rejects calls m d i n realloc hln hi] at h
  have h2 := Except.error.inj h
  rw [← h2]
  exact ⟨hi, rfl, rfl⟩

/-- An insert whose `assert` fails stops there, in the heap it started in and
without a call of the reallocator. -/
theorem insert_traced_rejects (calls : Nat) (m : Mem) (d s : Nat) (data : Option (List Nat))
    (data_size : Nat) (realloc : Option allocator_reallocate) (hls : load64 m d 0 = .ok s)
    (h : data_size ≠ s ∨ data = none ∨ realloc = none) :
    _dynamic_array_insert_traced calls m d data data_size realloc
      = .error ⟨.assertion, m, calls⟩ := by
  unfold _dynamic_array_insert_traced
  rw [hls]
  show (match realloc, data with
    | some realloc, some data_bytes => if s = data_size then _ else _
    | _, _ => _) = _
  cases realloc with
  | none => rfl
  | some realloc =>
    cases data with
    | none => rfl
    | some data_bytes =>
      dsimp only
      rcases h with h | h | h
      · rw [if_neg (fun hs => h hs.symm)]
      · cases h
      · cases h

/-- Every failed assertion of an insert is in the heap the call started in,
without a call of the reallocator. -/
theorem insert_traced_assertion (calls : Nat) (m : Mem) (d s : Nat)
    (data : Option (List Nat)) (data_size : Nat) (realloc : Option allocator_reallocate)
    (hls : load64 m d 0 = .ok s) (a : Abort)
    (h : _dynamic_array_insert_traced calls m d data data_size realloc = .error a)
    (hf : a.fault = .assertion) :
    (data_size ≠ s ∨ data = none ∨ realloc = none) ∧ a.mem = m ∧ a.realloc_calls = calls := by
  have h1 := insert_untraced calls m d data data_size realloc
  rw [h, untraced_error_map, hf] at h1
  have hc := (insert_assertion_iff m d s data data_size realloc hls).1 h1.symm
  rw [insert_traced_rejects calls m d s data data_size realloc hls hc] at h
  have h2 := Except.error.inj h
  rw [← h2]
  exact ⟨hc, rfl, rfl⟩

/-! ## Calls that return in the block model

The statements of this section are about calls that return in the block model,
that is, calls without an access outside a live block.  A growing resize or
insert of a non-empty array whose reallocator moves the block is not such a
call. -/

/-! ### Copy, for calls that return -/

/-- In the block model `_dynamic_array_copy` is a byte-exact duplicate, and the two
arrays stay apart as long as every later call returns.  For a handle of `n`
elements of `s` bytes and an allocator that obeys its contract and returns a
block, the call returns a handle with the same `item_size`, the same `length`
and the same payload bytes, the source block is unchanged, and from then on
every write to, resize of, insert into or removal from one of the two arrays
that returns in the block model leaves the block (header and payload) of the
other one unchanged. -/
theorem copy_independent (m : Mem) (d : Nat) (blk : Block) (s n : Nat)
    (alloc : allocator_allocate) (m1 : Mem) (b : Nat) (h : Handle m d blk s n)
    (hc : AllocateContract alloc) (hcall : alloc m (HEADER_SIZE + s * n) = some (m1, b)) :
    ∃ m' blk', _dynamic_array_copy m d (some alloc) = .ok (m', b) ∧
      Handle m' b blk' s n ∧
      (∀ i, i < s * n → blk'.bytes (HEADER_SIZE + i) = blk.bytes (HEADER_SIZE + i)) ∧
      m' d = some blk ∧ b ≠ d ∧
      ∀ μ x y, Later m' d b μ x y →
        (∀ μ' x', Mutation μ x μ' x' → μ' y = μ y) ∧
        (∀ μ' y', Mutation μ y μ' y' → μ' x = μ x) := by
  obtain ⟨m', blk', h1, h2, h3, h4, h5, _⟩ := copy_aux m d blk s n alloc m1 b h hc hcall
  refine ⟨m', blk', h1, h2, ?_, h4, h5, ?_⟩
  · intro i hi
    exact h3 _ (by rw [h.2.1]; omega)
  · intro μ x y hl
    obtain ⟨hx, hy, hxy⟩ := later_distinct hl (by simp [h4]) (by simp [h2.1]) (Ne.symm h5)
    exact ⟨fun μ' x' hmut => (mutation_other hmut hx hy hxy).1,
      fun μ' y' hmut => (mutation_other hmut hy hx (Ne.symm hxy)).1⟩

/-- An instance of `copy_independent`: a copy of the sample array into block 1. -/
theorem copy_independent_sample :
    ∃ m' blk', _dynamic_array_copy sample_mem 0 (some (alloc_at 1 junk_FF)) = .ok (m', 1) ∧
      Handle m' 1 blk' 4 3 ∧
      (∀ i, i < 4 * 3 →
        blk'.bytes (HEADER_SIZE + i) = sample_block.bytes (HEADER_SIZE + i)) ∧
      m' 0 = some sample_block ∧ 1 ≠ 0 ∧
      ∀ μ x y, Later m' 0 1 μ x y →
        (∀ μ' x', Mutation μ x μ' x' → μ' y = μ y) ∧
        (∀ μ' y', Mutation μ y μ' y' → μ' x = μ x) :=
  copy_independent sample_mem 0 sample_block 4 3 (alloc_at 1 junk_FF)
    (Function.update sample_mem 1 (some ⟨28, junk_FF⟩)) 1 sample_handle
    (alloc_at_contract 1 junk_FF) rfl

/-! ### The size of the block, for calls that return -/

/-- In the block model, for every handle obtained from create and then transformed
by any finite sequence of returned calls of resize, insert, remove and copy,
the size of the
live backing block equals `(16 + item_size * length) mod 2^64` for the two
fields recorded in its header, which is `16 + item_size * length` whenever that
sum is below `2^64`; `_dynamic_array_destroy` passes exactly the size of the
live block to `deallocate`, and the block a returned `_dynamic_array_insert`
leaves has exactly `item_size` more bytes (modulo `2^64`): no spare capacity. -/
theorem exact_size_invariant (m : Mem) (d : Nat) (h : Reachable m d) :
    ∃ blk, m d = some blk ∧
      blk.size = (HEADER_SIZE + (read_le blk.bytes 0 8 * read_le blk.bytes 8 8) % U64) % U64 ∧
      (HEADER_SIZE + read_le blk.bytes 0 8 * read_le blk.bytes 8 8 < U64 →
        blk.size = HEADER_SIZE + read_le blk.bytes 0 8 * read_le blk.bytes 8 8) ∧
      (∀ deallocate : allocator_deallocate,
        _dynamic_array_destroy m d (some deallocate) = .ok (deallocate m d blk.size)) ∧
      (∀ (data : Option (List Nat)) (data_size : Nat) (realloc : allocator_reallocate)
          (m' : Mem) (d' : Nat), ReallocateContract realloc →
        _dynamic_array_insert m d data data_size (some realloc) = .ok (m', d') →
        ∃ blk', m' d' = some blk' ∧
          blk'.size = (blk.size + read_le blk.bytes 0 8) % U64) := by
  obtain ⟨blk, hb, h16, hsz⟩ := reachable_exact_size h
  refine ⟨blk, hb, hsz, ?_, destroy_exact_size hb h16 hsz, ?_⟩
  · intro hfit
    rw [hsz, Nat.mod_eq_of_lt (show _ * _ < U64 by omega), Nat.mod_eq_of_lt hfit]
  · intro data data_size realloc m' d' hc hins
    exact (insert_exact_size hc hb h16 hsz hins).2

/-- An instance of `exact_size_invariant`: the handle created for two 4-byte
elements in the empty heap. -/
theorem exact_size_invariant_sample :
    ∃ blk, created_mem 0 = some blk ∧
      blk.size = (HEADER_SIZE + (read_le blk.bytes 0 8 * read_le blk.bytes 8 8) % U64) % U64 ∧
      (HEADER_SIZE + read_le blk.bytes 0 8 * read_le blk.bytes 8 8 < U64 →
        blk.size = HEADER_SIZE + read_le blk.bytes 0 8 * read_le blk.bytes 8 8) ∧
      (∀ deallocate : allocator_deallocate,
        _dynamic_array_destroy created_mem 0 (some deallocate)
          = .ok (deallocate created_mem 0 blk.size)) ∧
      (∀ (data : Option (List Nat)) (data_size : Nat) (realloc : allocator_reallocate)
          (m' : Mem) (d' : Nat), ReallocateContract realloc →
        _dynamic_array_insert created_mem 0 data data_size (some realloc) = .ok (m', d') →
        ∃ blk', m' d' = some blk' ∧
          blk'.size = (blk.size + read_le blk.bytes 0 8) % U64) :=
  exact_size_invariant created_mem 0
    (Reachable.create empty_mem 4 2 (alloc_at 0 junk_FF) created_mem 0 (by decide) (by decide)
      (alloc_at_contract 0 junk_FF) rfl)

/-- The size of the block is not `16 + item_size * length` as an integer when
`item_size * length` overflows: the handle created
for `2^61` elements of 8 bytes is reachable, its header records `item_size = 8`
and `length = 2^61`, and its live block has 16 bytes, not `16 + 8 * 2^61`. -/
theorem exact_size_overflow_sample :
    Reachable overflowed_mem 0 ∧
    (overflowed_mem 0).map Block.size = some 16 ∧
    (overflowed_mem 0).map (fun blk => read_le blk.bytes 0 8) = some 8 ∧
    (overflowed_mem 0).map (fun blk => read_le blk.bytes 8 8) = some 2305843009213693952 ∧
    16 ≠ HEADER_SIZE + 8 * 2305843009213693952 :=
  ⟨Reachable.create empty_mem 8 2305843009213693952 (alloc_at 0 junk_FF) overflowed_mem 0
      (by decide) (by decide) (alloc_at_contract 0 junk_FF) rfl,
    by decide, by decide, by decide, by decide⟩

/-! ### The element size of a handle, for calls that return -/

/-- In the block model `item_size` is the same after every call that returns.  For
a handle whose header records `item_size = s`, with allocators that obey their contracts: the handle that
`_dynamic_array_resize`, `_dynamic_array_insert` or `_dynamic_array_remove`
returns records `item_size = s`; the handle `_dynamic_array_copy` returns
records `item_size = s`, and so does the source after the copy; and the handle
`_dynamic_array_create` returns records the `item_size` it was given. -/
theorem item_size_immutable (m : Mem) (darray : Nat) (blk : Block) (s n : Nat)
    (h : Handle m darray blk s n) :
    (∀ (k : Nat) (realloc : allocator_reallocate) (m' : Mem) (darray' : Nat),
      ReallocateContract realloc →
      _dynamic_array_resize m darray k (some realloc) = .ok (m', darray') →
      load64 m' darray' 0 = .ok s) ∧
    (∀ (data : Option (List Nat)) (data_size : Nat) (realloc : allocator_reallocate)
        (m' : Mem) (darray' : Nat), ReallocateContract realloc →
      _dynamic_array_insert m darray data data_size (some realloc) = .ok (m', darray') →
      load64 m' darray' 0 = .ok s) ∧
    (∀ (i : Nat) (realloc : allocator_reallocate) (m' : Mem) (darray' : Nat),
      ReallocateContract realloc →
      _dynamic_array_remove m darray i (some realloc) = .ok (m', darray') →
      load64 m' darray' 0 = .ok s) ∧
    (∀ (alloc : allocator_allocate) (m' : Mem) (darray' : Nat), AllocateContract alloc →
      _dynamic_array_copy m darray (some alloc) = .ok (m', darray') →
      load64 m' darray' 0 = .ok s ∧ load64 m' darray 0 = .ok s) ∧
    (∀ (m0 : Mem) (k : Nat) (alloc : allocator_allocate) (m' : Mem) (darray' : Nat),
      AllocateContract alloc →
      _dynamic_array_create m0 s k (some alloc) = .ok (m', darray') →
      load64 m' darray' 0 = .ok s) := by
  refine ⟨?_, ?_, ?_, ?_, ?_⟩
  · intro k realloc m' d' hc hr
    exact resize_item_size h hc hr
  · intro data data_size realloc m' d' hc hr
    exact insert_item_size h hc hr
  · intro i realloc m' d' hc hr
    exact remove_item_size h hc hr
  · intro alloc m' d' hc hr
    exact ⟨(copy_item_size h hc hr).1, (copy_item_size h hc hr).2.1⟩
  · intro m0 k alloc m' d' hc hr
    exact create_item_size h.item_size_lt hc hr

/-- An instance of `item_size_immutable`: on the sample array of 4-byte elements a
shrinking resize, an insert, a remove and a copy return, and the handle each returns records
`item_size = 4`. -/
theorem item_size_immutable_sample :
    (∃ m' d', _dynamic_array_resize sample_mem 0 1 (some (realloc_move junk_FF)) = .ok (m', d') ∧
      load64 m' d' 0 = .ok 4) ∧
    (∃ m' d', _dynamic_array_insert sample_mem 0 (some [1, 2, 3, 4]) 4
        (some (realloc_in_place junk_FF)) = .ok (m', d') ∧
      load64 m' d' 0 = .ok 4) ∧
    (∃ m' d', _dynamic_array_remove sample_mem 0 1 (some (realloc_move junk_FF)) = .ok (m', d') ∧
      load64 m' d' 0 = .ok 4) ∧
    (∃ m' d', _dynamic_array_copy sample_mem 0 (some (alloc_at 1 junk_FF)) = .ok (m', d') ∧
      load64 m' d' 0 = .ok 4 ∧ load64 m' 0 0 = .ok 4) := by
  have hw := item_size_immutable sample_mem 0 sample_block 4 3 sample_handle
  refine ⟨?_, ?_, ?_, ?_⟩
  · obtain ⟨m', d', _, h1, _⟩ := resize_shrink_aux sample_mem 0 sample_block 4 3 1
      (realloc_move junk_FF) sample_handle (by decide) (realloc_move_contract junk_FF)
      (realloc_move_succeeds junk_FF)
    exact ⟨m', d', h1, hw.1 1 _ m' d' (realloc_move_contract junk_FF) h1⟩
  · obtain ⟨m', _, h1, _⟩ := insert_aux sample_mem 0 sample_block 4 3 [1, 2, 3, 4]
      (realloc_in_place junk_FF) _ 0 sample_handle (by decide) rfl (by decide)
      (realloc_in_place_contract junk_FF) rfl (Or.inr rfl)
    exact ⟨m', 0, h1, hw.2.1 _ 4 _ m' 0 (realloc_in_place_contract junk_FF) h1⟩
  · obtain ⟨m', d', _, h1, _⟩ := remove_aux sample_mem 0 sample_block 4 3 1
      (realloc_move junk_FF) sample_handle (by decide) (realloc_move_contract junk_FF)
      (realloc_move_succeeds junk_FF)
    exact ⟨m', d', h1, hw.2.2.1 1 _ m' d' (realloc_move_contract junk_FF) h1⟩
  · obtain ⟨m', _, h1, _⟩ := copy_aux sample_mem 0 sample_block 4 3 (alloc_at 1 junk_FF) _ 1
      sample_handle (alloc_at_contract 1 junk_FF) rfl
    exact ⟨m', 1, h1, hw.2.2.2.1 _ m' 1 (alloc_at_contract 1 junk_FF) h1⟩


/-! ## The claims -/

/-! ### C1: growing resize of a non-empty array -/

/-- C1 at its failing input: the sample array (three 4-byte elements) grown to
four elements with a reallocator that moves the block and leaves `0xFF` in the
added bytes.  The block behind the returned handle is block 1 and its added
payload byte 12 holds `0xFF`; the zero-fill of `_dynamic_array_resize` stores
through `darray`, which is block 0, released by the reallocator: the call ends
in an invalid access instead of returning the zero-filled handle.  The handle
is valid and the reallocator obeys its contract. -/
theorem resize_grow_relocated_fault :
    Handle sample_mem 0 sample_block 4 3 ∧
    ReallocateContract (realloc_move junk_FF) ∧
    ((realloc_move junk_FF sample_mem 0 32).map fun r => r.2) = some 1 ∧
    ((realloc_move junk_FF sample_mem 0 32).bind fun r =>
      (r.1 r.2).map fun blk => blk.bytes (HEADER_SIZE + 12)) = some 255 ∧
    ((realloc_move junk_FF sample_mem 0 32).map fun r => (r.1 0).isSome) = some false ∧
    result_fault (_dynamic_array_resize sample_mem 0 4 (some (realloc_move junk_FF)))
      = some .invalid_access := by
  refine ⟨sample_handle, realloc_move_contract junk_FF, by decide, by decide, by decide,
    by decide⟩

/-! ### C2: growing resize of an empty array -/

/-- C2 at its failing input: an empty array of 4-byte elements grown to two
elements, the reallocator working in place and leaving `0xFF` in the added
bytes.  The call returns a handle of length 2 whose payload bytes are still
`0xFF`: with `length = 0` the loop bound `length * item_size - 1` wraps to
`2^64 - 1` and the zero-fill loop does not run.  The handle is valid and the
reallocator obeys its contract. -/
theorem resize_grow_from_empty_not_zeroed :
    Handle empty_array_mem 0 empty_array_block 4 0 ∧
    ReallocateContract (realloc_in_place junk_FF) ∧
    result_length (_dynamic_array_resize empty_array_mem 0 2 (some (realloc_in_place junk_FF)))
      = some 2 ∧
    result_byte (_dynamic_array_resize empty_array_mem 0 2 (some (realloc_in_place junk_FF))) 0
      = some 255 ∧
    result_byte (_dynamic_array_resize empty_array_mem 0 2 (some (realloc_in_place junk_FF))) 7
      = some 255 := by
  refine ⟨empty_array_handle, realloc_in_place_contract junk_FF, by decide, by decide,
    by decide⟩

/-! ### C3: remove -/

/-- C3: `_dynamic_array_remove` is order-preserving deletion.  For a handle of `n`
elements of `s` bytes and an index `i < n`, with a reallocator that obeys its
contract, the call returns a handle of `n - 1` elements (so
`_dynamic_array_length` returns `n - 1`) in which element `j` is the old
element `j` for `j < i` and the old element `j + 1` for `i ≤ j < n - 1`: the
list of its elements is the old list with position `i` erased. -/
theorem remove_erases_index (m : Mem) (darray : Nat) (blk : Block) (s n i : Nat)
    (realloc : allocator_reallocate) (h : Handle m darray blk s n) (hi : i < n)
    (hc : ReallocateContract realloc) (hsucc : ReallocateSucceeds realloc) :
    ∃ m' darray' blk', _dynamic_array_remove m darray i (some realloc) = .ok (m', darray') ∧
      Handle m' darray' blk' s (n - 1) ∧
      _dynamic_array_length m' darray' = .ok (n - 1) ∧
      (∀ j, j < i → element blk' s j = element blk s j) ∧
      (∀ j, i ≤ j → j < n - 1 → element blk' s j = element blk s (j + 1)) ∧
      elements blk' s (n - 1) = (elements blk s n).eraseIdx i := by
  obtain ⟨m', d', blk', h1, h2, h3, h4⟩ := remove_aux m darray blk s n i realloc h hi hc hsucc
  exact ⟨m', d', blk', h1, h2, h2.load_length, h3, h4,
    erase_map_range (element blk s) (element blk' s) n i hi h3 h4⟩

/-- Witness of C3: removing index 1 of the three-element sample array, with a
reallocator that moves the block. -/
theorem remove_erases_index_witness :
    ∃ m' darray' blk',
      _dynamic_array_remove sample_mem 0 1 (some (realloc_move junk_FF)) = .ok (m', darray') ∧
      Handle m' darray' blk' 4 (3 - 1) ∧
      _dynamic_array_length m' darray' = .ok (3 - 1) ∧
      (∀ j, j < 1 → element blk' 4 j = element sample_block 4 j) ∧
      (∀ j, 1 ≤ j → j < 3 - 1 → element blk' 4 j = element sample_block 4 (j + 1)) ∧
      elements blk' 4 (3 - 1) = (elements sample_block 4 3).eraseIdx 1 :=
  remove_erases_index sample_mem 0 sample_block 4 3 1 (realloc_move junk_FF) sample_handle
    (by decide) (realloc_move_contract junk_FF) (realloc_move_succeeds junk_FF)

/-! ### C4: insert -/

/-- C4 at its failing input: a 4-byte value inserted into the sample array
(three 4-byte elements) with a reallocator that moves the block.  The resize
inside `_dynamic_array_insert` zero-fills through the released block and the
call ends in an invalid access instead of returning the four-element handle.
The handle is valid and the reallocator obeys its contract. -/
theorem insert_relocated_fault :
    Handle sample_mem 0 sample_block 4 3 ∧
    ReallocateContract (realloc_move junk_FF) ∧
    result_fault
      (_dynamic_array_insert sample_mem 0 (some [1, 2, 3, 4]) 4 (some (realloc_move junk_FF)))
      = some .invalid_access :=
  ⟨sample_handle, realloc_move_contract junk_FF, by decide⟩

/-! ### C5: create -/

/-- C5 (as amended): for every element size `0 < s < 2^64` and count `n` with
`16 + s * n < 2^64` for which `allocate` (obeying its contract) returns a
block, `_dynamic_array_create` returns a handle whose header holds
`item_size = s` and `length = n`, so that `_dynamic_array_length` returns `n`,
and whose `s * n` payload bytes are all zero, whatever the block held. -/
theorem create_zeroed (m : Mem) (s n : Nat) (alloc : allocator_allocate) (m1 : Mem) (b : Nat)
    (hs : 0 < s) (hs64 : s < U64) (hfit : HEADER_SIZE + s * n < U64)
    (hc : AllocateContract alloc) (hcall : alloc m (HEADER_SIZE + s * n) = some (m1, b)) :
    ∃ m' blk', _dynamic_array_create m s n (some alloc) = .ok (m', b) ∧
      Handle m' b blk' s n ∧
      _dynamic_array_length m' b = .ok n ∧
      ∀ i, i < s * n → blk'.bytes (HEADER_SIZE + i) = 0 := by
  obtain ⟨m', blk', h1, h2, h3, _⟩ := create_aux m s n alloc m1 b hs hs64 hfit hc hcall
  exact ⟨m', blk', h1, h2, h2.load_length, h3⟩

/-- Witness of C5 (as amended): two 4-byte elements in the empty heap, the
allocator leaving `0xFF` in every byte. -/
theorem create_zeroed_witness :
    ∃ m' blk', _dynamic_array_create empty_mem 4 2 (some (alloc_at 0 junk_FF)) = .ok (m', 0) ∧
      Handle m' 0 blk' 4 2 ∧
      _dynamic_array_length m' 0 = .ok 2 ∧
      ∀ i, i < 4 * 2 → blk'.bytes (HEADER_SIZE + i) = 0 :=
  create_zeroed empty_mem 4 2 (alloc_at 0 junk_FF)
    (Function.update empty_mem 0 (some ⟨24, junk_FF⟩)) 0 (by decide) (by decide) (by decide)
    (alloc_at_contract 0 junk_FF) rfl

/-- C5 as stated fails when `s * n` overflows: with `s = 8` and `n = 2^61` the
product wraps to 0, the size requested is `16`, `allocate` (obeying its
contract) succeeds, and the call returns a handle whose header says `2^61`
elements while its block has 16 bytes: the payload byte 0 is not memory of the
block. -/
theorem create_overflow_counterexample :
    0 < 8 ∧
    AllocateContract (alloc_at 0 junk_FF) ∧
    (alloc_at 0 junk_FF empty_mem
      ((HEADER_SIZE + (8 * 2305843009213693952) % U64) % U64)).isSome = true ∧
    result_length
      (_dynamic_array_create empty_mem 8 2305843009213693952 (some (alloc_at 0 junk_FF)))
      = some 2305843009213693952 ∧
    result_block_size
      (_dynamic_array_create empty_mem 8 2305843009213693952 (some (alloc_at 0 junk_FF)))
      = some 16 ∧
    result_byte
      (_dynamic_array_create empty_mem 8 2305843009213693952 (some (alloc_at 0 junk_FF))) 0
      = none := by
  refine ⟨by decide, alloc_at_contract 0 junk_FF, by decide, by decide, by decide, by decide⟩

/-! ### C6: index -/

/-- C6: `_dynamic_array_index` is a total soft-fail query.  For a handle of `n`
elements of `s` bytes and any index `i` the call returns, without a fault: the
payload offset `s * i` when `i < n`, and `NULL` when `i ≥ n`.  In particular
index `n - 1` is a value when `n ≥ 1` and index `n` is `NULL`.  The function
has no store, so the heap is the same after the call. -/
theorem index_soft_fail (m : Mem) (darray : Nat) (blk : Block) (s n i : Nat)
    (h : Handle m darray blk s n) :
    _dynamic_array_index m darray i = .ok (if i < n then some (s * i) else none) ∧
      (i < n → s * i + s ≤ s * n) ∧
      (1 ≤ n → _dynamic_array_index m darray (n - 1) = .ok (some (s * (n - 1)))) ∧
      _dynamic_array_index m darray n = .ok none := by
  have hls := h.load_item_size
  have hln := h.load_length
  obtain ⟨hm, hsz, hlt, hrs, hrn⟩ := h
  have key : ∀ i, _dynamic_array_index m darray i
      = .ok (if i < n then some (s * i) else none) := by
    intro i
    simp only [_dynamic_array_index, hln, hls, Except.bind]
    by_cases hi : i < n
    · have h1 : s * (i + 1) ≤ s * n := Nat.mul_le_mul_left s hi
      have h2 : s * (i + 1) = s * i + s := Nat.mul_succ s i
      rw [if_pos hi, if_pos hi, Nat.mod_eq_of_lt (by omega)]
    · rw [if_neg hi, if_neg hi]
  refine ⟨key i, ?_, ?_, ?_⟩
  · intro hi
    have h1 : s * (i + 1) ≤ s * n := Nat.mul_le_mul_left s hi
    have h2 : s * (i + 1) = s * i + s := Nat.mul_succ s i
    omega
  · intro hn
    rw [key, if_pos (by omega)]
  · rw [key, if_neg (by omega)]

/-- Witness of C6: the sample array of three 4-byte elements, index 2. -/
theorem index_soft_fail_witness :
    _dynamic_array_index sample_mem 0 2 = .ok (if 2 < 3 then some (4 * 2) else none) ∧
      (2 < 3 → 4 * 2 + 4 ≤ 4 * 3) ∧
      (1 ≤ 3 → _dynamic_array_index sample_mem 0 (3 - 1) = .ok (some (4 * (3 - 1)))) ∧
      _dynamic_array_index sample_mem 0 3 = .ok none :=
  index_soft_fail sample_mem 0 sample_block 4 3 2 sample_handle

/-! ### C7: shrinking resize -/

/-- C7: shrinking `_dynamic_array_resize`.  For a handle of `n` elements of `s`
bytes and a new length `k ≤ n`, with a reallocator that obeys its contract, the
call returns a handle of `k` elements whose payload bytes `[0, s * k)` are the
old payload bytes at the same offsets: no retained byte is changed. -/
theorem resize_shrink_retains (m : Mem) (darray : Nat) (blk : Block) (s n k : Nat)
    (realloc : allocator_reallocate) (h : Handle m darray blk s n) (hk : k ≤ n)
    (hc : ReallocateContract realloc) (hsucc : ReallocateSucceeds realloc) :
    ∃ m' darray' blk', _dynamic_array_resize m darray k (some realloc) = .ok (m', darray') ∧
      Handle m' darray' blk' s k ∧
      _dynamic_array_length m' darray' = .ok k ∧
      ∀ i, i < s * k → blk'.bytes (HEADER_SIZE + i) = blk.bytes (HEADER_SIZE + i) := by
  obtain ⟨m', d', blk', h1, h2, h3⟩ := resize_shrink_aux m darray blk s n k realloc h hk hc hsucc
  exact ⟨m', d', blk', h1, h2, h2.load_length, h3⟩

/-- Witness of C7: shrinking the three-element sample array to one element, with
a reallocator that moves the block. -/
theorem resize_shrink_retains_witness :
    ∃ m' darray' blk',
      _dynamic_array_resize sample_mem 0 1 (some (realloc_move junk_FF)) = .ok (m', darray') ∧
      Handle m' darray' blk' 4 1 ∧
      _dynamic_array_length m' darray' = .ok 1 ∧
      ∀ i, i < 4 * 1 → blk'.bytes (HEADER_SIZE + i) = sample_block.bytes (HEADER_SIZE + i) :=
  resize_shrink_retains sample_mem 0 sample_block 4 3 1 (realloc_move junk_FF)
    sample_handle (by decide) (realloc_move_contract junk_FF) (realloc_move_succeeds junk_FF)

/-! ### C8: copy -/

/-- C8 at its failing input: the sample array (three 4-byte elements) is copied
and then the source is grown to four elements with a reallocator that moves
the block.  In the block model the copy returns a handle with `item_size = 4`
and `length = 3`, and the resize of the source is an invalid access: its
zero-fill stores through the released block, past its end.  On a flat address
space, with an arena allocator that obeys the allocator contracts, the source
is the block at 4096, the copy is the block next to it, at 4124 (handle 4140),
byte for byte equal to the source; the reallocator moves the source to 4152
without touching the copy; and the zero-fill of the resize, which stores at
the four addresses after the old payload, stores into the header of the copy:
after the resize of the source the copy records `item_size = 0`. -/
theorem copy_clobbered_by_source_grow :
    Handle sample_mem 0 sample_block 4 3 ∧
    AllocateContract (alloc_at 2 junk_FF) ∧
    ReallocateContract (realloc_move junk_FF) ∧
    result_item_size (_dynamic_array_copy sample_mem 0 (some (alloc_at 2 junk_FF))) = some 4 ∧
    result_length (_dynamic_array_copy sample_mem 0 (some (alloc_at 2 junk_FF))) = some 3 ∧
    result_fault
      (_dynamic_array_resize
        (result_mem (_dynamic_array_copy sample_mem 0 (some (alloc_at 2 junk_FF)))) 0 4
        (some (realloc_move junk_FF))) = some .invalid_access ∧
    flat_item_size flat_sample 4112 = 4 ∧
    flat_length flat_sample 4112 = 3 ∧
    flat_copied.2 = 4140 ∧
    flat_item_size flat_copied.1 4140 = 4 ∧
    flat_length flat_copied.1 4140 = 3 ∧
    (∀ i, i < 12 → flat_copied.1.bytes (4140 + i) = flat_sample.bytes (4112 + i)) ∧
    (∀ j, j < 28 → flat_copied.1.bytes (4096 + j) = flat_sample.bytes (4096 + j)) ∧
    (arena_reallocate flat_copied.1 4096 32).2 = 4152 ∧
    (∀ j, j < 28 →
      (arena_reallocate flat_copied.1 4096 32).1.bytes (4152 + j)
        = flat_copied.1.bytes (4096 + j)) ∧
    (∀ j, j < 28 →
      (arena_reallocate flat_copied.1 4096 32).1.bytes (4124 + j)
        = flat_copied.1.bytes (4124 + j)) ∧
    flat_copied_grown.2 = 4168 ∧
    flat_item_size flat_copied_grown.1 4168 = 4 ∧
    flat_length flat_copied_grown.1 4168 = 4 ∧
    flat_item_size flat_copied_grown.1 4140 = 0 ∧
    flat_length flat_copied_grown.1 4140 = 3 := by
  refine ⟨sample_handle, alloc_at_contract 2 junk_FF, realloc_move_contract junk_FF, ?_⟩
  decide

/-! ### C9: the exact-size invariant -/

/-- C9 at its failing input: an array of three 4-byte elements is created and
then grown to four elements with a reallocator that moves the block.  In the
block model the handle `create` returns is a valid handle and the resize is an
invalid access: its zero-fill stores through the released block, past its end.
On a flat address space, with an arena allocator that obeys the allocator
contracts, `create` returns the handle 4112 of a 28-byte block
(`28 = 16 + 4 * 3`); the resize requests 32 bytes and gets the block at 4124,
next to the old one; its zero-fill, which stores at the four addresses after
the old payload, stores into the header of the new block; the handle the
resize returns, 4140, records `item_size = 0` and `length = 4`: the live block
has 32 bytes, the header says `16 + 0 * 4 = 16`, and 16 is the size
`_dynamic_array_destroy` passes to `deallocate`. -/
theorem exact_size_lost_by_grow :
    (∃ blk, created_mem 0 = some blk ∧ Handle created_mem 0 blk 4 2) ∧
    ReallocateContract (realloc_move junk_FF) ∧
    result_fault (_dynamic_array_resize created_mem 0 3 (some (realloc_move junk_FF)))
      = some .invalid_access ∧
    flat_created.2 = 4112 ∧
    flat_item_size flat_created.1 4112 = 4 ∧
    flat_length flat_created.1 4112 = 3 ∧
    flat_created.1.sizes 4096 = HEADER_SIZE + 4 * 3 ∧
    flat_dynamic_array_destroy flat_created.1 4112 (fun p size => (p, size)) = (4096, 28) ∧
    (arena_reallocate flat_created.1 4096 32).2 = 4124 ∧
    (∀ j, j < 28 →
      (arena_reallocate flat_created.1 4096 32).1.bytes (4124 + j)
        = flat_created.1.bytes (4096 + j)) ∧
    flat_created_grown.2 = 4140 ∧
    flat_created_grown.1.sizes 4124 = 32 ∧
    flat_item_size flat_created_grown.1 4140 = 0 ∧
    flat_length flat_created_grown.1 4140 = 4 ∧
    HEADER_SIZE + flat_item_size flat_created_grown.1 4140 * flat_length flat_created_grown.1 4140
      = 16 ∧
    flat_dynamic_array_destroy flat_created_grown.1 4140 (fun p size => (p, size))
      = (4124, 16) := by
  refine ⟨⟨_, rfl, rfl, by decide⟩, realloc_move_contract junk_FF, ?_⟩
  decide

/-! ### C10: failures of create -/

/-- C10 (as amended): `_dynamic_array_create` ends in a failed assertion exactly
when `element_size == 0`, or `allocate` is absent, or `allocate` returns no
block; for every other input whose requested size `(16 + s * n) mod 2^64` is at
least 16 (as it is whenever `16 + s * n < 2^64`), with an allocator obeying its
contract, it returns a handle. -/
theorem create_fails_exactly (m : Mem) (s n : Nat) (alloc : Option allocator_allocate) :
    (_dynamic_array_create m s n alloc = .error .assertion ↔
      (s = 0 ∨ alloc = none ∨
        ∃ f, alloc = some f ∧ f m ((HEADER_SIZE + (s * n) % U64) % U64) = none)) ∧
    (∀ f, alloc = some f → AllocateContract f → s ≠ 0 →
      (f m ((HEADER_SIZE + (s * n) % U64) % U64)).isSome = true →
      HEADER_SIZE ≤ (HEADER_SIZE + (s * n) % U64) % U64 →
      ∃ m' b, _dynamic_array_create m s n alloc = .ok (m', b)) := by
  refine ⟨create_assertion_iff m s n alloc, ?_⟩
  intro f hf hc hs hcall h16
  subst hf
  cases hr : f m ((HEADER_SIZE + (s * n) % U64) % U64) with
  | none => rw [hr] at hcall; cases hcall
  | some r =>
    obtain ⟨m1, b⟩ := r
    obtain ⟨_, ⟨blk0, hb, hsz⟩, _⟩ := hc m _ m1 b hr
    exact ⟨_, b, create_eq m s n f m1 b blk0 hs hr hb hsz (by omega)⟩

/-- Witness of C10 (as amended): two 4-byte elements in the empty heap. -/
theorem create_fails_exactly_witness :
    ∃ m' b, _dynamic_array_create empty_mem 4 2 (some (alloc_at 0 junk_FF)) = .ok (m', b) :=
  (create_fails_exactly empty_mem 4 2 (some (alloc_at 0 junk_FF))).2 (alloc_at 0 junk_FF) rfl
    (alloc_at_contract 0 junk_FF) (by decide) (by decide) (by decide)

/-- C10 as stated fails: with `s = 8` and `n = 2^61 - 1` none of the three
failure conditions holds (the size requested wraps to 8 and `allocate`, obeying
its contract, returns an 8-byte block), yet the call does not return a handle:
the store of `header->length` at bytes 8..15 is outside the block. -/
theorem create_small_block_counterexample :
    (8 : Nat) ≠ 0 ∧
    AllocateContract (alloc_at 0 junk_FF) ∧
    (HEADER_SIZE + (8 * 2305843009213693951) % U64) % U64 = 8 ∧
    (alloc_at 0 junk_FF empty_mem 8).isSome = true ∧
    result_fault
      (_dynamic_array_create empty_mem 8 2305843009213693951 (some (alloc_at 0 junk_FF)))
      = some .invalid_access := by
  refine ⟨by decide, alloc_at_contract 0 junk_FF, by decide, by decide, by decide⟩

/-! ### C11: remove with an out-of-range index -/

/-- C11: `_dynamic_array_remove` rejects an out-of-range index before doing
anything else.  For a handle of `n` elements and any index `i`, with any
reallocator (present or not), the call ends in a failed assertion exactly when
`i ≥ n`; so every remove on an empty array fails.  The failure is decided by
the header's `length` alone: it is the same failed assertion when the
reallocator is absent, and in every heap whose header records the same
`length`.  For `i < n` and a reallocator that obeys its contract and does not
fail, the call returns.  With the state kept (`_dynamic_array_remove_traced`,
which is the same function): when `i ≥ n` the run stops at the `assert` in the
heap `m` it started in, so that no payload byte has been moved and the header
is unchanged, and the number of calls of the reallocator is the one it started
with: the reallocator has not been called; and every run of remove that stops
at a failed assertion has stopped in this state. -/
theorem remove_rejects_out_of_range (m : Mem) (darray : Nat) (blk : Block) (s n i : Nat)
    (realloc : Option allocator_reallocate) (h : Handle m darray blk s n) :
    (_dynamic_array_remove m darray i realloc = .error .assertion ↔ n ≤ i) ∧
    (n = 0 → _dynamic_array_remove m darray i realloc = .error .assertion) ∧
    (n ≤ i → _dynamic_array_remove m darray i none = .error .assertion) ∧
    (n ≤ i → ∀ (m2 : Mem) (realloc2 : Option allocator_reallocate),
      load64 m2 darray 8 = .ok n →
      _dynamic_array_remove m2 darray i realloc2 = .error .assertion) ∧
    (∀ f, realloc = some f → ReallocateContract f → ReallocateSucceeds f → i < n →
      ∃ m' darray', _dynamic_array_remove m darray i realloc = .ok (m', darray')) ∧
    (∀ calls : Nat,
      (untraced (_dynamic_array_remove_traced calls m darray i realloc)).map
          (fun r => (r.1, r.2.1))
        = _dynamic_array_remove m darray i realloc) ∧
    (n ≤ i → ∀ calls : Nat,
      _dynamic_array_remove_traced calls m darray i realloc
        = .error ⟨.assertion, m, calls⟩) ∧
    (∀ (calls : Nat) (a : Abort),
      _dynamic_array_remove_traced calls m darray i realloc = .error a →
      a.fault = .assertion →
      n ≤ i ∧ a.mem = m ∧ a.mem darray = some blk ∧ a.realloc_calls = calls) := by
  have hln := h.load_length
  refine ⟨remove_assertion_iff m darray i n realloc hln, ?_, ?_, ?_, ?_, ?_, ?_, ?_⟩
  · intro hn
    exact (remove_assertion_iff m darray i n realloc hln).2 (by omega)
  · intro hle
    exact (remove_assertion_iff m darray i n none hln).2 hle
  · intro hle m2 realloc2 hln2
    exact (remove_assertion_iff m2 darray i n realloc2 hln2).2 hle
  · intro f hf hc hsucc hi
    subst hf
    obtain ⟨m', d', _, h1, _⟩ := remove_aux m darray blk s n i f h hi hc hsucc
    exact ⟨m', d', h1⟩
  · intro calls
    exact remove_untraced calls m darray i realloc
  · intro hle calls
    exact remove_traced_rejects calls m darray i n realloc hln hle
  · intro calls a ha hf
    obtain ⟨h1, h2, h3⟩ := remove_traced_assertion calls m darray i n realloc hln a ha hf
    exact ⟨h1, h2, by rw [h2]; exact h.1, h3⟩

/-- Witness of C11: on the three-element sample array, index 3 is rejected, the
run stopping in the sample heap without a call of the reallocator, and index 2
is removed.  For comparison, a remove of index 1 whose reallocator returns
`NULL` stops later: after one call of the reallocator and with the payload
shifted (byte 20 of the block holds the former byte 24). -/
theorem remove_rejects_out_of_range_witness :
    _dynamic_array_remove sample_mem 0 3 (some (realloc_move junk_FF)) = .error .assertion ∧
    (∃ m' darray',
      _dynamic_array_remove sample_mem 0 2 (some (realloc_move junk_FF)) = .ok (m', darray')) ∧
    _dynamic_array_remove_traced 0 sample_mem 0 3 (some (realloc_move junk_FF))
      = .error ⟨.assertion, sample_mem, 0⟩ ∧
    abort_fault (_dynamic_array_remove_traced 0 sample_mem 0 1 (some realloc_fail))
      = some .null_pointer ∧
    abort_calls (_dynamic_array_remove_traced 0 sample_mem 0 1 (some realloc_fail)) = some 1 ∧
    abort_byte (_dynamic_array_remove_traced 0 sample_mem 0 1 (some realloc_fail)) 0 20
      = some 24 ∧
    sample_block.bytes 20 = 20 :=
  ⟨(remove_rejects_out_of_range sample_mem 0 sample_block 4 3 3 (some (realloc_move junk_FF))
      sample_handle).1.2 (by decide),
    (remove_rejects_out_of_range sample_mem 0 sample_block 4 3 2 (some (realloc_move junk_FF))
      sample_handle).2.2.2.2.1 (realloc_move junk_FF) rfl (realloc_move_contract junk_FF)
      (realloc_move_succeeds junk_FF) (by decide),
    (remove_rejects_out_of_range sample_mem 0 sample_block 4 3 3 (some (realloc_move junk_FF))
      sample_handle).2.2.2.2.2.2.1 (by decide) 0,
    by decide, by decide, by decide, by decide⟩

/-! ### C12: insert with a mismatched value size -/

/-- C12: `_dynamic_array_insert` rejects a mismatched value before doing
anything else.  For a handle with element size `s`, the call ends in a failed
assertion exactly when `data_size ≠ s`, or there is no value, or there is no
reallocator; with `data_size = s`, a value and a reallocator the assertion
passes (the call does not end in a failed assertion).  The failure is decided
by the header's `item_size` and the three arguments alone.  With the state kept
(`_dynamic_array_insert_traced`, which is the same function): when the
assertion fails the run stops there in the heap `m` it started in, so that no
byte of the array or of its header has been changed, and the number of calls
of the reallocator is the one it started with: the reallocator has not been
called; and every run of insert that stops at a failed assertion has stopped
in this state. -/
theorem insert_rejects_size_mismatch (m : Mem) (darray : Nat) (blk : Block) (s n : Nat)
    (data : Option (List Nat)) (data_size : Nat) (realloc : Option allocator_reallocate)
    (h : Handle m darray blk s n) :
    (_dynamic_array_insert m darray data data_size realloc = .error .assertion ↔
      (data_size ≠ s ∨ data = none ∨ realloc = none)) ∧
    (data_size ≠ s → ∀ (m2 : Mem) (data2 : Option (List Nat))
        (realloc2 : Option allocator_reallocate), load64 m2 darray 0 = .ok s →
      _dynamic_array_insert m2 darray data2 data_size realloc2 = .error .assertion) ∧
    (_dynamic_array_insert m darray none data_size realloc = .error .assertion) ∧
    (_dynamic_array_insert m darray data data_size none = .error .assertion) ∧
    (∀ v f, data = some v → realloc = some f → data_size = s →
      _dynamic_array_insert m darray data data_size realloc ≠ .error .assertion) ∧
    (∀ calls : Nat,
      (untraced (_dynamic_array_insert_traced calls m darray data data_size realloc)).map
          (fun r => (r.1, r.2.1))
        = _dynamic_array_insert m darray data data_size realloc) ∧
    ((data_size ≠ s ∨ data = none ∨ realloc = none) → ∀ calls : Nat,
      _dynamic_array_insert_traced calls m darray data data_size realloc
        = .error ⟨.assertion, m, calls⟩) ∧
    (∀ (calls : Nat) (a : Abort),
      _dynamic_array_insert_traced calls m darray data data_size realloc = .error a →
      a.fault = .assertion →
      (data_size ≠ s ∨ data = none ∨ realloc = none) ∧ a.mem = m ∧
        a.mem darray = some blk ∧ a.realloc_calls = calls) := by
  have hls := h.load_item_size
  refine ⟨insert_assertion_iff m darray s data data_size realloc hls, ?_, ?_, ?_, ?_, ?_, ?_,
    ?_⟩
  · intro hne m2 data2 realloc2 hls2
    exact (insert_assertion_iff m2 darray s data2 data_size realloc2 hls2).2 (Or.inl hne)
  · exact (insert_assertion_iff m darray s none data_size realloc hls).2 (Or.inr (Or.inl rfl))
  · exact (insert_assertion_iff m darray s data data_size none hls).2 (Or.inr (Or.inr rfl))
  · intro v f hv hf hs hr
    subst hv hf
    rcases (insert_assertion_iff m darray s _ data_size _ hls).1 hr with h1 | h1 | h1
    · exact h1 hs
    · cases h1
    · cases h1
  · intro calls
    exact insert_untraced calls m darray data data_size realloc
  · intro hc calls
    exact insert_traced_rejects calls m darray s data data_size realloc hls hc
  · intro calls a ha hf
    obtain ⟨h1, h2, h3⟩ :=
      insert_traced_assertion calls m darray s data data_size realloc hls a ha hf
    exact ⟨h1, h2, by rw [h2]; exact h.1, h3⟩

/-- Witness of C12: on the sample array of 4-byte elements a 3-byte value is
rejected, the run stopping in the sample heap without a call of the
reallocator, and a 4-byte value passes the assertion.  For comparison, an
insert of a 4-byte value whose reallocator moves the block stops later: at an
invalid access, after one call of the reallocator, in a heap where block 0 is
released. -/
theorem insert_rejects_size_mismatch_witness :
    _dynamic_array_insert sample_mem 0 (some [1, 2, 3]) 3 (some (realloc_in_place junk_FF))
      = .error .assertion ∧
    _dynamic_array_insert sample_mem 0 (some [1, 2, 3, 4]) 4 (some (realloc_in_place junk_FF))
      ≠ .error .assertion ∧
    _dynamic_array_insert_traced 0 sample_mem 0 (some [1, 2, 3]) 3
        (some (realloc_in_place junk_FF))
      = .error ⟨.assertion, sample_mem, 0⟩ ∧
    abort_fault (_dynamic_array_insert_traced 0 sample_mem 0 (some [1, 2, 3, 4]) 4
        (some (realloc_move junk_FF))) = some .invalid_access ∧
    abort_calls (_dynamic_array_insert_traced 0 sample_mem 0 (some [1, 2, 3, 4]) 4
        (some (realloc_move junk_FF))) = some 1 ∧
    abort_byte (_dynamic_array_insert_traced 0 sample_mem 0 (some [1, 2, 3, 4]) 4
        (some (realloc_move junk_FF))) 0 0 = none :=
  ⟨(insert_rejects_size_mismatch sample_mem 0 sample_block 4 3 (some [1, 2, 3]) 3
      (some (realloc_in_place junk_FF)) sample_handle).1.2 (Or.inl (by decide)),
    (insert_rejects_size_mismatch sample_mem 0 sample_block 4 3 (some [1, 2, 3, 4]) 4
      (some (realloc_in_place junk_FF)) sample_handle).2.2.2.2.1 [1, 2, 3, 4]
      (realloc_in_place junk_FF) rfl rfl rfl,
    (insert_rejects_size_mismatch sample_mem 0 sample_block 4 3 (some [1, 2, 3]) 3
      (some (realloc_in_place junk_FF)) sample_handle).2.2.2.2.2.2.1 (Or.inl (by decide)) 0,
    by decide, by decide, by decide⟩

/-! ### C13: allocation failure -/

/-- C13 at its failing inputs: the sample array (three 4-byte elements) and
allocators that return `NULL`.  `_dynamic_array_create` checks the result of
`alloc` (`assert(total_memory)`): the call ends in a failed assertion.
`_dynamic_array_resize` does not check the result of `realloc`: it reads
`header->length` through the null pointer; so do `_dynamic_array_insert` and
`_dynamic_array_remove`, which resize.  `_dynamic_array_copy` does not check
the result of `alloc`: it stores the first copied byte through the null
pointer.  These four calls end in a null-pointer access, not in a failed
assertion. -/
theorem allocation_failure_unchecked :
    Handle sample_mem 0 sample_block 4 3 ∧
    result_fault (_dynamic_array_create empty_mem 4 2 (some alloc_fail)) = some .assertion ∧
    result_fault (_dynamic_array_resize sample_mem 0 4 (some realloc_fail))
      = some .null_pointer ∧
    result_fault (_dynamic_array_copy sample_mem 0 (some alloc_fail)) = some .null_pointer ∧
    result_fault (_dynamic_array_insert sample_mem 0 (some [1, 2, 3, 4]) 4 (some realloc_fail))
      = some .null_pointer ∧
    result_fault (_dynamic_array_remove sample_mem 0 1 (some realloc_fail))
      = some .null_pointer :=
  ⟨sample_handle, by decide, by decide, by decide, by decide, by decide⟩

/-! ### C14: the element size of a handle -/

/-- C14 at its failing input: the sample array (three 4-byte elements) grown to
four elements, by a resize or by an insert, with a reallocator that moves the
block.  In the block model both calls are an invalid access: the zero-fill of
the resize stores through the released block, past its end.  On a flat address
space, with an arena allocator that obeys the reallocator contract, the array
is the block at 4096 (handle 4112) with `item_size = 4`; the reallocator moves
it to the block at 4124, next to the old one, with the old 28 bytes; the
zero-fill, which stores at the four addresses after the old payload, stores
into the first four bytes of the new header: the handle the resize returns,
4140, records `item_size = 0`, with `length = 4` and the old payload. -/
theorem item_size_clobbered_by_grow :
    Handle sample_mem 0 sample_block 4 3 ∧
    ReallocateContract (realloc_move junk_FF) ∧
    result_fault (_dynamic_array_resize sample_mem 0 4 (some (realloc_move junk_FF)))
      = some .invalid_access ∧
    result_fault
      (_dynamic_array_insert sample_mem 0 (some [5, 6, 7, 8]) 4 (some (realloc_move junk_FF)))
      = some .invalid_access ∧
    flat_item_size flat_sample 4112 = 4 ∧
    flat_length flat_sample 4112 = 3 ∧
    flat_sample.sizes 4096 = 28 ∧
    (arena_reallocate flat_sample 4096 32).2 = 4124 ∧
    (∀ j, j < 28 →
      (arena_reallocate flat_sample 4096 32).1.bytes (4124 + j) = flat_sample.bytes (4096 + j)) ∧
    flat_grown.2 = 4140 ∧
    flat_item_size flat_grown.1 4140 = 0 ∧
    flat_length flat_grown.1 4140 = 4 ∧
    (∀ i, i < 12 → flat_grown.1.bytes (4140 + i) = flat_sample.bytes (4112 + i)) := by
  refine ⟨sample_handle, realloc_move_contract junk_FF, ?_⟩
  decide

/-! ### C15: the size create requests -/

/-- C15 (as amended): `_dynamic_array_create` with `s > 0` calls `alloc` once,
with the size `(16 + s * n) mod 2^64` computed in `uint64_t` arithmetic: the
call depends on the allocator only through its answer to that request, and
fails when that request is refused.  When `16 + s * n < 2^64` the request is
`16 + s * n` as an integer, and the block behind the returned handle has
exactly `16 + s * n` bytes: the header followed by `n` elements of `s` bytes. -/
theorem create_request_size (m : Mem) (s n : Nat) (alloc : allocator_allocate) (hs : 0 < s) :
    (∀ alloc2 : allocator_allocate,
      alloc2 m ((HEADER_SIZE + (s * n) % U64) % U64)
        = alloc m ((HEADER_SIZE + (s * n) % U64) % U64) →
      _dynamic_array_create m s n (some alloc2) = _dynamic_array_create m s n (some alloc)) ∧
    (alloc m ((HEADER_SIZE + (s * n) % U64) % U64) = none →
      _dynamic_array_create m s n (some alloc) = .error .assertion) ∧
    (HEADER_SIZE + s * n < U64 →
      (HEADER_SIZE + (s * n) % U64) % U64 = HEADER_SIZE + s * n) ∧
    (HEADER_SIZE + s * n < U64 → s < U64 → AllocateContract alloc →
      ∀ (m1 : Mem) (b : Nat), alloc m (HEADER_SIZE + s * n) = some (m1, b) →
      ∃ m' blk', _dynamic_array_create m s n (some alloc) = .ok (m', b) ∧
        Handle m' b blk' s n ∧ blk'.size = HEADER_SIZE + s * n) := by
  have hs0 : s ≠ 0 := by omega
  refine ⟨?_, ?_, ?_, ?_⟩
  · intro alloc2 h2
    simp only [_dynamic_array_create, if_neg hs0]
    rw [h2]
  · intro hnone
    exact (create_assertion_iff m s n (some alloc)).2 (Or.inr (Or.inr ⟨alloc, rfl, hnone⟩))
  · intro hfit
    rw [Nat.mod_eq_of_lt (show s * n < U64 by omega), Nat.mod_eq_of_lt hfit]
  · intro hfit hs64 hc m1 b hcall
    obtain ⟨m', blk', h1, h2, _⟩ := create_aux m s n alloc m1 b hs hs64 hfit hc hcall
    exact ⟨m', blk', h1, h2, h2.2.1⟩

/-- Witness of C15 (as amended): two 4-byte elements in the empty heap; the
block behind the handle has `16 + 4 * 2` bytes. -/
theorem create_request_size_witness :
    ∃ m' blk', _dynamic_array_create empty_mem 4 2 (some (alloc_at 0 junk_FF)) = .ok (m', 0) ∧
      Handle m' 0 blk' 4 2 ∧ blk'.size = HEADER_SIZE + 4 * 2 :=
  (create_request_size empty_mem 4 2 (alloc_at 0 junk_FF) (by decide)).2.2.2 (by decide)
    (by decide) (alloc_at_contract 0 junk_FF) _ 0 rfl

/-- C15 as stated fails when `16 + s * n` does not fit 64 bits: with `s = 8` and
`n = 2^61` the integer `16 + s * n` is `2^64 + 16`, and the size requested is
16.  An allocator that serves only a request of exactly 16 bytes satisfies the
call, which returns a handle of length `2^61` over a 16-byte block; an
allocator that serves only a request of exactly `2^64 + 16` bytes is not asked
for them, and the call fails. -/
theorem create_request_wraps_counterexample :
    0 < 8 ∧ 8 < U64 ∧ 2305843009213693952 < U64 ∧
    HEADER_SIZE + 8 * 2305843009213693952 = U64 + 16 ∧
    result_block_size
      (_dynamic_array_create empty_mem 8 2305843009213693952 (some (alloc_only 16 0 junk_FF)))
      = some 16 ∧
    result_length
      (_dynamic_array_create empty_mem 8 2305843009213693952 (some (alloc_only 16 0 junk_FF)))
      = some 2305843009213693952 ∧
    result_fault
      (_dynamic_array_create empty_mem 8 2305843009213693952
        (some (alloc_only (U64 + 16) 0 junk_FF)))
      = some .assertion := by
  refine ⟨by decide, by decide, by decide, by decide, by decide, by decide, by decide⟩

/-! ### C16: the iteration macro -/

/-- C16 at its failing input: the macro used with the index name `j` on the
sample array (length 3), with a body that leaves the heap as it is and any
variables in scope.  The increment of the expanded loop is `++i`, not `++j`:
`j` stays 0, the condition `j < 3` holds on every test, and after any number
`fuel` of tests the body has run `fuel` times, each time with index 0, and the
loop has not ended.  With the index name `i`, the only one the file's test
uses, the body runs for the indices 0, 1, 2 and the loop ends. -/
theorem iterate_index_not_advanced :
    Handle sample_mem 0 sample_block 4 3 ∧
    (∀ (vars : String → Nat) (fuel : Nat),
      (darray_iterate 0 "j" skip_body sample_mem vars fuel).map (fun r => r.2)
        = .ok (List.replicate fuel 0, false)) ∧
    (∀ (vars : String → Nat),
      (darray_iterate 0 "i" skip_body sample_mem vars 4).map (fun r => r.2)
        = .ok ([0, 1, 2], true)) := by
  refine ⟨sample_handle, ?_, ?_⟩
  · intro vars fuel
    obtain ⟨m', h1⟩ := iterate_from_stuck 0 "j" skip_body 3 0 (by decide) (by decide)
      (fun m hm => skip_body_keeps 0 3 0 m hm) fuel sample_mem (Function.update vars "j" 0)
      sample_handle.load_length (Function.update_same _ _ _)
    unfold darray_iterate
    rw [h1]
    rfl
  · intro vars
    obtain ⟨m', h1⟩ := darray_iterate_i sample_mem 0 sample_block 4 3 skip_body vars 4
      sample_handle (by decide) (fun j m _ hm => skip_body_keeps 0 3 j m hm)
    rw [h1]
    rfl

/-! ### C17: the zero-fill of a relocating resize -/

/-- C17 at its failing input: the sample array (three 4-byte elements) grown to
five elements with a reallocator that moves the block to block 1, releases
block 0 and leaves `0xFF` in the added bytes.  The zero-fill of
`_dynamic_array_resize` runs after the `realloc` call and stores through
`darray`, the superseded handle: from the heap `realloc` left, the loop through
block 0 is an invalid access at its first store, where the same loop through
the block `realloc` returned would run to its end.  The call ends in that
invalid access and the added bytes of the returned block are not zeroed. -/
theorem resize_zero_fill_stale_handle :
    Handle sample_mem 0 sample_block 4 3 ∧
    ReallocateContract (realloc_move junk_FF) ∧
    ((realloc_move junk_FF sample_mem 0 36).map fun r => r.2) = some 1 ∧
    ((realloc_move junk_FF sample_mem 0 36).map fun r => (r.1 0).isSome) = some false ∧
    ((realloc_move junk_FF sample_mem 0 36).map fun r =>
      result_fault (store r.1 0 (HEADER_SIZE + 19) 0)) = some (some .invalid_access) ∧
    ((realloc_move junk_FF sample_mem 0 36).map fun r =>
      result_fault (zero_fill_down r.1 0 19 8)) = some (some .invalid_access) ∧
    ((realloc_move junk_FF sample_mem 0 36).map fun r =>
      result_fault (zero_fill_down r.1 r.2 19 8)) = some none ∧
    ((realloc_move junk_FF sample_mem 0 36).bind fun r =>
      (r.1 r.2).map fun blk => blk.bytes (HEADER_SIZE + 19)) = some 255 ∧
    result_fault (_dynamic_array_resize sample_mem 0 5 (some (realloc_move junk_FF)))
      = some .invalid_access := by
  refine ⟨sample_handle, realloc_move_contract junk_FF, by decide, by decide, by decide,
    by decide, by decide, by decide, by decide⟩

/-! ### C18: insert followed by remove of the last element -/

/-- C18 at its failing input: a 4-byte value inserted into the sample array
(three 4-byte elements) and element 3 removed again, with a reallocator that
moves the block.  The insert ends in an invalid access (the zero-fill of its
resize stores through the released block), so the composition returns no
handle.  With a reallocator that works in place the same composition returns
a handle with `item_size = 4`, `length = 3` and the 12 payload bytes of the
sample array. -/
theorem insert_remove_relocated_fault :
    Handle sample_mem 0 sample_block 4 3 ∧
    ReallocateContract (realloc_move junk_FF) ∧
    ReallocateSucceeds (realloc_move junk_FF) ∧
    result_fault
      ((_dynamic_array_insert sample_mem 0 (some [1, 2, 3, 4]) 4
          (some (realloc_move junk_FF))).bind fun r =>
        _dynamic_array_remove r.1 r.2 3 (some (realloc_move junk_FF)))
      = some .invalid_access ∧
    result_item_size
      ((_dynamic_array_insert sample_mem 0 (some [1, 2, 3, 4]) 4
          (some (realloc_in_place junk_FF))).bind fun r =>
        _dynamic_array_remove r.1 r.2 3 (some (realloc_in_place junk_FF)))
      = some 4 ∧
    result_length
      ((_dynamic_array_insert sample_mem 0 (some [1, 2, 3, 4]) 4
          (some (realloc_in_place junk_FF))).bind fun r =>
        _dynamic_array_remove r.1 r.2 3 (some (realloc_in_place junk_FF)))
      = some 3 ∧
    (∀ i, i < 12 →
      result_byte
        ((_dynamic_array_insert sample_mem 0 (some [1, 2, 3, 4]) 4
            (some (realloc_in_place junk_FF))).bind fun r =>
          _dynamic_array_remove r.1 r.2 3 (some (realloc_in_place junk_FF))) i
        = some (sample_bytes (HEADER_SIZE + i))) := by
  refine ⟨sample_handle, realloc_move_contract junk_FF, realloc_move_succeeds junk_FF,
    by decide, by decide, by decide, by decide⟩

/-! ### C19: accesses stay inside the payload -/

/-- C19 (as amended): for a handle of `n` elements of `s` bytes (a block of
`16 + s * n < 2^64` bytes, payload at the offsets `16, ..., 16 + s * n - 1`):
`_dynamic_array_index` with `i < n` returns the payload offset `s * i`, not
wrapped, and the slot `[s * i, s * i + s)` is inside `[0, s * n)`;
`_dynamic_array_remove` with `i < n` is the stores at the offsets
`16 + s * i + k`, `k < s * (n - i - 1)`, of the bytes read at `16 + s * i + s + k`,
all inside the payload, followed by the resize; `_dynamic_array_insert` of a
value of `s > 0` bytes, when `16 + s * (n + 1) < 2^64`, is the resize followed by
the stores at the offsets `16 + s * n + k`, `k < s`, of the block the resize
returned, all inside the payload of that block of `16 + s * (n + 1)` bytes; and
`_dynamic_array_create` of such a handle is the stores of zero at the offsets
`16 + k`, `k < s * n`, of the block `alloc` returned, all inside its payload,
followed by the two header writes.  None of these stores faults. -/
theorem accesses_inside_payload (m : Mem) (darray : Nat) (blk : Block) (s n : Nat)
    (h : Handle m darray blk s n) :
    (∀ i, i < n →
      _dynamic_array_index m darray i = .ok (some (s * i)) ∧
        (s * i) % U64 = s * i ∧ s * i + s ≤ s * n) ∧
    (∀ (i : Nat) (realloc : Option allocator_reallocate), i < n →
      _dynamic_array_remove m darray i realloc
        = ((store_all m darray ((List.range (s * (n - i - 1))).map fun k =>
            (HEADER_SIZE + s * i + k, blk.bytes (HEADER_SIZE + s * i + s + k)))).bind fun m1 =>
          _dynamic_array_resize m1 darray (n - 1) realloc) ∧
      (∀ k, k < s * (n - i - 1) →
        HEADER_SIZE ≤ HEADER_SIZE + s * i + k ∧ HEADER_SIZE + s * i + k < blk.size ∧
          HEADER_SIZE + s * i + s + k < blk.size) ∧
      ∃ m1, store_all m darray ((List.range (s * (n - i - 1))).map fun k =>
        (HEADER_SIZE + s * i + k, blk.bytes (HEADER_SIZE + s * i + s + k))) = .ok m1) ∧
    (∀ (v : List Nat) (realloc : allocator_reallocate), 0 < s → v.length = s →
      HEADER_SIZE + s * (n + 1) < U64 → ReallocateContract realloc →
      _dynamic_array_insert m darray (some v) s (some realloc)
        = ((_dynamic_array_resize m darray (n + 1) (some realloc)).bind fun r =>
          (store_all r.1 r.2 ((List.range s).map fun k =>
            (HEADER_SIZE + s * n + k, v.getD k 0))).bind fun m2 => .ok (m2, r.2)) ∧
      ∀ (m1 : Mem) (d1 : Nat),
        _dynamic_array_resize m darray (n + 1) (some realloc) = .ok (m1, d1) →
        ∃ blk1, m1 d1 = some blk1 ∧ blk1.size = HEADER_SIZE + s * (n + 1) ∧
          (∀ k, k < s →
            HEADER_SIZE ≤ HEADER_SIZE + s * n + k ∧ HEADER_SIZE + s * n + k < blk1.size) ∧
          ∃ m2, store_all m1 d1 ((List.range s).map fun k =>
            (HEADER_SIZE + s * n + k, v.getD k 0)) = .ok m2) ∧
    (∀ (m0 : Mem) (alloc : allocator_allocate) (m1 : Mem) (b : Nat) (blk0 : Block), 0 < s →
      alloc m0 (HEADER_SIZE + s * n) = some (m1, b) → m1 b = some blk0 →
      blk0.size = HEADER_SIZE + s * n →
      _dynamic_array_create m0 s n (some alloc)
        = ((store_all m1 b ((List.range (s * n)).map fun k => (HEADER_SIZE + k, 0))).bind
          fun m2 => (store64 m2 b 0 s).bind fun m3 =>
            (store64 m3 b 8 n).bind fun m4 => .ok (m4, b)) ∧
      (∀ k, k < s * n → HEADER_SIZE ≤ HEADER_SIZE + k ∧ HEADER_SIZE + k < blk0.size) ∧
      ∃ m2, store_all m1 b ((List.range (s * n)).map fun k => (HEADER_SIZE + k, 0))
        = .ok m2) := by
  have hsz := h.2.1
  have hlt := h.2.2.1
  have hfit : HEADER_SIZE + s * n < U64 := by rw [← hsz]; exact hlt
  refine ⟨?_, ?_, ?_, ?_⟩
  · intro i hi
    have h1 : s * (i + 1) ≤ s * n := Nat.mul_le_mul_left s hi
    have h2 : s * (i + 1) = s * i + s := Nat.mul_succ s i
    have h3 : (s * i) % U64 = s * i := Nat.mod_eq_of_lt (by omega)
    refine ⟨?_, h3, by omega⟩
    unfold _dynamic_array_index
    rw [h.load_length, bind_ok, if_pos hi, h.load_item_size, bind_ok, h3]
  · intro i realloc hi
    obtain ⟨_, _, e3⟩ := remove_shift_arith s n i hi hfit
    have hb : ∀ k, k < s * (n - i - 1) →
        HEADER_SIZE ≤ HEADER_SIZE + s * i + k ∧ HEADER_SIZE + s * i + k < blk.size ∧
          HEADER_SIZE + s * i + s + k < blk.size := by
      intro k hk
      omega
    refine ⟨remove_stores m darray blk s n i realloc h hi, hb, ?_⟩
    obtain ⟨m1, _, h1, _⟩ := store_all_ok ((List.range (s * (n - i - 1))).map fun k =>
        (HEADER_SIZE + s * i + k, blk.bytes (HEADER_SIZE + s * i + s + k))) m darray blk h.1 (by
      intro p hp
      obtain ⟨k, hk, rfl⟩ := List.mem_map.1 hp
      exact (hb k (List.mem_range.1 hk)).2.1)
    exact ⟨m1, h1⟩
  · intro v realloc hs hv hfit1 hc
    refine ⟨insert_resize_then_stores m darray blk s n v realloc h hs hv hfit1 hc, ?_⟩
    intro m1 d1 hres
    have hn1 : n + 1 < U64 := by
      have : 1 * (n + 1) ≤ s * (n + 1) := Nat.mul_le_mul_right _ hs
      omega
    obtain ⟨blk1, hh1⟩ := resize_ok_handle h hn1 hfit1 hc hres
    have e2 : s * (n + 1) = s * n + s := by ring
    have hsz1 := hh1.2.1
    have hb : ∀ k, k < s →
        HEADER_SIZE ≤ HEADER_SIZE + s * n + k ∧ HEADER_SIZE + s * n + k < blk1.size := by
      intro k hk
      omega
    obtain ⟨m2, _, h2, _⟩ := store_all_ok ((List.range s).map fun k =>
        (HEADER_SIZE + s * n + k, v.getD k 0)) m1 d1 blk1 hh1.1 (by
      intro p hp
      obtain ⟨k, hk, rfl⟩ := List.mem_map.1 hp
      exact (hb k (List.mem_range.1 hk)).2)
    exact ⟨blk1, hh1.1, hsz1, hb, m2, h2⟩
  · intro m0 alloc m1 b blk0 hs hcall hb0 hsz0
    have hb : ∀ k, k < s * n → HEADER_SIZE ≤ HEADER_SIZE + k ∧ HEADER_SIZE + k < blk0.size := by
      intro k hk
      omega
    obtain ⟨m2, _, h2, _⟩ := store_all_ok ((List.range (s * n)).map fun k =>
        (HEADER_SIZE + k, 0)) m1 b blk0 hb0 (by
      intro p hp
      obtain ⟨k, hk, rfl⟩ := List.mem_map.1 hp
      exact (hb k (List.mem_range.1 hk)).2)
    exact ⟨create_stores m0 s n alloc m1 b hs hfit hcall, hb, m2, h2⟩

/-- Witness of C19 (as amended): on the sample array of three 4-byte elements,
index 2, the removal of element 1, the insertion of a 4-byte value, and the
creation of such an array in the empty heap. -/
theorem accesses_inside_payload_witness :
    (_dynamic_array_index sample_mem 0 2 = .ok (some (4 * 2)) ∧
      (4 * 2) % U64 = 4 * 2 ∧ 4 * 2 + 4 ≤ 4 * 3) ∧
    (_dynamic_array_remove sample_mem 0 1 (some (realloc_move junk_FF))
      = ((store_all sample_mem 0 ((List.range (4 * (3 - 1 - 1))).map fun k =>
          (HEADER_SIZE + 4 * 1 + k, sample_block.bytes (HEADER_SIZE + 4 * 1 + 4 + k)))).bind
        fun m1 => _dynamic_array_resize m1 0 (3 - 1) (some (realloc_move junk_FF)))) ∧
    (_dynamic_array_insert sample_mem 0 (some [1, 2, 3, 4]) 4 (some (realloc_in_place junk_FF))
      = ((_dynamic_array_resize sample_mem 0 (3 + 1) (some (realloc_in_place junk_FF))).bind
        fun r => (store_all r.1 r.2 ((List.range 4).map fun k =>
          (HEADER_SIZE + 4 * 3 + k, [1, 2, 3, 4].getD k 0))).bind fun m2 => .ok (m2, r.2))) ∧
    (_dynamic_array_create empty_mem 4 3 (some (alloc_at 0 junk_FF))
      = ((store_all (Function.update empty_mem 0 (some ⟨28, junk_FF⟩)) 0
          ((List.range (4 * 3)).map fun k => (HEADER_SIZE + k, 0))).bind
        fun m2 => (store64 m2 0 0 4).bind fun m3 =>
          (store64 m3 0 8 3).bind fun m4 => .ok (m4, 0))) :=
  ⟨(accesses_inside_payload sample_mem 0 sample_block 4 3 sample_handle).1 2 (by decide),
    ((accesses_inside_payload sample_mem 0 sample_block 4 3 sample_handle).2.1 1
      (some (realloc_move junk_FF)) (by decide)).1,
    ((accesses_inside_payload sample_mem 0 sample_block 4 3 sample_handle).2.2.1 [1, 2, 3, 4]
      (realloc_in_place junk_FF) (by decide) rfl (by decide)
      (realloc_in_place_contract junk_FF)).1,
    ((accesses_inside_payload sample_mem 0 sample_block 4 3 sample_handle).2.2.2 empty_mem
      (alloc_at 0 junk_FF) (Function.update empty_mem 0 (some ⟨28, junk_FF⟩)) 0 ⟨28, junk_FF⟩
      (by decide) rfl (Function.update_same _ _ _) rfl).1⟩

/-- C19 as stated fails for the value write of `_dynamic_array_insert` when
`16 + s * n < 2^64` but `s * (n + 1)` does not fit 64 bits: on the handle of
`n = 3` elements of `s = 2^62 + 1` bytes (with a reallocator working in place)
the resize inside insert requests `(16 + 4 * s) mod 2^64 = 20` bytes and
returns a handle of length 4 over a 20-byte block; the value write starts at
`darray + (4 * s mod 2^64) - s = darray + 4 - s`, below the start of that
block, outside its payload: the call is an invalid access for every value. -/
theorem insert_write_outside_counterexample :
    Handle wide_mem 0 wide_block 4611686018427387905 3 ∧
    HEADER_SIZE + 4611686018427387905 * 3 < U64 ∧
    ReallocateContract (realloc_in_place junk_FF) ∧
    result_length (_dynamic_array_resize wide_mem 0 4 (some (realloc_in_place junk_FF)))
      = some 4 ∧
    result_item_size (_dynamic_array_resize wide_mem 0 4 (some (realloc_in_place junk_FF)))
      = some 4611686018427387905 ∧
    result_block_size (_dynamic_array_resize wide_mem 0 4 (some (realloc_in_place junk_FF)))
      = some 20 ∧
    HEADER_SIZE + (4 * 4611686018427387905) % U64 < 4611686018427387905 ∧
    (∀ v : List Nat,
      result_fault (_dynamic_array_insert wide_mem 0 (some v) 4611686018427387905
        (some (realloc_in_place junk_FF))) = some .invalid_access) := by
  refine ⟨wide_handle, by decide, realloc_in_place_contract junk_FF, by decide, by decide,
    by decide, by decide, ?_⟩
  intro v
  rw [wide_insert_fault v]
  rfl

end DynArray
